import Mathlib

/-!
# KindleTool `create.c`: a shallow embedding

The package builder of KindleTool (`src/KindleTool/create.c`) is embedded as
pure, executable Lean functions over explicit state.

* Memory is a list of bytes; a byte is a natural number (values `< 256` are
  produced by every integer store).  Integers are stored little-endian, the
  byte order `create.c` itself assumes ("little endian -> big endian").
* A heap buffer is a list of `Option Byte`; `none` is a byte that has never
  been written.  Reading or writing outside the buffer, or emitting a byte that
  was never written, has no defined result and the model returns `none`.
* A `FILE` is its content, its position, and two oracles that say when the
  medium starts to fail on reads and on writes.
* `kindle_tool.h` is not part of the sources at hand.  Its constants are the
  fields of `Consts`; the functions it declares and `create.c` calls
  (`md5_sum`, `md`, `munger`, `IS_SCRIPT`, `tmpfile`) are the fields of `Env`;
  the byte offsets of the members of `UpdateHeader` are the fields of `Layout`;
  the OpenSSL signing interface is `Evp`.
* File and directory names are the characters of C strings, as bytes.
-/

namespace KindleTool
/-! ## Bytes and integer stores -/

abbrev Byte := Nat
abbrev Bytes := List Nat

/-- The memory image of the low `n` bytes of `x` on a little-endian host: what
`memcpy(dst, &x, n)` copies. -/
def le : Nat → Nat → Bytes
  | 0, _ => []
  | n + 1, x => (x % 256) :: le n (x / 256)

/-- Reads a little-endian integer back from its bytes. -/
def unle : Bytes → Nat
  | [] => 0
  | b :: bs => b + 256 * unle bs

/-- The bytes of a C string stored at `s`: everything before the first NUL. -/
def cstr (s : Bytes) : Bytes := s.takeWhile (fun b => b != 0)

/-- C `strlen`. -/
def strlen (s : Bytes) : Nat := (cstr s).length

/-- C `strncpy(dst, src, n)`: the `n` bytes it stores at `dst`, which are the
characters of `src` up to its first NUL (at most `n` of them) and then NULs. -/
def strncpy (src : Bytes) (n : Nat) : Bytes :=
  (cstr src).take n ++ List.replicate (n - ((cstr src).take n).length) 0

/-! ## Constants of `kindle_tool.h` -/

/-- The preprocessor constants of `kindle_tool.h` that `create.c` uses. -/
structure Consts where
  BUFFER_SIZE : Nat
  BLOCK_SIZE : Nat
  MAGIC_NUMBER_LENGTH : Nat
  MD5_HASH_LENGTH : Nat
  OTA_UPDATE_BLOCK_SIZE : Nat
  OTA_UPDATE_V2_BLOCK_SIZE : Nat
  OTA_UPDATE_V2_PART_2_BLOCK_SIZE : Nat
  RECOVERY_UPDATE_BLOCK_SIZE : Nat
  UPDATE_SIGNATURE_BLOCK_SIZE : Nat
  INDEX_FILE_NAME : Bytes
  INDEX_SIG_FILE_NAME : Bytes

/-- Largest value of a C `int` (32 bits). -/
def INT_MAX : Nat := 2147483647

/-- Largest value of a `uint32_t`. -/
def UINT32_MAX : Nat := 4294967295

/-! ## Heap buffers -/

/-- A heap buffer: `none` marks a byte that was never written. -/
abbrev Buf := List (Option Nat)

/-- C `malloc(n)`. -/
def malloc (n : Nat) : Buf := List.replicate n none

/-- C `realloc(p, n)`: the old content up to the smaller of the two sizes, the
rest never written. -/
def realloc (p : Buf) (n : Nat) : Buf :=
  p.take n ++ List.replicate (n - p.length) none

/-- A store of the bytes `src` at `&p[i]`; no result when it leaves the buffer. -/
def poke (p : Buf) (i : Nat) (src : Bytes) : Option Buf :=
  if i + src.length ≤ p.length then
    some (p.take i ++ src.map some ++ p.drop (i + src.length))
  else none

/-- The values of a run of buffer bytes, when every one of them was written. -/
def Buf.bytes : Buf → Option Bytes
  | [] => some []
  | none :: _ => none
  | some b :: t => (Buf.bytes t).map (fun bs => b :: bs)

/-- A load of `n` bytes at `&p[i]`; no result when it leaves the buffer or
touches a byte that was never written. -/
def peek (p : Buf) (i n : Nat) : Option Bytes :=
  if i + n ≤ p.length then Buf.bytes ((p.drop i).take n) else none

/-! ## Streams -/

/-- A stdio stream over a file.
`rlimit = some k`: the medium fails once a read needs the byte at offset `k`.
`wroom = some r`: only `r` more bytes can be written. -/
structure FILE where
  data : Bytes
  pos : Nat
  rlimit : Option Nat
  wroom : Option Nat
  error : Bool
deriving DecidableEq, Repr

/-- The part of the content that reads can deliver. -/
def FILE.readable (f : FILE) : Bytes :=
  match f.rlimit with
  | none => f.data
  | some k => f.data.take k

/-- C `fread(buf, 1, n, f)`: the bytes read and the stream afterwards.  A read
cut short by the medium (not by end of file) sets the error indicator. -/
def fread (n : Nat) (f : FILE) : Bytes × FILE :=
  let chunk := (f.readable.drop f.pos).take n
  (chunk, { f with pos := f.pos + chunk.length,
                   error := f.error ||
                     (decide (chunk.length < n) && decide (f.readable.length < f.data.length)) })

/-- C `fwrite(bs, 1, bs.length, f)`: the number of bytes written and the stream
afterwards.  A short write sets the error indicator. -/
def fwrite (bs : Bytes) (f : FILE) : Nat × FILE :=
  let k := match f.wroom with
    | none => bs.length
    | some r => min r bs.length
  (k, { f with data := f.data.take f.pos ++ bs.take k ++ f.data.drop (f.pos + k),
               pos := f.pos + k,
               wroom := f.wroom.map (fun r => r - k),
               error := f.error || decide (k < bs.length) })

/-- C `rewind(f)`: back to the start, error indicator cleared. -/
def rewind (f : FILE) : FILE := { f with pos := 0, error := false }

/-- C `ferror(f)`. -/
def ferror (f : FILE) : Bool := f.error

/-! ## The collaborators declared in `kindle_tool.h` -/

/-- The functions `create.c` calls but does not define.
* `md5_sum f` is the return code of `md5_sum(f, out)` and the bytes it stores
  at `out`; it only reads `f`.
* `md bs` is the content of a buffer holding `bs` after `md(buf, bs.length)`.
* `munger inp out` is the return code of `munger(inp, out, 0)` and the stream
  `out` afterwards.
* `tmpfile` is the stream `tmpfile()` returns, `none` for `NULL`. -/
structure Env where
  md5_sum : FILE → Int × Bytes
  md : Bytes → Bytes
  munger : FILE → FILE → Int × FILE
  IS_SCRIPT : Bytes → Bool
  tmpfile : Option FILE

/-! ## `UpdateInformation` -/

/-- The values of `BundleVersion`. -/
inductive BundleVersion where
  | UpdateSignature
  | OTAUpdateV2
  | OTAUpdate
  | RecoveryUpdate
  | UnknownUpdate
deriving DecidableEq, Repr

/-- The request record `UpdateInformation`.  `devices` and `metastrings` are
the arrays the two pointers refer to; `num_devices` and `num_meta` are the
counters stored next to them. -/
structure UpdateInformation where
  magic_number : Bytes
  version : BundleVersion
  sign_pkey : Nat
  source_revision : Nat
  target_revision : Nat
  magic_1 : Nat
  magic_2 : Nat
  minor : Nat
  num_devices : Nat
  devices : List Nat
  certificate_number : Nat
  critical : Nat
  optional : Nat
  num_meta : Nat
  metastrings : List Bytes

/-! ## `kindle_create_ota_update_v2` -/

/-- The three locals `header_size`, `header` and `index` of
`kindle_create_ota_update_v2`. -/
structure HeaderState where
  header_size : Nat
  header : Buf
  index : Nat

/-- The statement pair `header_size += extra; header = realloc(header, header_size);`.
`header_size` is an `int`: no result when the sum leaves its range. -/
def HeaderState.grow (st : HeaderState) (extra : Nat) : Option HeaderState :=
  if st.header_size + extra > INT_MAX then none
  else some { st with header_size := st.header_size + extra,
                      header := realloc st.header (st.header_size + extra) }

/-- The statement pair `memcpy(&header[index], src, n); index += n;` where `src`
are the `n` bytes copied. -/
def HeaderState.put (st : HeaderState) (src : Bytes) : Option HeaderState :=
  (poke st.header st.index src).map
    (fun h => { st with header := h, index := st.index + src.length })

/-- The statement pair `header_size = n; header = malloc(header_size);` with
`index = 0`. -/
def HeaderState.init (n : Nat) : Option HeaderState :=
  if n > INT_MAX then none else some ⟨n, malloc n, 0⟩

/-- The loop `for(i = 0; i < info->num_devices; i++)` of
`kindle_create_ota_update_v2`, with `n` iterations left. -/
def ota2_devices_loop (devices : List Nat) :
    Nat → Nat → HeaderState → Option HeaderState
  | 0, _, st => some st
  | n + 1, i, st => do
    let d ← devices[i]?
    let st ← st.put (le 2 d)
    ota2_devices_loop devices n (i + 1) st

/-- One iteration of the loop over the meta strings: the size grows by the
string and its prefix, the length goes in most significant byte first (bytes 1
and 0 of `str_len`), then `strncpy` stores `str_len` characters. -/
def ota2_meta_step (s : Bytes) (st : HeaderState) : Option HeaderState := do
  let str_len := strlen s
  let st ← st.grow (str_len + 2)
  let st ← st.put [str_len / 256 % 256]
  let st ← st.put [str_len % 256]
  let h ← poke st.header st.index (strncpy s str_len)
  some { st with header := h, index := st.index + str_len }

/-- The loop `for(i = 0; i < info->num_meta; i++)` of
`kindle_create_ota_update_v2`, with `n` iterations left. -/
def ota2_meta_loop (metastrings : List Bytes) :
    Nat → Nat → HeaderState → Option HeaderState
  | 0, _, st => some st
  | n + 1, i, st => do
    let s ← metastrings[i]?
    let st ← ota2_meta_step s st
    ota2_meta_loop metastrings n (i + 1) st

/-- The first part of `kindle_create_ota_update_v2`: `malloc`, magic number,
revisions, device count, devices, critical flag and padding byte. -/
def ota2_header_front (c : Consts) (info : UpdateInformation) : Option HeaderState := do
  let st ← HeaderState.init (c.MAGIC_NUMBER_LENGTH + c.OTA_UPDATE_V2_BLOCK_SIZE)
  let st ← st.put (strncpy info.magic_number c.MAGIC_NUMBER_LENGTH)
  let st ← st.put (le 8 info.source_revision)
  let st ← st.put (le 8 info.target_revision)
  let st ← st.put (le 2 info.num_devices)
  let st ← st.grow (info.num_devices * 2)
  let st ← ota2_devices_loop info.devices info.num_devices 0 st
  let st ← st.grow c.OTA_UPDATE_V2_PART_2_BLOCK_SIZE
  let st ← st.put (le 1 info.critical)
  st.put [0]

/-- The second part of `kindle_create_ota_update_v2`, once `md5_sum` has stored
`digest` at `&header[index]`: `md` over `MD5_HASH_LENGTH` bytes in place, the
meta count and the meta strings. -/
def ota2_header_back (c : Consts) (env : Env) (info : UpdateInformation)
    (digest : Bytes) (st : HeaderState) : Option HeaderState := do
  let h ← poke st.header st.index digest
  let hash ← peek h st.index c.MD5_HASH_LENGTH
  let h ← poke h st.index ((env.md hash).take c.MD5_HASH_LENGTH)
  let st := { st with header := h, index := st.index + c.MD5_HASH_LENGTH }
  let st ← st.put (le 2 info.num_meta)
  ota2_meta_loop info.metastrings info.num_meta 0 st

/-- The header part of `kindle_create_ota_update_v2`, up to the `fwrite`: the
return code so far (`-1` when `md5_sum` failed) and the locals. -/
def ota2_build_header (c : Consts) (env : Env) (info : UpdateInformation)
    (input_tgz : FILE) : Option (Int × HeaderState) := do
  let st ← ota2_header_front c info
  if (env.md5_sum input_tgz).1 < 0 then some (-1, st)
  else (ota2_header_back c env info (env.md5_sum input_tgz).2 st).map (fun st => (0, st))

/-- `kindle_create_ota_update_v2(info, input_tgz, output)`: the return code and
`output` afterwards. -/
def kindle_create_ota_update_v2 (c : Consts) (env : Env) (info : UpdateInformation)
    (input_tgz output : FILE) : Option (Int × FILE) := do
  let (rc, st) ← ota2_build_header c env info input_tgz
  if rc < 0 then some (-1, output)
  else do
    let bytes ← peek st.header 0 st.header_size
    if (fwrite bytes output).1 < st.header_size then some (-1, (fwrite bytes output).2)
    else some (env.munger (rewind input_tgz) (fwrite bytes output).2)

/-! ## `sign_file` -/

/-- The OpenSSL calls of `sign_file`, over a digest context type `Ctx`.
`none` and `false` are the failure results (`0` in C). -/
structure Evp (Ctx : Type) where
  EVP_PKEY_set1_RSA : Nat → Bool
  EVP_SignInit : Option Ctx
  EVP_SignUpdate : Ctx → Bytes → Option Ctx
  EVP_SignFinal : Ctx → Nat → Option Bytes

/-- At most `n` rounds of the loop
`while((len = fread(buffer, 1, BUFFER_SIZE, in_file)) > 0)` of `sign_file`:
the context after the last update (`none` when an update failed) and the
stream afterwards. -/
def sign_loop_rounds {Ctx : Type} (evp : Evp Ctx) (BUFFER_SIZE : Nat) :
    Nat → Ctx → FILE → Option Ctx × FILE
  | 0, ctx, in_file => (some ctx, in_file)
  | n + 1, ctx, in_file =>
    if 0 < (fread BUFFER_SIZE in_file).1.length then
      match evp.EVP_SignUpdate ctx (fread BUFFER_SIZE in_file).1 with
      | none => (none, (fread BUFFER_SIZE in_file).2)
      | some ctx => sign_loop_rounds evp BUFFER_SIZE n ctx (fread BUFFER_SIZE in_file).2
    else (some ctx, (fread BUFFER_SIZE in_file).2)

/-- The loop `while((len = fread(buffer, 1, BUFFER_SIZE, in_file)) > 0)` of
`sign_file`.  Every round but the last reads at least one byte, so one round
per byte left to read and one more are enough for the loop to end. -/
def sign_loop {Ctx : Type} (evp : Evp Ctx) (BUFFER_SIZE : Nat) (ctx : Ctx) (in_file : FILE) :
    Option Ctx × FILE :=
  sign_loop_rounds evp BUFFER_SIZE (in_file.readable.length - in_file.pos + 1) ctx in_file

/-- `sign_file(in_file, rsa_pkey, sigout_file)`: the return code and the two
streams afterwards. -/
def sign_file {Ctx : Type} (c : Consts) (evp : Evp Ctx) (in_file : FILE) (rsa_pkey : Nat)
    (sigout_file : FILE) : Int × FILE × FILE :=
  if evp.EVP_PKEY_set1_RSA rsa_pkey = false then (-2, in_file, sigout_file)
  else
    match evp.EVP_SignInit with
    | none => (-3, in_file, sigout_file)
    | some ctx =>
      match sign_loop evp c.BUFFER_SIZE ctx in_file with
      | (none, in_file) => (-4, in_file, sigout_file)
      | (some ctx, in_file) =>
        if ferror in_file then (-5, in_file, sigout_file)
        else
          match evp.EVP_SignFinal ctx rsa_pkey with
          | none => (-6, in_file, sigout_file)
          | some sig =>
            if (fwrite sig sigout_file).1 < sig.length then
              (-7, in_file, (fwrite sig sigout_file).2)
            else (0, in_file, (fwrite sig sigout_file).2)

/-! ## `UpdateHeader` and the fixed-size headers -/

/-- The size of `UpdateHeader` and the byte offsets of its members, as the
declaration in `kindle_tool.h` fixes them. -/
structure Layout where
  sizeof_UpdateHeader : Nat
  magic_number : Nat
  signature_certificate_number : Nat
  ota_source_revision : Nat
  ota_target_revision : Nat
  ota_device : Nat
  ota_optional : Nat
  ota_md5_sum : Nat
  recovery_magic_1 : Nat
  recovery_magic_2 : Nat
  recovery_minor : Nat
  recovery_device : Nat
  recovery_md5_sum : Nat

/-- C `memset(&header, 0, n)` on a fresh object of `n` bytes. -/
def memset0 (n : Nat) : Bytes := List.replicate n 0

/-- A store of `src` at byte offset `off` of an object; no result when it
leaves the object. -/
def store (obj : Bytes) (off : Nat) (src : Bytes) : Option Bytes :=
  if off + src.length ≤ obj.length then
    some (obj.take off ++ src ++ obj.drop (off + src.length))
  else none

/-- A load of `n` bytes at byte offset `off` of an object; no result when it
leaves the object. -/
def load (obj : Bytes) (off n : Nat) : Option Bytes :=
  if off + n ≤ obj.length then some ((obj.drop off).take n) else none

/-- The characters of the string literal `"SP01"` with its terminator. -/
def SP01 : Bytes := [83, 80, 48, 49, 0]

/-- The record `kindle_create_signature` fills in: zeroed, magic `"SP01"`,
`certificate_number` cast to `uint32_t`. -/
def signature_header (L : Layout) (info : UpdateInformation) : Option Bytes := do
  let header := memset0 L.sizeof_UpdateHeader
  let header ← store header L.magic_number (strncpy SP01 4)
  store header L.signature_certificate_number (le 4 (info.certificate_number % 2 ^ 32))

/-- `kindle_create_signature(info, input_bin, output)`: the return code and the
two streams afterwards. -/
def kindle_create_signature {Ctx : Type} (c : Consts) (L : Layout) (evp : Evp Ctx)
    (info : UpdateInformation) (input_bin output : FILE) : Option (Int × FILE × FILE) := do
  let header ← signature_header L info
  let record ← load header 0 (c.MAGIC_NUMBER_LENGTH + c.UPDATE_SIGNATURE_BLOCK_SIZE)
  if (fwrite record output).1 < c.MAGIC_NUMBER_LENGTH + c.UPDATE_SIGNATURE_BLOCK_SIZE then
    some (-1, input_bin, (fwrite record output).2)
  else if (sign_file c evp input_bin info.sign_pkey (fwrite record output).2).1 < 0 then
    some (-1, (sign_file c evp input_bin info.sign_pkey (fwrite record output).2).2)
  else
    some (0, (sign_file c evp input_bin info.sign_pkey (fwrite record output).2).2)

/-- The record the two fixed-size builders write, once the plain fields are
stored in `header` and `md5_sum` has succeeded: the digest `md5_sum` stored in
the member at offset `off`, `md` over `MD5_HASH_LENGTH` bytes of it in place,
and the first `size` bytes of the object. -/
def fixed_header_record (c : Consts) (env : Env) (header : Bytes) (off size : Nat)
    (input_tgz : FILE) : Option Bytes := do
  let header ← store header off (env.md5_sum input_tgz).2
  let hash ← load header off c.MD5_HASH_LENGTH
  let header ← store header off ((env.md hash).take c.MD5_HASH_LENGTH)
  load header 0 size

/-- The part shared by the two fixed-size builders once the plain fields are
stored: `md5_sum` into the digest member, `rewind`, `md`, `fwrite` of the
record, `munger`. -/
def fixed_header_finish (c : Consts) (env : Env) (header : Bytes) (off size : Nat)
    (input_tgz output : FILE) : Option (Int × FILE) :=
  if (env.md5_sum input_tgz).1 < 0 then some (-1, output)
  else do
    let record ← fixed_header_record c env header off size input_tgz
    if (fwrite record output).1 < size then some (-1, (fwrite record output).2)
    else some (env.munger (rewind input_tgz) (fwrite record output).2)

/-- The plain fields of the OTA record of `kindle_create_ota_update`: zeroed,
magic number, both revisions cast to `uint32_t`, `devices[0]` cast to
`uint16_t`, `optional` cast to `unsigned char`. -/
def ota_update_fields (L : Layout) (info : UpdateInformation) : Option Bytes := do
  let header := memset0 L.sizeof_UpdateHeader
  let header ← store header L.magic_number (strncpy info.magic_number 4)
  let header ← store header L.ota_source_revision (le 4 (info.source_revision % 2 ^ 32))
  let header ← store header L.ota_target_revision (le 4 (info.target_revision % 2 ^ 32))
  let device ← info.devices[0]?
  let header ← store header L.ota_device (le 2 (device % 2 ^ 16))
  store header L.ota_optional (le 1 (info.optional % 2 ^ 8))

/-- `kindle_create_ota_update(info, input_tgz, output)`: the return code and
`output` afterwards. -/
def kindle_create_ota_update (c : Consts) (L : Layout) (env : Env) (info : UpdateInformation)
    (input_tgz output : FILE) : Option (Int × FILE) := do
  let header ← ota_update_fields L info
  fixed_header_finish c env header L.ota_md5_sum
    (c.MAGIC_NUMBER_LENGTH + c.OTA_UPDATE_BLOCK_SIZE) input_tgz output

/-- The plain fields of the recovery record of `kindle_create_recovery`: zeroed,
magic number, `magic_1`, `magic_2`, `minor` and `devices[0]` cast to
`uint32_t`. -/
def recovery_fields (L : Layout) (info : UpdateInformation) : Option Bytes := do
  let header := memset0 L.sizeof_UpdateHeader
  let header ← store header L.magic_number (strncpy info.magic_number 4)
  let header ← store header L.recovery_magic_1 (le 4 (info.magic_1 % 2 ^ 32))
  let header ← store header L.recovery_magic_2 (le 4 (info.magic_2 % 2 ^ 32))
  let header ← store header L.recovery_minor (le 4 (info.minor % 2 ^ 32))
  let device ← info.devices[0]?
  store header L.recovery_device (le 4 (device % 2 ^ 32))

/-- `kindle_create_recovery(info, input_tgz, output)`: the return code and
`output` afterwards. -/
def kindle_create_recovery (c : Consts) (L : Layout) (env : Env) (info : UpdateInformation)
    (input_tgz output : FILE) : Option (Int × FILE) := do
  let header ← recovery_fields L info
  fixed_header_finish c env header L.recovery_md5_sum
    (c.MAGIC_NUMBER_LENGTH + c.RECOVERY_UPDATE_BLOCK_SIZE) input_tgz output

/-! ## `kindle_create` -/

/-- At most `n` rounds of the loop
`while((count = fread(buffer, 1, BUFFER_SIZE, temp)) > 0)` of `kindle_create`:
`true` when a write came up short, and the two streams afterwards. -/
def copy_loop_rounds (BUFFER_SIZE : Nat) : Nat → FILE → FILE → Bool × FILE × FILE
  | 0, temp, output => (false, temp, output)
  | n + 1, temp, output =>
    if 0 < (fread BUFFER_SIZE temp).1.length then
      if (fwrite (fread BUFFER_SIZE temp).1 output).1 < (fread BUFFER_SIZE temp).1.length then
        (true, (fread BUFFER_SIZE temp).2, (fwrite (fread BUFFER_SIZE temp).1 output).2)
      else
        copy_loop_rounds BUFFER_SIZE n (fread BUFFER_SIZE temp).2
          (fwrite (fread BUFFER_SIZE temp).1 output).2
    else (false, (fread BUFFER_SIZE temp).2, output)

/-- The loop `while((count = fread(buffer, 1, BUFFER_SIZE, temp)) > 0)` of
`kindle_create`.  Every round but the last reads at least one byte, so one
round per byte left to read and one more are enough for the loop to end. -/
def copy_loop (BUFFER_SIZE : Nat) (temp output : FILE) : Bool × FILE × FILE :=
  copy_loop_rounds BUFFER_SIZE (temp.readable.length - temp.pos + 1) temp output

/-- The `OTAUpdateV2` case of `kindle_create` once `tmpfile()` has returned
`temp`. -/
def kindle_create_two_stage {Ctx : Type} (c : Consts) (L : Layout) (env : Env) (evp : Evp Ctx)
    (info : UpdateInformation) (input_tgz temp output : FILE) : Option (Int × FILE) := do
  let stage1 ← kindle_create_ota_update_v2 c env info input_tgz temp
  if stage1.1 < 0 then some (-1, output)
  else do
    let signed ← kindle_create_signature c L evp info (rewind stage1.2) output
    if signed.1 < 0 then some (-1, signed.2.2)
    else
      let copied := copy_loop c.BUFFER_SIZE (rewind signed.2.1) signed.2.2
      if copied.1 then some (-1, copied.2.2)
      else if ferror copied.2.1 then some (-1, copied.2.2)
      else some (0, copied.2.2)

/-- `kindle_create(info, input_tgz, output)`: the return code and `output`
afterwards. -/
def kindle_create {Ctx : Type} (c : Consts) (L : Layout) (env : Env) (evp : Evp Ctx)
    (info : UpdateInformation) (input_tgz output : FILE) : Option (Int × FILE) :=
  match info.version with
  | .OTAUpdateV2 =>
    match env.tmpfile with
    | none => some (-1, output)
    | some temp => kindle_create_two_stage c L env evp info input_tgz temp output
  | .OTAUpdate => kindle_create_ota_update c L env info input_tgz output
  | .RecoveryUpdate => kindle_create_recovery c L env info input_tgz output
  | _ => some (-1, output)

/-! ## The signed archive: `kindle_sign_and_add_files` -/

/-- What a directory entry that is not a directory looks like to the walk.
`stream` is what `fopen(d_name, "r")` returns and `sigfile` what
`fopen(temp_sig, "w")` returns while this entry is processed (`none` for
`NULL`); `stat_ok` and `chmod_ok` say whether `stat` and `chmod` succeed. -/
structure FileEnt where
  d_name : Bytes
  stat_ok : Bool
  st_size : Nat
  stream : Option FILE
  sigfile : Option FILE
  chmod_ok : Bool

/-- A directory entry as `readdir` and `stat` present it.  For a directory,
`listing` is what `opendir(".")` enumerates after `chdir(d_name)`, `none` when
`opendir` returns `NULL`.  The entries `.` and `..` are directories. -/
inductive Entry where
  | file (f : FileEnt)
  | dir (d_name : Bytes) (stat_ok chdir_ok : Bool) (listing : Option (List Entry))

/-- The archive handle of libtar: the members appended so far, each with its
saved name and content, and the number of members it still accepts (`none`:
no limit). -/
structure TAR where
  entries : List (Bytes × Bytes)
  room : Option Nat
deriving DecidableEq, Repr

/-- C `tar_append_file(t, realname, savename)` for a file whose content is
`content`. -/
def tar_append_file (t : TAR) (content savename : Bytes) : Int × TAR :=
  match t.room with
  | some 0 => (-1, t)
  | some (r + 1) => (0, { entries := t.entries ++ [(savename, content)], room := some r })
  | none => (0, { t with entries := t.entries ++ [(savename, content)] })

/-- Resource events.  Handles are numbered in the order they are opened; names
made by `tmpnam` are numbered in the order they are made. -/
inductive Event where
  | fopen (handle : Nat)
  | fclose (handle : Nat)
  | opendir (handle : Nat)
  | closedir (handle : Nat)
  | create (tmp : Nat)
  | remove (tmp : Nat)
  | remove_index_name
  | tar_close
  | tar_append_eof
deriving DecidableEq, Repr

/-- The state the walk threads through: the index stream, the archive, the
resource events so far, and the next unused handle and `tmpnam` numbers. -/
structure Walk where
  index : FILE
  tar : TAR
  log : List Event
  handles : Nat
  tmps : Nat
deriving DecidableEq, Repr

/-- The handle locals of one call of `kindle_sign_and_add_files`, and the
number of its `temp_sig` name.  A local keeps its value after the handle is
closed. -/
structure Locals where
  file : Option Nat
  sigfile : Option Nat
  next : Option Nat
  temp_sig : Nat

/-- The statement `if(p != NULL) close(p);` where `ev h` is the event of
closing the handle `h`: the log afterwards.  Closing a handle that the log
shows closed already has no defined result. -/
def close_if (ev : Nat → Event) (log : List Event) : Option Nat → Option (List Event)
  | none => some log
  | some h => if ev h ∈ log then none else some (log ++ [ev h])

/-- The label `on_error` of `kindle_sign_and_add_files`: the return code and
the state.  No result when `file`, `sigfile` or `next` still holds a handle
that was closed before. -/
def on_error (loc : Locals) (w : Walk) : Option (Int × Walk) := do
  let log ← close_if Event.fclose w.log loc.file
  let log ← close_if Event.fclose log loc.sigfile
  let log ← close_if Event.closedir log loc.next
  some (-1, { w with log := log ++ [Event.remove loc.temp_sig] })

/-- The statement `goto on_error;` as the loop body sees it: the walk stops
with the code and the state `on_error` gives. -/
def goto_on_error (loc : Locals) (w : Walk) : Option (Option Int × Locals × Walk) :=
  (on_error loc w).map (fun r => (some r.1, loc, r.2))

/-- The decimal digits `printf` writes for `%d` and `%lld` with a value that is
not negative. -/
def decimal (n : Nat) : Bytes := (Nat.toDigits 10 n).map Char.toNat

/-- The array `char md5[MD5_HASH_LENGTH+1]` after `md5_sum` has stored `digest`
in it and `md5[MD5_HASH_LENGTH] = 0` was set.  No result when `md5_sum` stored
past the array. -/
def md5_array (c : Consts) (digest : Bytes) : Option Buf := do
  let md5 ← poke (malloc (c.MD5_HASH_LENGTH + 1)) 0 digest
  poke md5 c.MD5_HASH_LENGTH [0]

/-- The characters `%s` prints for a `char` array: the bytes before the first
NUL.  No result when a byte that was never written is read. -/
def printed_string (a : Buf) : Option Bytes :=
  Buf.bytes (a.takeWhile (fun b => b != some 0))

/-- The line `fprintf(out_index, "%d %s %s %lld %s\n", ...)` writes when the
type code is `code`, the `md5` string is `md5`, the path is `absname`, the
block count is `blocks` and the name is `d_name`. -/
def index_line (code : Nat) (md5 absname : Bytes) (blocks : Nat) (d_name : Bytes) : Bytes :=
  decimal code ++ [32] ++ md5 ++ [32] ++ absname ++ [32] ++ decimal blocks ++ [32] ++ d_name
    ++ [10]

/-- The second half of the `else` branch of the loop body, from
`// add file to index` on.  `hf` and `hs` are the handles of `file` and
`sigfile`, `sig` is the content of the scratch signature file. -/
def add_to_index_and_tar (c : Consts) (env : Env) (f : FileEnt) (absname : Bytes)
    (file : FILE) (md5 : Buf) (sig : Bytes) (hf hs : Nat) (loc : Locals) (w : Walk) :
    Option (Option Int × Locals × Walk) :=
  if c.BLOCK_SIZE = 0 then none
  else
    match printed_string md5 with
    | none => none
    | some md5 =>
      let line := index_line (if env.IS_SCRIPT f.d_name then 129 else 128) md5 absname
        (f.st_size / c.BLOCK_SIZE) f.d_name
      let w1 := { w with index := (fwrite line w.index).2 }
      if (fwrite line w.index).1 < line.length then goto_on_error loc w1
      else
        let w2 := { w1 with log := w1.log ++ [Event.fclose hf] }
        if (tar_append_file w2.tar file.data absname).1 < 0 then
          goto_on_error loc w2
        else
          let w3 := { w2 with tar := (tar_append_file w2.tar file.data absname).2,
                              log := w2.log ++ [Event.fclose hs] }
          if (tar_append_file w3.tar sig (absname ++ [46, 115, 105, 103])).1 < 0 then
            goto_on_error loc w3
          else
            some (none, loc,
              { w3 with tar := (tar_append_file w3.tar sig (absname ++ [46, 115, 105, 103])).2,
                        log := w3.log ++ [Event.remove loc.temp_sig] })

/-- The `else` branch of the loop body of `kindle_sign_and_add_files`, for an
entry that is not a directory, after `stat` succeeded: the return code when
the walk stops here (`none` to go on with the next entry), the locals and the
state.  The outer `Option` is `none` when the C code has no defined result
(`md5_sum` stores past `md5`, `BLOCK_SIZE` is 0, `md5` is read where it was
never written, or `on_error` closes a handle a second time). -/
def add_file {Ctx : Type} (c : Consts) (env : Env) (evp : Evp Ctx) (rsa_pkey_file : Nat)
    (f : FileEnt) (absname : Bytes) (loc : Locals) (w : Walk) :
    Option (Option Int × Locals × Walk) :=
  match f.stream with
  | none => goto_on_error { loc with file := none } w
  | some file =>
    let hf := w.handles
    let loc1 := { loc with file := some hf }
    let w1 := { w with log := w.log ++ [Event.fopen hf], handles := w.handles + 1 }
    if (env.md5_sum file).1 ≠ 0 then goto_on_error loc1 w1
    else
      match md5_array c (env.md5_sum file).2 with
      | none => none
      | some md5 =>
        match f.sigfile with
        | none => goto_on_error { loc1 with sigfile := none } w1
        | some sigfile =>
          let hs := w1.handles
          let loc2 := { loc1 with sigfile := some hs }
          let w2 := { w1 with log := w1.log ++ [Event.fopen hs, Event.create loc.temp_sig],
                              handles := w1.handles + 1 }
          if (sign_file c evp (rewind file) rsa_pkey_file sigfile).1 < 0 then
            goto_on_error loc2 w2
          else if env.IS_SCRIPT f.d_name = true ∧ f.chmod_ok = false then
            goto_on_error loc2 w2
          else
            add_to_index_and_tar c env f absname file md5
              (sign_file c evp (rewind file) rsa_pkey_file sigfile).2.2.data hf hs loc2 w2

/-- The handle locals with which a call of `kindle_sign_and_add_files` starts:
all `NULL`, and `temp_sig` the name `tmpnam` makes on entry. -/
def entry_locals (w : Walk) : Locals :=
  { file := none, sigfile := none, next := none, temp_sig := w.tmps }

/-- The state after the `tmpnam(temp_sig)` with which a call starts. -/
def entry_state (w : Walk) : Walk := { w with tmps := w.tmps + 1 }

mutual
/-- The body of the loop `while ((ent = readdir (dir)) != NULL)` of
`kindle_sign_and_add_files` for one entry: the return code when the walk stops
here (`none` to go on with the next entry), the locals and the state.  The
recursive call for a subdirectory is the loop over its entries, started with
`entry_locals` and `entry_state`. -/
def sign_and_add_entry {Ctx : Type} (c : Consts) (env : Env) (evp : Evp Ctx)
    (rsa_pkey_file : Nat) :
    Entry → Bytes → Locals → Walk → Option (Option Int × Locals × Walk)
  | Entry.file f, dirname, loc, w =>
    if f.stat_ok = false then goto_on_error loc w
    else add_file c env evp rsa_pkey_file f (dirname ++ f.d_name) loc w
  | Entry.dir d_name stat_ok chdir_ok listing, dirname, loc, w =>
    if stat_ok = false then goto_on_error loc w
    else if d_name = [46, 46] ∨ d_name = [46] then some (none, loc, w)
    else if chdir_ok = false then goto_on_error loc w
    else
      match listing with
      | none =>
        goto_on_error { loc with next := none } w
      | some sub =>
        match sign_and_add_loop c env evp rsa_pkey_file sub (dirname ++ d_name ++ [47])
            (entry_locals { w with log := w.log ++ [Event.opendir w.handles],
                                   handles := w.handles + 1 })
            (entry_state { w with log := w.log ++ [Event.opendir w.handles],
                                  handles := w.handles + 1 }) with
        | none => none
        | some (rc, w2) =>
          if rc < 0 then
            goto_on_error { loc with next := some w.handles } w2
          else
            some (none, { loc with next := some w.handles },
              { w2 with log := w2.log ++ [Event.closedir w.handles] })
/-- The loop `while ((ent = readdir (dir)) != NULL)` of
`kindle_sign_and_add_files` over the entries not yet read, and the code after
it: the return code and the state. -/
def sign_and_add_loop {Ctx : Type} (c : Consts) (env : Env) (evp : Evp Ctx)
    (rsa_pkey_file : Nat) :
    List Entry → Bytes → Locals → Walk → Option (Int × Walk)
  | [], _, _, w => some (0, w)
  | ent :: rest, dirname, loc, w =>
    match sign_and_add_entry c env evp rsa_pkey_file ent dirname loc w with
    | none => none
    | some (some rc, _, w) => some (rc, w)
    | some (none, loc, w) => sign_and_add_loop c env evp rsa_pkey_file rest dirname loc w
end

/-- `kindle_sign_and_add_files(dir, dirname, rsa_pkey_file, out_index, out_tar)`
where `dir` enumerates `entries`: the return code and the state. -/
def kindle_sign_and_add_files {Ctx : Type} (c : Consts) (env : Env) (evp : Evp Ctx)
    (rsa_pkey_file : Nat) (entries : List Entry) (dirname : Bytes) (w : Walk) :
    Option (Int × Walk) :=
  sign_and_add_loop c env evp rsa_pkey_file entries dirname (entry_locals w) (entry_state w)

/-! ## `kindle_create_tar_from_directory` -/

/-- What the system hands to `kindle_create_tar_from_directory`: whether
`chdir(path)` succeeds, what `opendir(".")` enumerates, and what the two
`fopen` calls and `tar_fdopen` return (`none` for failure). -/
structure World where
  chdir_ok : Bool
  dir : Option (List Entry)
  index_file : Option FILE
  tar : Option TAR
  index_sig_file : Option FILE

/-- The end of `kindle_create_tar_from_directory`, from `// sign index` on:
handle 0 is `dir`, handle 1 is `index_file`, name 0 is `temp_index`.  No
result when `fclose` is called on the `NULL` stream of a failed `fopen`, or on
`index_file` a second time after an append failed. -/
def sign_index {Ctx : Type} (c : Consts) (evp : Evp Ctx) (world : World) (rsa_pkey : Nat)
    (w : Walk) : Option (Int × Walk) :=
  let temp_index_sig := w.tmps
  match world.index_sig_file with
  | none => none
  | some index_sig_file =>
    let h := w.handles
    let signed := sign_file c evp (rewind w.index) rsa_pkey index_sig_file
    let w := { w with tmps := w.tmps + 1, handles := w.handles + 1, index := signed.2.1,
                      log := w.log ++ [Event.fopen h, Event.create temp_index_sig] }
    if signed.1 < 0 then
      some (-1, { w with log := w.log ++ [Event.fclose 1, Event.fclose h, Event.tar_close,
                                          Event.remove 0] })
    else
      let w := { w with log := w.log ++ [Event.fclose 1, Event.fclose h] }
      if (tar_append_file w.tar w.index.data c.INDEX_FILE_NAME).1 < 0 then
        (close_if Event.fclose w.log (some 1)).map (fun log =>
          (-1, { w with log := log ++ [Event.remove 0, Event.remove temp_index_sig] }))
      else
        let w := { w with tar := (tar_append_file w.tar w.index.data c.INDEX_FILE_NAME).2 }
        if (tar_append_file w.tar signed.2.2.data c.INDEX_SIG_FILE_NAME).1 < 0 then
          (close_if Event.fclose w.log (some 1)).map (fun log =>
            (-1, { w with log := log ++ [Event.remove 0, Event.remove temp_index_sig] }))
        else
          some (0, { w with tar := (tar_append_file w.tar signed.2.2.data c.INDEX_SIG_FILE_NAME).2,
                            log := w.log ++ [Event.remove 0, Event.remove temp_index_sig,
                                             Event.tar_append_eof, Event.remove_index_name,
                                             Event.closedir 0] })

/-- `kindle_create_tar_from_directory(path, tar_out, rsa_pkey)`: the return
code, the members appended to the archive and the resource events. -/
def kindle_create_tar_from_directory {Ctx : Type} (c : Consts) (env : Env) (evp : Evp Ctx)
    (world : World) (rsa_pkey : Nat) : Option (Int × List (Bytes × Bytes) × List Event) :=
  if world.chdir_ok = false then some (-1, [], [])
  else
    match world.dir with
    | none => some (-1, [], [])
    | some dir =>
      match world.index_file with
      | none => some (-1, [], [Event.opendir 0])
      | some index_file =>
        match world.tar with
        | none =>
          some (-1, [], [Event.opendir 0, Event.fopen 1, Event.create 0, Event.fclose 1,
                         Event.remove 0])
        | some tar =>
          match kindle_sign_and_add_files c env evp rsa_pkey dir []
              { index := index_file, tar := tar,
                log := [Event.opendir 0, Event.fopen 1, Event.create 0],
                handles := 2, tmps := 1 } with
          | none => none
          | some (rc, w) =>
            if rc < 0 then
              some (-1, w.tar.entries,
                w.log ++ [Event.fclose 1, Event.tar_close, Event.remove 0])
            else
              (sign_index c evp world rsa_pkey w).map (fun r => (r.1, r.2.tar.entries, r.2.log))

/-! ## The validation of `kindle_create_main` -/

/-- The first check under `// validation` in `kindle_create_main`: `true` when
the request goes to `do_error` for its number of devices. -/
def devices_rejected (info : UpdateInformation) : Bool :=
  decide (info.num_devices < 1) ||
    (decide (info.version ≠ BundleVersion.OTAUpdateV2) && decide (info.num_devices > 1))

/-- The second check under `// validation` in `kindle_create_main`: `true` when
the request goes to `do_error` for its revisions. -/
def revisions_rejected (info : UpdateInformation) : Bool :=
  decide (info.version ≠ BundleVersion.OTAUpdateV2) &&
    (decide (info.source_revision > UINT32_MAX) || decide (info.target_revision > UINT32_MAX))

/-- The case `'x'` of the option switch in `kindle_create_main` for the
argument `optarg`: `some none` for `goto do_error`, else the request with the
copy of the string stored in the new last element of `metastrings` (which
holds `num_meta` elements).  `num_meta` is a `uint16_t`: when the increment
wraps to 0 the array is reallocated to no bytes and the store falls before it,
which has no defined result. -/
def meta_option (optarg : Bytes) (info : UpdateInformation) :
    Option (Option UpdateInformation) :=
  if 61 ∉ cstr optarg then some none
  else if strlen optarg > 65535 then some none
  else if (info.num_meta + 1) % 2 ^ 16 = 0 then none
  else some (some { info with num_meta := (info.num_meta + 1) % 2 ^ 16,
                              metastrings := info.metastrings ++ [cstr optarg] })

/-! ## Specification-side definitions -/

/-- A magic tag that `strncpy` copies unchanged: after its first NUL, if any,
every byte is NUL. -/
def NulPadded (m : Bytes) : Prop :=
  ((m.dropWhile (fun b => b != 0)).all (fun b => b == 0)) = true

instance (m : Bytes) : Decidable (NulPadded m) := by
  unfold NulPadded; infer_instance

/-- A 16-bit length, most significant byte first. -/
def be16 (n : Nat) : Bytes := [n / 256 % 256, n % 256]

/-- The OTA2 header as the format describes it, for a request and the bytes
of the disguised digest. -/
def ota2_header_layout (info : UpdateInformation) (disguised : Bytes) : Bytes :=
  info.magic_number
    ++ le 8 info.source_revision
    ++ le 8 info.target_revision
    ++ le 2 info.devices.length
    ++ (info.devices.map (le 2)).flatten
    ++ le 1 info.critical
    ++ [0]
    ++ disguised
    ++ le 2 info.metastrings.length
    ++ (info.metastrings.map (fun s => be16 (strlen s) ++ cstr s)).flatten

def cur (p : Bytes) (r : Nat) : Buf := p.map some ++ List.replicate r none

/-- The locals when exactly the bytes `p` have been stored, in order, at the
start of a buffer of `size` bytes. -/
def HeaderState.filled (p : Bytes) (size : Nat) : HeaderState :=
  ⟨size, cur p (size - p.length), p.length⟩

/-- Bytes the meta strings add to the header: each string and its 2-byte prefix. -/
def meta_size (ms : List Bytes) : Nat := (ms.map (fun s => strlen s + 2)).sum

/-- Bytes of the header before the digest. -/
def ota2_front_layout (info : UpdateInformation) : Bytes :=
  info.magic_number ++ le 8 info.source_revision ++ le 8 info.target_revision
    ++ le 2 info.devices.length ++ (info.devices.map (le 2)).flatten
    ++ le 1 info.critical ++ [0]

/-- The size `header_size` reaches in `kindle_create_ota_update_v2`. -/
def ota2_header_size (c : Consts) (info : UpdateInformation) : Nat :=
  c.MAGIC_NUMBER_LENGTH + c.OTA_UPDATE_V2_BLOCK_SIZE + info.num_devices * 2
    + c.OTA_UPDATE_V2_PART_2_BLOCK_SIZE + meta_size info.metastrings

/-- Sample values for the constants of `kindle_tool.h`. -/
def sampleConsts : Consts :=
  { BUFFER_SIZE := 4, BLOCK_SIZE := 64, MAGIC_NUMBER_LENGTH := 4, MD5_HASH_LENGTH := 4,
    OTA_UPDATE_BLOCK_SIZE := 60, OTA_UPDATE_V2_BLOCK_SIZE := 18,
    OTA_UPDATE_V2_PART_2_BLOCK_SIZE := 8, RECOVERY_UPDATE_BLOCK_SIZE := 60,
    UPDATE_SIGNATURE_BLOCK_SIZE := 60, INDEX_FILE_NAME := [73, 110, 100, 101, 120],
    INDEX_SIG_FILE_NAME := [73, 110, 100, 101, 120, 46, 115, 105, 103] }

/-- A fresh, empty stream on a medium that never fails. -/
def emptyFile : FILE := ⟨[], 0, none, none, false⟩

/-- A stream at the start of `bs` on a medium that never fails. -/
def fileOf (bs : Bytes) : FILE := ⟨bs, 0, none, none, false⟩

/-- A sample checksum: the four low decimal digits of the byte sum, as
characters. -/
def sampleSum (bs : Bytes) : Bytes :=
  [48 + bs.sum / 1000 % 10, 48 + bs.sum / 100 % 10, 48 + bs.sum / 10 % 10, 48 + bs.sum % 10]

/-- Sample collaborators: a 4-character checksum, a byte-wise disguise and a
body transform built from it. -/
def sampleEnv : Env :=
  { md5_sum := fun f => (0, sampleSum (f.data.drop f.pos)),
    md := fun bs => bs.map (fun b => 255 - b % 256),
    munger := fun i o =>
      (0, (fwrite ((i.data.drop i.pos).map (fun b => 255 - b % 256)) o).2),
    IS_SCRIPT := fun s => [46, 115, 104].isSuffixOf s || [46, 102, 102, 115].isSuffixOf s,
    tmpfile := some emptyFile }

/-- A sample OTA2 request: two devices, two meta strings. -/
def sampleOta2 : UpdateInformation :=
  { magic_number := [70, 67, 48, 52], version := .OTAUpdateV2, sign_pkey := 7,
    source_revision := 1, target_revision := 258, magic_1 := 0, magic_2 := 0, minor := 0,
    num_devices := 2, devices := [3, 260], certificate_number := 0, critical := 1,
    optional := 0, num_meta := 2, metastrings := [[97, 61, 98], [99, 61]] }

/-- One-shot signing with the interface `evp`: adapt the key, start a digest,
feed it the whole message `m`, sign.  `none` when a step fails. -/
def sign_oneshot {Ctx : Type} (evp : Evp Ctx) (key : Nat) (m : Bytes) : Option Bytes :=
  if evp.EVP_PKEY_set1_RSA key = false then none
  else (evp.EVP_SignInit.bind (fun ctx => evp.EVP_SignUpdate ctx m)).bind
    (fun ctx => evp.EVP_SignFinal ctx key)

/-- A digest context is incremental: feeding `a ++ b` is feeding `a`, then `b`,
and feeding nothing changes nothing. -/
def Evp.Incremental {Ctx : Type} (evp : Evp Ctx) : Prop :=
  (∀ ctx a b, evp.EVP_SignUpdate ctx (a ++ b)
      = (evp.EVP_SignUpdate ctx a).bind (fun ctx => evp.EVP_SignUpdate ctx b))
    ∧ (∀ ctx, evp.EVP_SignUpdate ctx [] = some ctx)

/-- The detached-signature record as the format describes it: `"SP01"`, the
certificate number in 32 bits little-endian, zeros up to the block size. -/
def signature_record (c : Consts) (info : UpdateInformation) : Bytes :=
  [83, 80, 48, 49] ++ le 4 (info.certificate_number % 2 ^ 32)
    ++ List.replicate (c.MAGIC_NUMBER_LENGTH + c.UPDATE_SIGNATURE_BLOCK_SIZE - 8) 0

/-- A sample signing interface: the context is the message fed so far, the
signature is the key followed by the byte sum of the message. -/
def sampleEvp : Evp Bytes :=
  { EVP_PKEY_set1_RSA := fun _ => true,
    EVP_SignInit := some [],
    EVP_SignUpdate := fun ctx bs => some (ctx ++ bs),
    EVP_SignFinal := fun ctx key => some [key % 256, ctx.sum % 256] }

/-- A sample layout of `UpdateHeader`: a 4-byte magic number, then the union. -/
def sampleLayout : Layout :=
  { sizeof_UpdateHeader := 64, magic_number := 0, signature_certificate_number := 4,
    ota_source_revision := 4, ota_target_revision := 8, ota_device := 12, ota_optional := 14,
    ota_md5_sum := 16, recovery_magic_1 := 20, recovery_magic_2 := 24, recovery_minor := 28,
    recovery_device := 32, recovery_md5_sum := 16 }

/-- A sample OTA request for one device. -/
def sampleOta : UpdateInformation :=
  { magic_number := [70, 67, 48, 50], version := .OTAUpdate, sign_pkey := 7,
    source_revision := 5, target_revision := 4294967295, magic_1 := 0, magic_2 := 0,
    minor := 0, num_devices := 1, devices := [3], certificate_number := 0, critical := 0,
    optional := 1, num_meta := 0, metastrings := [] }

/-- A sample recovery request for one device. -/
def sampleRecovery : UpdateInformation :=
  { magic_number := [70, 66, 48, 50], version := .RecoveryUpdate, sign_pkey := 7,
    source_revision := 0, target_revision := 4294967295, magic_1 := 1, magic_2 := 2,
    minor := 3, num_devices := 1, devices := [6], certificate_number := 0, critical := 0,
    optional := 0, num_meta := 0, metastrings := [] }

/-- The output of `kindle_create_ota_update` for `sampleOta` and the payload
`[10, 20, 30]`. -/
def sampleOtaOut : FILE :=
  ⟨[70, 67, 48, 50, 5, 0, 0, 0, 255, 255, 255, 255, 3, 0, 1, 0, 207, 207, 201, 207,
    0, 0, 0, 0, 0, 0, 0, 0, 0, 0, 0, 0, 0, 0, 0, 0, 0, 0, 0, 0, 0, 0, 0, 0, 0, 0, 0, 0,
    0, 0, 0, 0, 0, 0, 0, 0, 0, 0, 0, 0, 0, 0, 0, 0, 245, 235, 225], 67, none, none, false⟩

/-- The output of `kindle_create_recovery` for `sampleRecovery` and the payload
`[10, 20, 30]`. -/
def sampleRecoveryOut : FILE :=
  ⟨[70, 66, 48, 50, 0, 0, 0, 0, 0, 0, 0, 0, 0, 0, 0, 0, 207, 207, 201, 207, 1, 0, 0,
    0, 2, 0, 0, 0, 3, 0, 0, 0, 6, 0, 0, 0, 0, 0, 0, 0, 0, 0, 0, 0, 0, 0, 0, 0, 0, 0, 0,
    0, 0, 0, 0, 0, 0, 0, 0, 0, 0, 0, 0, 0, 245, 235, 225], 67, none, none, false⟩

/-- Two byte ranges `[a, a + la)` and `[b, b + lb)` that do not overlap. -/
def Apart (a la b lb : Nat) : Prop := a + la ≤ b ∨ b + lb ≤ a

/-- Modelled from the spec: the reader of the entries of an OTA2 metadata
block, which is not part of `create.c`.  It reads `n` entries, each a 16-bit
length, most significant byte first, followed by that many bytes, and returns
them with the unread rest. -/
def decode_meta_entries : Nat → Bytes → Option (List Bytes × Bytes)
  | 0, bs => some ([], bs)
  | n + 1, hi :: lo :: rest =>
    if rest.length < hi * 256 + lo then none
    else (decode_meta_entries n (rest.drop (hi * 256 + lo))).map
      (fun r => (rest.take (hi * 256 + lo) :: r.1, r.2))
  | _ + 1, _ => none

/-- Modelled from the spec: the reader of an OTA2 metadata block, which is not
part of `create.c`.  It reads the 16-bit entry count (stored as the header
stores its integers, least significant byte first) and then that many
entries, and accepts when nothing is left over. -/
def decode_meta_block : Bytes → Option (List Bytes)
  | lo :: hi :: rest =>
    match decode_meta_entries (lo + 256 * hi) rest with
    | some (entries, []) => some entries
    | _ => none
  | _ => none

/-- The offset of the metadata block in an OTA2 header for `n` devices. -/
def ota2_meta_offset (c : Consts) (n : Nat) : Nat :=
  c.MAGIC_NUMBER_LENGTH + c.OTA_UPDATE_V2_BLOCK_SIZE + n * 2 + 1 + 1 + c.MD5_HASH_LENGTH

mutual
/-- The files one directory entry contributes to the walk: the entry itself
with its path under the prefix `dirname` when it is not a directory, nothing
for `.` and `..`, and the files of a subdirectory, walked in full. -/
def files_of_entry : Entry → Bytes → List (Bytes × FileEnt)
  | Entry.file f, dirname => [(dirname ++ f.d_name, f)]
  | Entry.dir d_name _ _ listing, dirname =>
    if d_name = [46, 46] ∨ d_name = [46] then []
    else
      match listing with
      | none => []
      | some sub => files_in sub (dirname ++ d_name ++ [47])
/-- The files of a directory listing in the order of a depth-first walk: each
entry that is not a directory with its slash-joined path under the prefix
`dirname`; `.` and `..` are skipped and a subdirectory is walked in full where
it is met. -/
def files_in : List Entry → Bytes → List (Bytes × FileEnt)
  | [], _ => []
  | ent :: rest, dirname => files_of_entry ent dirname ++ files_in rest dirname
end

/-- The digest string of a file as the index shows it: what `%s` prints for the
array `md5` after `md5_sum` ran on the file. -/
def digest_string (c : Consts) (env : Env) (f : FileEnt) : Bytes :=
  match f.stream with
  | none => []
  | some file => (((md5_array c (env.md5_sum file).2).bind printed_string).getD [])

/-- The index line of a file with path `absname`:
`"<129|128> <digest> <path> <size / BLOCK_SIZE> <name>\n"`. -/
def file_index_line (c : Consts) (env : Env) (absname : Bytes) (f : FileEnt) : Bytes :=
  index_line (if env.IS_SCRIPT f.d_name then 129 else 128) (digest_string c env f) absname
    (f.st_size / c.BLOCK_SIZE) f.d_name

/-- The index of a list of files: one line each, in order. -/
def index_of (c : Consts) (env : Env) (files : List (Bytes × FileEnt)) : Bytes :=
  (files.map (fun p => file_index_line c env p.1 p.2)).flatten

/-- The member names a list of files gives the archive: each path, then the
path with `.sig` appended. -/
def member_names (files : List (Bytes × FileEnt)) : List Bytes :=
  (files.map (fun p => [p.1, p.1 ++ [46, 115, 105, 103]])).flatten

/-- The entries `.` and `..` of a directory. -/
def dots : List Entry :=
  [Entry.dir [46] true true (some []), Entry.dir [46, 46] true true (some [])]

/-- The sample tree `{a.sh, sub/b.txt}`: `a.sh` holds 3 bytes and reports size
200, `b.txt` holds 2 bytes and reports size 2. -/
def sampleTree : List Entry :=
  dots ++
    [Entry.file ⟨[97, 46, 115, 104], true, 200, some (fileOf [1, 2, 3]), some emptyFile, true⟩,
     Entry.dir [115, 117, 98] true true
       (some (dots ++
         [Entry.file ⟨[98, 46, 116, 120, 116], true, 2, some (fileOf [4, 5]), some emptyFile,
           true⟩]))]

/-- A world in which every call on the sample tree succeeds. -/
def sampleWorld : World :=
  { chdir_ok := true, dir := some sampleTree, index_file := some emptyFile,
    tar := some ⟨[], none⟩, index_sig_file := some emptyFile }

/-- The index the files would have if the digest field of each line were the
`md` transform of the digest string. -/
def disguised_index_of (c : Consts) (env : Env) (files : List (Bytes × FileEnt)) : Bytes :=
  (files.map (fun p => index_line (if env.IS_SCRIPT p.2.d_name then 129 else 128)
    (env.md (digest_string c env p.2)) p.1 (p.2.st_size / c.BLOCK_SIZE) p.2.d_name)).flatten

/-- The file `a.sh` of the sample tree. -/
def sampleScript : FileEnt :=
  ⟨[97, 46, 115, 104], true, 200, some (fileOf [1, 2, 3]), some emptyFile, true⟩

/-- The state in which the sample walk starts: an empty index, an empty
archive. -/
def sampleWalkStart : Walk := ⟨emptyFile, ⟨[], none⟩, [], 0, 0⟩

/-- The text `"129 0006 a.sh 3 a.sh\n128 0009 sub/b.txt 0 b.txt\n"`. -/
def sampleIndex : Bytes :=
  [49, 50, 57, 32, 48, 48, 48, 54, 32, 97, 46, 115, 104, 32, 51, 32, 97, 46, 115, 104, 10,
   49, 50, 56, 32, 48, 48, 48, 57, 32, 115, 117, 98, 47, 98, 46, 116, 120, 116, 32, 48, 32,
   98, 46, 116, 120, 116, 10]

/-- The state in which the walk of the sample tree ends. -/
def sampleWalkEnd : Walk :=
  ⟨⟨sampleIndex, 48, none, none, false⟩,
   ⟨[([97, 46, 115, 104], [1, 2, 3]), ([97, 46, 115, 104, 46, 115, 105, 103], [7, 6]),
     ([115, 117, 98, 47, 98, 46, 116, 120, 116], [4, 5]),
     ([115, 117, 98, 47, 98, 46, 116, 120, 116, 46, 115, 105, 103], [7, 9])], none⟩,
   [Event.fopen 0, Event.fopen 1, Event.create 0, Event.fclose 0, Event.fclose 1,
    Event.remove 0, Event.opendir 2, Event.fopen 3, Event.fopen 4, Event.create 1,
    Event.fclose 3, Event.fclose 4, Event.remove 1, Event.closedir 2], 5, 2⟩

/-- The members of the archive built from the sample tree: `a.sh`, `a.sh.sig`,
`sub/b.txt`, `sub/b.txt.sig`, `Index`, `Index.sig`. -/
def sampleMembers : List (Bytes × Bytes) :=
  [([97, 46, 115, 104], [1, 2, 3]), ([97, 46, 115, 104, 46, 115, 105, 103], [7, 6]),
   ([115, 117, 98, 47, 98, 46, 116, 120, 116], [4, 5]),
   ([115, 117, 98, 47, 98, 46, 116, 120, 116, 46, 115, 105, 103], [7, 9]),
   ([73, 110, 100, 101, 120], sampleIndex),
   ([73, 110, 100, 101, 120, 46, 115, 105, 103], [7, 106])]

/-- The resource events of building the archive from the sample tree. -/
def sampleLog : List Event :=
  [Event.opendir 0, Event.fopen 1, Event.create 0, Event.fopen 2, Event.fopen 3,
   Event.create 1, Event.fclose 2, Event.fclose 3, Event.remove 1, Event.opendir 4,
   Event.fopen 5, Event.fopen 6, Event.create 2, Event.fclose 5, Event.fclose 6,
   Event.remove 2, Event.closedir 4, Event.fopen 7, Event.create 3, Event.fclose 1,
   Event.fclose 7, Event.remove 0, Event.remove 3, Event.tar_append_eof,
   Event.remove_index_name, Event.closedir 0]

/-! ## The option `-d` of `kindle_create_main` -/

/-- The enumerators of `Device` that `create.c` names. -/
inductive Device where
  | Kindle1
  | Kindle2US
  | Kindle2International
  | KindleDXUS
  | KindleDXInternational
  | KindleDXGraphite
  | Kindle3Wifi
  | Kindle3Wifi3G
  | Kindle3Wifi3GEurope
  | Kindle4NonTouch
  | Kindle5TouchWifi
  | Kindle5TouchWifi3G
deriving DecidableEq, Repr

/-- The test `strncmp(a, b, n) == 0`: the two strings agree on their first `n`
characters, a string that ends earlier agreeing only with one that ends at the
same place. -/
def strncmp_eq (a b : Bytes) (n : Nat) : Bool :=
  decide ((cstr a).take n = (cstr b).take n)

/-- The chain of comparisons of the case `'d'` of the option switch in
`kindle_create_main`, in the order of the source and with the counts of the
source: the device constant stored for `optarg` and the magic number copied
with it, if any; `none` for `goto do_error`. -/
def device_case (optarg : Bytes) : Option (Device × Option Bytes) :=
  if strncmp_eq optarg [107, 49] 2 then some (Device.Kindle1, none)
  else if strncmp_eq optarg [107, 50] 2 then some (Device.Kindle2US, none)
  else if strncmp_eq optarg [107, 50, 105] 3 then some (Device.Kindle2International, none)
  else if strncmp_eq optarg [100, 120] 2 then some (Device.KindleDXUS, none)
  else if strncmp_eq optarg [100, 120, 105] 3 then some (Device.KindleDXInternational, none)
  else if strncmp_eq optarg [100, 120, 103] 3 then some (Device.KindleDXGraphite, none)
  else if strncmp_eq optarg [107, 51, 119] 3 then some (Device.Kindle3Wifi, none)
  else if strncmp_eq optarg [107, 51, 103] 2 then some (Device.Kindle3Wifi3G, none)
  else if strncmp_eq optarg [107, 51, 103, 98] 3 then some (Device.Kindle3Wifi3GEurope, none)
  else if strncmp_eq optarg [107, 52] 2 then some (Device.Kindle4NonTouch, some [70, 67, 48, 52])
  else if strncmp_eq optarg [107, 53, 119] 3 then
    some (Device.Kindle5TouchWifi, some [70, 68, 48, 52])
  else if strncmp_eq optarg [107, 53, 103] 2 then
    some (Device.Kindle5TouchWifi3G, some [70, 68, 48, 52])
  else none

/-- The case `'d'` of the option switch in `kindle_create_main` for the
argument `optarg`: `some none` for `goto do_error`, else the request with the
device stored in the new last element of `devices` (which holds `num_devices`
elements) and, for the devices that have one, the magic number copied over the
first 4 characters.  `value` gives the integer of each enumerator.
`num_devices` is a `uint16_t`: when the increment wraps to 0 the array is
reallocated to no bytes and the store of the device falls before it, which has
no defined result. -/
def device_option (value : Device → Nat) (optarg : Bytes) (info : UpdateInformation) :
    Option (Option UpdateInformation) :=
  match device_case optarg with
  | none => some none
  | some (device, magic) =>
    if (info.num_devices + 1) % 2 ^ 16 = 0 then none
    else
      some (some { info with
        num_devices := (info.num_devices + 1) % 2 ^ 16,
        devices := info.devices ++ [value device],
        magic_number := match magic with
          | none => info.magic_number
          | some m => strncpy m 4 ++ info.magic_number.drop 4 })

/-- A sample numbering of the devices: 1 to 12 in the order of the
enumerators above. -/
def sampleDeviceValue : Device → Nat
  | Device.Kindle1 => 1
  | Device.Kindle2US => 2
  | Device.Kindle2International => 3
  | Device.KindleDXUS => 4
  | Device.KindleDXInternational => 5
  | Device.KindleDXGraphite => 6
  | Device.Kindle3Wifi => 7
  | Device.Kindle3Wifi3G => 8
  | Device.Kindle3Wifi3GEurope => 9
  | Device.Kindle4NonTouch => 10
  | Device.Kindle5TouchWifi => 11
  | Device.Kindle5TouchWifi3G => 12

/-! ## The records of the fixed-size headers -/

/-- The record `kindle_create_ota_update` hands to `fwrite` when `md5_sum`
succeeds: the plain fields, then the digest member. -/
def ota_update_record (c : Consts) (L : Layout) (env : Env) (info : UpdateInformation)
    (input_tgz : FILE) : Option Bytes :=
  (ota_update_fields L info).bind (fun header =>
    fixed_header_record c env header L.ota_md5_sum
      (c.MAGIC_NUMBER_LENGTH + c.OTA_UPDATE_BLOCK_SIZE) input_tgz)

/-- The record `kindle_create_recovery` hands to `fwrite` when `md5_sum`
succeeds: the plain fields, then the digest member. -/
def recovery_record (c : Consts) (L : Layout) (env : Env) (info : UpdateInformation)
    (input_tgz : FILE) : Option Bytes :=
  (recovery_fields L info).bind (fun header =>
    fixed_header_record c env header L.recovery_md5_sum
      (c.MAGIC_NUMBER_LENGTH + c.RECOVERY_UPDATE_BLOCK_SIZE) input_tgz)

/-- Every byte of `obj` that lies in none of the ranges `(offset, length)` is
zero. -/
def ZeroOutside (obj : Bytes) (ranges : List (Nat × Nat)) : Prop :=
  ∀ i, i < obj.length → (∀ r ∈ ranges, ¬ (r.1 ≤ i ∧ i < r.1 + r.2)) → obj[i]? = some 0

/-! ## The length of the digest -/

/-- Modelled from the spec: the constants of `kindle_tool.h`, which is not
among the sources, with the digest length of the sentence "digest(stream) ->
16-byte value": `MD5_HASH_LENGTH` is 16 and the second block of the OTA2 header
has `1 + 1 + 16 + 2` bytes. -/
def digest16Consts : Consts :=
  { sampleConsts with MD5_HASH_LENGTH := 16, OTA_UPDATE_V2_PART_2_BLOCK_SIZE := 20 }

/-- Modelled from the spec: the constants of `kindle_tool.h`, which is not
among the sources, with the digest length of the index line syntax
"<32-hex-char-digest>": `MD5_HASH_LENGTH` is 32 and the second block of the
OTA2 header has `1 + 1 + 32 + 2` bytes. -/
def digest32Consts : Consts :=
  { sampleConsts with MD5_HASH_LENGTH := 32, OTA_UPDATE_V2_PART_2_BLOCK_SIZE := 36 }

/-- The text `d41d8cd98f00b204e9800998ecf8427e`: the MD5 digest of no bytes in
hexadecimal. -/
def emptyDigest : Bytes :=
  [100, 52, 49, 100, 56, 99, 100, 57, 56, 102, 48, 48, 98, 50, 48,
   52, 101, 57, 56, 48, 48, 57, 57, 56, 101, 99, 102, 56, 52, 50, 55, 101]

/-- Modelled from the spec: `md5_sum` of `kindle_tool.h`, which is not among
the sources, on a stream with no bytes.  It stores the digest the index line
shows for the file, 32 hexadecimal characters. -/
def hexEnv : Env := { sampleEnv with md5_sum := fun _ => (0, emptyDigest) }

/-- A layout of `UpdateHeader` with room for a digest member of 32 bytes: a
4-byte magic number, then the union. -/
def hexLayout : Layout :=
  { sizeof_UpdateHeader := 64, magic_number := 0, signature_certificate_number := 4,
    ota_source_revision := 4, ota_target_revision := 8, ota_device := 12, ota_optional := 14,
    ota_md5_sum := 16, recovery_magic_1 := 48, recovery_magic_2 := 52, recovery_minor := 56,
    recovery_device := 60, recovery_md5_sum := 16 }

/-- The bytes of `emptyDigest` after the sample disguise. -/
def disguisedEmptyDigest : Bytes :=
  [155, 203, 206, 155, 199, 156, 155, 198, 199, 153, 207, 207, 157, 205, 207, 203,
   154, 198, 199, 207, 207, 198, 198, 199, 154, 156, 153, 199, 203, 205, 200, 154]

/-- The output of `kindle_create_ota_update` for `sampleOta` and a payload
with no bytes, under `digest32Consts`, `hexLayout` and `hexEnv`. -/
def hexOtaOut : FILE :=
  ⟨[70, 67, 48, 50, 5, 0, 0, 0, 255, 255, 255, 255, 3, 0, 1, 0] ++ disguisedEmptyDigest
    ++ List.replicate 16 0, 64, none, none, false⟩

/-- The output of `kindle_create_recovery` for `sampleRecovery` and a payload
with no bytes, under `digest32Consts`, `hexLayout` and `hexEnv`. -/
def hexRecoveryOut : FILE :=
  ⟨[70, 66, 48, 50, 0, 0, 0, 0, 0, 0, 0, 0, 0, 0, 0, 0] ++ disguisedEmptyDigest
    ++ [1, 0, 0, 0, 2, 0, 0, 0, 3, 0, 0, 0, 6, 0, 0, 0], 64, none, none, false⟩

/-- A file `a` with no bytes. -/
def emptyEnt : FileEnt := ⟨[97], true, 0, some emptyFile, some emptyFile, true⟩

/-- A directory that holds the file `a` with no bytes and nothing else. -/
def emptyFileWorld : World :=
  { chdir_ok := true, dir := some (dots ++ [Entry.file emptyEnt]),
    index_file := some emptyFile, tar := some ⟨[], none⟩, index_sig_file := some emptyFile }

/-! ## Resource discipline -/

/-- What a log of resource events shows when every resource was released:
each handle that was opened was closed exactly once by the call that matches
it, and each temporary file that was created was removed. -/
def released_once (log : List Event) : Bool :=
  log.all (fun e =>
    match e with
    | Event.opendir h => log.count (Event.closedir h) == 1
    | Event.fopen h => log.count (Event.fclose h) == 1
    | Event.create t => log.contains (Event.remove t)
    | _ => true)

/-! ## Further samples -/

/-- A sample request whose format was never set. -/
def sampleUnknown : UpdateInformation :=
  { magic_number := [0, 0, 0, 0], version := .UnknownUpdate, sign_pkey := 7,
    source_revision := 0, target_revision := 4294967295, magic_1 := 0, magic_2 := 0,
    minor := 0, num_devices := 1, devices := [3], certificate_number := 0, critical := 0,
    optional := 0, num_meta := 0, metastrings := [] }

/-- Collaborators that fail wherever they can: `md5_sum` and `munger` report
an error and `tmpfile` returns `NULL`. -/
def failingEnv : Env :=
  { md5_sum := fun _ => (-1, []),
    md := fun bs => bs,
    munger := fun _ o => (-1, o),
    IS_SCRIPT := fun _ => false,
    tmpfile := none }

/-- A stream at the start of an empty file on a medium with room for one more
byte only. -/
def oneByteFile : FILE := ⟨[], 0, none, some 1, false⟩

/-- A signing interface whose key adaptation fails. -/
def failingEvp : Evp Bytes :=
  { EVP_PKEY_set1_RSA := fun _ => false,
    EVP_SignInit := some [],
    EVP_SignUpdate := fun ctx bs => some (ctx ++ bs),
    EVP_SignFinal := fun ctx key => some [key % 256, ctx.sum % 256] }

/-- The sample OTA request with another key, certificate, critical flag, a
second device and a meta string: every field the OTA record does not hold is
changed. -/
def sampleOtaOther : UpdateInformation :=
  { sampleOta with sign_pkey := 9, magic_1 := 5, magic_2 := 6, minor := 7, num_devices := 2,
                   devices := [3, 4], certificate_number := 2, critical := 1, num_meta := 1,
                   metastrings := [[97, 61, 98]] }

/-- The sample recovery request with another key, certificate, revisions,
flags, a second device and a meta string: every field the recovery record does
not hold is changed. -/
def sampleRecoveryOther : UpdateInformation :=
  { sampleRecovery with sign_pkey := 9, source_revision := 11, target_revision := 12,
                        num_devices := 2, devices := [6, 4], certificate_number := 2,
                        critical := 1, optional := 1, num_meta := 1,
                        metastrings := [[97, 61, 98]] }

/-- A directory whose only entry cannot be examined: `stat` fails on it. -/
def unreadableWorld : World :=
  { chdir_ok := true,
    dir := some [Entry.file ⟨[97, 46, 115, 104], false, 200, some (fileOf [1, 2, 3]),
      some emptyFile, true⟩],
    index_file := some emptyFile, tar := some ⟨[], none⟩, index_sig_file := some emptyFile }

/-- The listing of a directory whose only file `b.txt` cannot be opened. -/
def unopenedListing : List Entry :=
  dots ++ [Entry.file ⟨[98, 46, 116, 120, 116], true, 2, none, some emptyFile, true⟩]

/-- The sample tree with a file `b.txt` that cannot be opened, and a file
`c.txt` after the directory `sub`. -/
def nestedFailTree : List Entry :=
  dots ++
    [Entry.file ⟨[97, 46, 115, 104], true, 200, some (fileOf [1, 2, 3]), some emptyFile, true⟩,
     Entry.dir [115, 117, 98] true true (some unopenedListing),
     Entry.file ⟨[99, 46, 116, 120, 116], true, 1, some (fileOf [6]), some emptyFile, true⟩]

/-- A world in which every call on `nestedFailTree` succeeds but the `fopen` of
`sub/b.txt`. -/
def nestedFailWorld : World := { sampleWorld with dir := some nestedFailTree }

/-- The state in which the walk of a directory starts in
`kindle_create_tar_from_directory`, with an empty index and an empty archive
that accepts any number of members. -/
def sampleTopStart : Walk :=
  ⟨emptyFile, ⟨[], none⟩, [Event.opendir 0, Event.fopen 1, Event.create 0], 2, 1⟩

/-- The sample tree with an archive that accepts no member. -/
def fullTarWorld : World := { sampleWorld with tar := some ⟨[], some 0⟩ }

/-- The sample tree with a signature file of the index that has room for one
byte only. -/
def shortSigWorld : World := { sampleWorld with index_sig_file := some oneByteFile }

/-! ## The OTA2 header -/

theorem cur_length (p : Bytes) (r : Nat) : (cur p r).length = p.length + r := by
  simp [cur]

theorem poke_cur (p src : Bytes) (r : Nat) (h : src.length ≤ r) :
    poke (cur p r) p.length src = some (cur (p ++ src) (r - src.length)) := by
  have h1 : p.length + src.length ≤ (cur p r).length := by rw [cur_length]; omega
  simp only [poke, h1, if_true]
  simp [cur, List.take_append_eq_append_take, List.drop_append_eq_append_drop]

theorem poke_cur_inplace (q d d2 : Bytes) (r : Nat) (h : d2.length = d.length) :
    poke (cur (q ++ d) r) q.length d2 = some (cur (q ++ d2) r) := by
  have h1 : q.length + d2.length ≤ (cur (q ++ d) r).length := by
    rw [cur_length]; simp; omega
  simp only [poke, h1, if_true]
  simp [cur, List.take_append_eq_append_take, List.drop_append_eq_append_drop, h]

theorem mapM_id_map_some (p : Bytes) : Buf.bytes (p.map some) = some p := by
  induction p with
  | nil => rfl
  | cons a t ih => simp [Buf.bytes, ih]

theorem peek_cur_all (p : Bytes) : peek (cur p 0) 0 p.length = some p := by
  have h : List.take p.length (p.map some) = p.map some := List.take_of_length_le (by simp)
  simp [peek, cur, h, mapM_id_map_some]

theorem peek_cur_tail (q d : Bytes) (r : Nat) :
    peek (cur (q ++ d) r) q.length d.length = some d := by
  have h1 : q.length + d.length ≤ (cur (q ++ d) r).length := by
    rw [cur_length]; simp
  simp only [peek, h1, if_true]
  have : List.take d.length (List.drop q.length (cur (q ++ d) r)) = d.map some := by
    simp [cur, List.take_append_eq_append_take, List.drop_append_eq_append_drop]
  rw [this, mapM_id_map_some]

theorem realloc_cur (p : Bytes) (r n : Nat) (h : p.length + r ≤ n) :
    realloc (cur p r) n = cur p (n - p.length) := by
  unfold realloc
  rw [List.take_of_length_le (by rw [cur_length]; exact h), cur_length]
  simp only [cur, List.append_assoc, List.append_replicate_replicate]
  congr 2; omega

theorem le_length (n x : Nat) : (le n x).length = n := by
  induction n generalizing x with
  | zero => rfl
  | succ n ih => simp [le, ih]

theorem strncpy_strlen (s : Bytes) : strncpy s (strlen s) = cstr s := by
  simp [strncpy, strlen]

theorem strncpy_length (s : Bytes) (n : Nat) : (strncpy s n).length = n := by
  simp [strncpy]

theorem strncpy_nulPadded (m : Bytes) (h : NulPadded m) : strncpy m m.length = m := by
  unfold NulPadded at h
  unfold strncpy cstr
  have hd : m.dropWhile (fun b => b != 0)
      = List.replicate (m.dropWhile (fun b => b != 0)).length 0 := by
    apply List.eq_replicate_of_mem
    intro b hb
    have := (List.all_eq_true.mp h) b hb
    simpa using this
  have hsplit := List.takeWhile_append_dropWhile (fun b => b != 0) m
  have hlen : m.length = (m.takeWhile (fun b => b != 0)).length
      + (m.dropWhile (fun b => b != 0)).length := by
    have := congrArg List.length hsplit
    rw [List.length_append] at this
    exact this.symm
  have ht : List.take m.length (m.takeWhile (fun b => b != 0))
      = m.takeWhile (fun b => b != 0) := List.take_of_length_le (by omega)
  rw [ht]
  conv_rhs => rw [← hsplit, hd]
  congr 2
  omega

theorem init_filled (n : Nat) (h : n ≤ INT_MAX) :
    HeaderState.init n = some (HeaderState.filled [] n) := by
  have : ¬ n > INT_MAX := by omega
  simp [HeaderState.init, this, HeaderState.filled, malloc, cur]

theorem put_filled (p src : Bytes) (size : Nat) (h : p.length + src.length ≤ size) :
    (HeaderState.filled p size).put src = some (HeaderState.filled (p ++ src) size) := by
  simp only [HeaderState.put, HeaderState.filled]
  rw [poke_cur p src _ (by omega)]
  simp only [Option.map_some', List.length_append, Option.some.injEq, HeaderState.mk.injEq,
    true_and, and_true]
  congr 1; omega

theorem grow_filled (p : Bytes) (size e : Nat) (h : p.length ≤ size)
    (h2 : size + e ≤ INT_MAX) :
    (HeaderState.filled p size).grow e = some (HeaderState.filled p (size + e)) := by
  have : ¬ size + e > INT_MAX := by omega
  simp only [HeaderState.grow, HeaderState.filled, this, if_false]
  rw [realloc_cur p _ _ (by omega)]

theorem devices_loop_filled (rest : List Nat) :
    ∀ (pre : List Nat) (p : Bytes) (size : Nat), p.length + 2 * rest.length ≤ size →
      ota2_devices_loop (pre ++ rest) rest.length pre.length (HeaderState.filled p size)
        = some (HeaderState.filled (p ++ (rest.map (le 2)).flatten) size) := by
  induction rest with
  | nil => intro pre p size _; simp [ota2_devices_loop]
  | cons d rest ih =>
    intro pre p size h
    simp only [List.length_cons] at h
    have hget : (pre ++ d :: rest)[pre.length]? = some d := by
      rw [List.getElem?_append_right (le_refl _)]; simp
    have hput := put_filled p (le 2 d) size (by rw [le_length]; omega)
    have hih := ih (pre ++ [d]) (p ++ le 2 d) size (by simp [le_length]; omega)
    simp only [List.append_assoc, List.singleton_append, List.length_append,
      List.length_singleton] at hih
    simp only [List.length_cons, ota2_devices_loop, hget, hput, Option.bind_eq_bind,
      Option.some_bind, hih, List.map_cons, List.flatten_cons, List.append_assoc]

theorem meta_step_filled (s p : Bytes) (size : Nat) (h : p.length ≤ size)
    (h2 : size + (strlen s + 2) ≤ INT_MAX) :
    ota2_meta_step s (HeaderState.filled p size)
      = some (HeaderState.filled (p ++ (be16 (strlen s) ++ cstr s)) (size + (strlen s + 2))) := by
  have hg := grow_filled p size (strlen s + 2) h h2
  have hp1 := put_filled p [strlen s / 256 % 256] (size + (strlen s + 2)) (by simp; omega)
  have hp2 := put_filled (p ++ [strlen s / 256 % 256]) [strlen s % 256]
    (size + (strlen s + 2)) (by simp; omega)
  have hp3 := poke_cur (p ++ [strlen s / 256 % 256] ++ [strlen s % 256]) (strncpy s (strlen s))
    (size + (strlen s + 2) - (p ++ [strlen s / 256 % 256] ++ [strlen s % 256]).length)
    (by rw [strncpy_length]; simp; omega)
  simp only [ota2_meta_step, hg, hp1, hp2, Option.bind_eq_bind, Option.some_bind]
  simp only [HeaderState.filled]
  rw [hp3]
  simp only [Option.some_bind, strncpy_strlen, be16, Option.some.injEq, HeaderState.mk.injEq,
    true_and, List.length_append, List.length_singleton, List.append_assoc, List.singleton_append,
    List.cons_append, List.nil_append, List.length_cons]
  constructor
  · congr 1
    simp only [strlen, List.length_nil]; omega
  · simp only [strlen, List.length_nil]; omega

theorem meta_loop_filled (rest : List Bytes) :
    ∀ (pre : List Bytes) (p : Bytes) (size : Nat), p.length ≤ size →
      size + meta_size rest ≤ INT_MAX →
      ota2_meta_loop (pre ++ rest) rest.length pre.length (HeaderState.filled p size)
        = some (HeaderState.filled
            (p ++ (rest.map (fun s => be16 (strlen s) ++ cstr s)).flatten)
            (size + meta_size rest)) := by
  induction rest with
  | nil => intro pre p size _ _; simp [ota2_meta_loop, meta_size]
  | cons s rest ih =>
    intro pre p size h h2
    have hms : meta_size (s :: rest) = (strlen s + 2) + meta_size rest := by
      simp [meta_size]
    rw [hms] at h2
    have hget : (pre ++ s :: rest)[pre.length]? = some s := by
      rw [List.getElem?_append_right (le_refl _)]; simp
    have hstep := meta_step_filled s p size h (by omega)
    have hih := ih (pre ++ [s]) (p ++ (be16 (strlen s) ++ cstr s)) (size + (strlen s + 2))
      (by simp [be16, strlen]; omega) (by omega)
    simp only [List.append_assoc, List.singleton_append, List.length_append,
      List.length_singleton] at hih
    simp only [List.length_cons, ota2_meta_loop, hget, hstep, Option.bind_eq_bind,
      Option.some_bind, hih, List.map_cons, List.flatten_cons, List.append_assoc, hms,
      Nat.add_assoc]

theorem poke_over (p : Bytes) (junk : Buf) (src : Bytes) (h : src.length ≤ junk.length) :
    poke (p.map some ++ junk) p.length src
      = some ((p ++ src).map some ++ junk.drop src.length) := by
  have h1 : p.length + src.length ≤ (p.map some ++ junk).length := by simp; omega
  simp only [poke, h1, if_true]
  simp [List.take_append_eq_append_take, List.drop_append_eq_append_drop]

theorem poke_inplace (q d d2 : Bytes) (junk : Buf) (h : d2.length = d.length) :
    poke ((q ++ d).map some ++ junk) q.length d2 = some ((q ++ d2).map some ++ junk) := by
  have h1 : q.length + d2.length ≤ ((q ++ d).map some ++ junk).length := by simp; omega
  simp only [poke, h1, if_true]
  simp [List.take_append_eq_append_take, List.drop_append_eq_append_drop, h]

theorem peek_inplace (q d : Bytes) (junk : Buf) :
    peek ((q ++ d).map some ++ junk) q.length d.length = some d := by
  have h1 : q.length + d.length ≤ ((q ++ d).map some ++ junk).length := by simp
  simp only [peek, h1, if_true]
  have : List.take d.length (List.drop q.length ((q ++ d).map some ++ junk)) = d.map some := by
    simp [List.take_append_eq_append_take, List.drop_append_eq_append_drop]
  rw [this, mapM_id_map_some]

theorem ota2_front_layout_length (info : UpdateInformation) :
    (ota2_front_layout info).length
      = info.magic_number.length + 20 + (info.devices.map (le 2)).flatten.length := by
  simp only [ota2_front_layout, List.length_append, le_length, List.length_singleton]; omega

theorem flatten_le2_length (ds : List Nat) : (ds.map (le 2)).flatten.length = 2 * ds.length := by
  induction ds with
  | nil => rfl
  | cons d ds ih => simp [le_length, ih]; omega

theorem ota2_header_front_eq (c : Consts) (info : UpdateInformation)
    (hmagic : c.MAGIC_NUMBER_LENGTH = 4)
    (hblock : c.OTA_UPDATE_V2_BLOCK_SIZE = 8 + 8 + 2)
    (hmag : info.magic_number.length = 4) (hpad : NulPadded info.magic_number)
    (hN : info.num_devices = info.devices.length)
    (hsize : c.MAGIC_NUMBER_LENGTH + c.OTA_UPDATE_V2_BLOCK_SIZE + info.num_devices * 2
      + c.OTA_UPDATE_V2_PART_2_BLOCK_SIZE ≤ INT_MAX)
    (hp2 : 2 ≤ c.OTA_UPDATE_V2_PART_2_BLOCK_SIZE) :
    ota2_header_front c info = some (HeaderState.filled (ota2_front_layout info)
      (22 + 2 * info.devices.length + c.OTA_UPDATE_V2_PART_2_BLOCK_SIZE)) := by
  have hcpy : strncpy info.magic_number 4 = info.magic_number := by
    rw [← hmag]; exact strncpy_nulPadded _ hpad
  have e0 := init_filled (c.MAGIC_NUMBER_LENGTH + c.OTA_UPDATE_V2_BLOCK_SIZE) (by omega)
  rw [hmagic, hblock] at e0
  have e1 := put_filled [] info.magic_number (4 + (8 + 8 + 2)) (by simp; omega)
  have e2 := put_filled ([] ++ info.magic_number) (le 8 info.source_revision) (4 + (8 + 8 + 2))
    (by simp [le_length]; omega)
  have e3 := put_filled ([] ++ info.magic_number ++ le 8 info.source_revision)
    (le 8 info.target_revision) (4 + (8 + 8 + 2)) (by simp [le_length]; omega)
  have e4 := put_filled ([] ++ info.magic_number ++ le 8 info.source_revision
    ++ le 8 info.target_revision) (le 2 info.devices.length) (4 + (8 + 8 + 2))
    (by simp [le_length]; omega)
  have e5 := grow_filled ([] ++ info.magic_number ++ le 8 info.source_revision
    ++ le 8 info.target_revision ++ le 2 info.devices.length) (4 + (8 + 8 + 2))
    (info.devices.length * 2) (by simp [le_length]; omega) (by omega)
  have e6 := devices_loop_filled info.devices [] ([] ++ info.magic_number
    ++ le 8 info.source_revision ++ le 8 info.target_revision ++ le 2 info.devices.length)
    (4 + (8 + 8 + 2) + info.devices.length * 2) (by simp [le_length]; omega)
  have e7 := grow_filled ([] ++ info.magic_number ++ le 8 info.source_revision
    ++ le 8 info.target_revision ++ le 2 info.devices.length
    ++ (info.devices.map (le 2)).flatten) (4 + (8 + 8 + 2) + info.devices.length * 2)
    c.OTA_UPDATE_V2_PART_2_BLOCK_SIZE
    (by simp only [List.length_append, le_length, flatten_le2_length, List.length_nil,
      List.length_singleton]; omega) (by omega)
  have e8 := put_filled ([] ++ info.magic_number ++ le 8 info.source_revision
    ++ le 8 info.target_revision ++ le 2 info.devices.length
    ++ (info.devices.map (le 2)).flatten) (le 1 info.critical)
    (4 + (8 + 8 + 2) + info.devices.length * 2 + c.OTA_UPDATE_V2_PART_2_BLOCK_SIZE)
    (by simp only [List.length_append, le_length, flatten_le2_length, List.length_nil,
      List.length_singleton]; omega)
  have e9 := put_filled ([] ++ info.magic_number ++ le 8 info.source_revision
    ++ le 8 info.target_revision ++ le 2 info.devices.length
    ++ (info.devices.map (le 2)).flatten ++ le 1 info.critical) [0]
    (4 + (8 + 8 + 2) + info.devices.length * 2 + c.OTA_UPDATE_V2_PART_2_BLOCK_SIZE)
    (by simp only [List.length_append, le_length, flatten_le2_length, List.length_nil,
      List.length_singleton]; omega)
  simp only [List.nil_append, List.length_nil] at e1 e2 e3 e4 e5 e6 e7 e8 e9
  simp only [ota2_header_front, hcpy, hN, hmagic, hblock, e0, e1, e2, e3, e4, e5, e6, e7, e8, e9,
    Option.bind_eq_bind, Option.some_bind, List.nil_append]
  simp only [ota2_front_layout, Option.some.injEq]
  congr 1
  omega

theorem ota2_header_back_eq (c : Consts) (env : Env) (info : UpdateInformation)
    (digest q : Bytes) (size : Nat)
    (hq : q.length + c.MD5_HASH_LENGTH + 2 = size)
    (hM : info.num_meta = info.metastrings.length)
    (hd1 : c.MD5_HASH_LENGTH ≤ digest.length) (hd2 : digest.length ≤ c.MD5_HASH_LENGTH + 2)
    (hmd : (env.md (digest.take c.MD5_HASH_LENGTH)).length = c.MD5_HASH_LENGTH)
    (hsize : size + meta_size info.metastrings ≤ INT_MAX) :
    ota2_header_back c env info digest (HeaderState.filled q size)
      = some (HeaderState.filled
          (q ++ env.md (digest.take c.MD5_HASH_LENGTH) ++ le 2 info.metastrings.length
            ++ (info.metastrings.map (fun s => be16 (strlen s) ++ cstr s)).flatten)
          (size + meta_size info.metastrings)) := by
  obtain ⟨d1, hd1def⟩ : ∃ d1, d1 = digest.take c.MD5_HASH_LENGTH := ⟨_, rfl⟩
  obtain ⟨junk, hjunk⟩ : ∃ junk : Buf, junk = (digest.drop c.MD5_HASH_LENGTH).map some
      ++ List.replicate (size - q.length - digest.length) none := ⟨_, rfl⟩
  have hd1len : d1.length = c.MD5_HASH_LENGTH := by
    rw [hd1def, List.length_take]; omega
  have hjlen : junk.length = 2 := by
    rw [hjunk]; simp only [List.length_append, List.length_map, List.length_drop,
      List.length_replicate]; omega
  have hbuf : cur (q ++ digest) (size - q.length - digest.length)
      = (q ++ d1).map some ++ junk := by
    rw [hjunk, hd1def]
    simp only [cur, List.map_append, List.append_assoc]
    congr 1
    rw [← List.append_assoc, ← List.map_append, List.take_append_drop]
  have s1 : poke (cur q (size - q.length)) q.length digest
      = some ((q ++ d1).map some ++ junk) := by
    rw [poke_cur q digest _ (by omega), hbuf]
  have s2 : peek ((q ++ d1).map some ++ junk) q.length c.MD5_HASH_LENGTH = some d1 := by
    rw [← hd1len]; exact peek_inplace q d1 junk
  have s3 : poke ((q ++ d1).map some ++ junk) q.length ((env.md d1).take c.MD5_HASH_LENGTH)
      = some ((q ++ env.md d1).map some ++ junk) := by
    have : (env.md d1).take c.MD5_HASH_LENGTH = env.md d1 :=
      List.take_of_length_le (by rw [hd1def, hmd])
    rw [this]
    exact poke_inplace q d1 (env.md d1) junk (by rw [hd1len, hd1def, hmd])
  have s4 : HeaderState.put ⟨size, (q ++ env.md d1).map some ++ junk,
        q.length + c.MD5_HASH_LENGTH⟩ (le 2 info.metastrings.length)
      = some (HeaderState.filled (q ++ env.md d1 ++ le 2 info.metastrings.length) size) := by
    have hlen : (q ++ env.md d1).length = q.length + c.MD5_HASH_LENGTH := by
      rw [List.length_append, hd1def, hmd]
    have hp := poke_over (q ++ env.md d1) junk (le 2 info.metastrings.length)
      (by rw [le_length, hjlen])
    rw [hlen] at hp
    have hdrop : junk.drop (le 2 info.metastrings.length).length = [] :=
      List.drop_eq_nil_of_le (by rw [le_length, hjlen])
    simp only [HeaderState.put, hp, Option.map_some', HeaderState.filled, hdrop,
      Option.some.injEq, HeaderState.mk.injEq, true_and, List.length_append, le_length,
      List.append_nil]
    constructor
    · have : size - (q.length + (env.md d1).length + 2) = 0 := by
        rw [hd1def, hmd]; omega
      rw [this]; simp [cur, hjlen]
    · rw [hd1def, hmd]
  have s5 := meta_loop_filled info.metastrings []
    (q ++ env.md d1 ++ le 2 info.metastrings.length) size
    (by simp only [List.length_append, le_length]; rw [hd1def, hmd]; omega) hsize
  simp only [List.nil_append, List.length_nil] at s5
  simp only [ota2_header_back, HeaderState.filled, ← hd1def, s1, s2, s3, hM,
    Option.bind_eq_bind, Option.some_bind]
  rw [s4, Option.some_bind, s5]
  rfl

theorem ota2_header_layout_length (info : UpdateInformation) (dis : Bytes) :
    (ota2_header_layout info dis).length = info.magic_number.length + 22
      + 2 * info.devices.length + dis.length + meta_size info.metastrings := by
  have hm : ∀ ms : List Bytes,
      (ms.map (fun s => be16 (strlen s) ++ cstr s)).flatten.length = meta_size ms := by
    intro ms
    induction ms with
    | nil => rfl
    | cons s ms ih =>
      rw [List.map_cons, List.flatten_cons, List.length_append, ih]
      simp only [meta_size, List.map_cons, List.sum_cons, List.length_append, be16, strlen,
        List.length_cons, List.length_nil]
      omega
  simp only [ota2_header_layout, List.length_append, le_length, flatten_le2_length, hm,
    List.length_singleton]
  omega

theorem ota2_build_header_eq (c : Consts) (env : Env) (info : UpdateInformation)
    (input_tgz : FILE)
    (hmagic : c.MAGIC_NUMBER_LENGTH = 4)
    (hblock : c.OTA_UPDATE_V2_BLOCK_SIZE = 8 + 8 + 2)
    (hpart2 : c.OTA_UPDATE_V2_PART_2_BLOCK_SIZE = 1 + 1 + c.MD5_HASH_LENGTH + 2)
    (hmag : info.magic_number.length = 4) (hpad : NulPadded info.magic_number)
    (hN : info.num_devices = info.devices.length)
    (hM : info.num_meta = info.metastrings.length)
    (hsize : ota2_header_size c info ≤ INT_MAX)
    (hrc : 0 ≤ (env.md5_sum input_tgz).1)
    (hd1 : c.MD5_HASH_LENGTH ≤ (env.md5_sum input_tgz).2.length)
    (hd2 : (env.md5_sum input_tgz).2.length ≤ c.MD5_HASH_LENGTH + 2)
    (hmd : (env.md ((env.md5_sum input_tgz).2.take c.MD5_HASH_LENGTH)).length
      = c.MD5_HASH_LENGTH) :
    ota2_build_header c env info input_tgz
      = some (0, HeaderState.filled
          (ota2_header_layout info (env.md ((env.md5_sum input_tgz).2.take c.MD5_HASH_LENGTH)))
          (ota2_header_layout info
            (env.md ((env.md5_sum input_tgz).2.take c.MD5_HASH_LENGTH))).length) := by
  unfold ota2_header_size at hsize
  have hf := ota2_header_front_eq c info hmagic hblock hmag hpad hN (by omega) (by omega)
  have hb := ota2_header_back_eq c env info (env.md5_sum input_tgz).2 (ota2_front_layout info)
    (22 + 2 * info.devices.length + c.OTA_UPDATE_V2_PART_2_BLOCK_SIZE)
    (by rw [ota2_front_layout_length, flatten_le2_length]; omega) hM hd1 hd2 hmd (by omega)
  have hnot : ¬ (env.md5_sum input_tgz).1 < 0 := by omega
  simp only [ota2_build_header, hf, hnot, hb, Option.bind_eq_bind, Option.some_bind, if_false,
    Option.map_some', Option.some.injEq, Prod.mk.injEq, true_and]
  rw [ota2_header_layout_length]
  simp only [ota2_header_layout, ota2_front_layout, List.append_assoc]
  congr 1
  rw [hmd]; omega

theorem ota2_written_header (c : Consts) (env : Env) (info : UpdateInformation)
    (input_tgz output : FILE)
    (hmagic : c.MAGIC_NUMBER_LENGTH = 4)
    (hblock : c.OTA_UPDATE_V2_BLOCK_SIZE = 8 + 8 + 2)
    (hpart2 : c.OTA_UPDATE_V2_PART_2_BLOCK_SIZE = 1 + 1 + c.MD5_HASH_LENGTH + 2)
    (hmag : info.magic_number.length = 4) (hpad : NulPadded info.magic_number)
    (hN : info.num_devices = info.devices.length)
    (hM : info.num_meta = info.metastrings.length)
    (hsize : ota2_header_size c info ≤ INT_MAX)
    (hrc : 0 ≤ (env.md5_sum input_tgz).1)
    (hd1 : c.MD5_HASH_LENGTH ≤ (env.md5_sum input_tgz).2.length)
    (hd2 : (env.md5_sum input_tgz).2.length ≤ c.MD5_HASH_LENGTH + 2)
    (hmd : (env.md ((env.md5_sum input_tgz).2.take c.MD5_HASH_LENGTH)).length
      = c.MD5_HASH_LENGTH) :
    kindle_create_ota_update_v2 c env info input_tgz output
      = some (
          if (fwrite (ota2_header_layout info
                (env.md ((env.md5_sum input_tgz).2.take c.MD5_HASH_LENGTH))) output).1
              < (ota2_header_layout info
                (env.md ((env.md5_sum input_tgz).2.take c.MD5_HASH_LENGTH))).length
          then (-1, (fwrite (ota2_header_layout info
                (env.md ((env.md5_sum input_tgz).2.take c.MD5_HASH_LENGTH))) output).2)
          else env.munger (rewind input_tgz) (fwrite (ota2_header_layout info
                (env.md ((env.md5_sum input_tgz).2.take c.MD5_HASH_LENGTH))) output).2) := by
  have hb := ota2_build_header_eq c env info input_tgz hmagic hblock hpart2 hmag hpad hN hM
    hsize hrc hd1 hd2 hmd
  have hpk := peek_cur_all (ota2_header_layout info
    (env.md ((env.md5_sum input_tgz).2.take c.MD5_HASH_LENGTH)))
  simp only [kindle_create_ota_update_v2, hb, Option.bind_eq_bind, Option.some_bind,
    HeaderState.filled, Nat.sub_self, hpk]
  simp only [Int.reduceNeg, Left.neg_neg_iff, zero_lt_one, ↓reduceIte, lt_self_iff_false]
  split <;> rfl

/-- C1. For an OTA2 request with `N = info.devices.length` devices and
`M = info.metastrings.length` meta strings, the bytes
`kindle_create_ota_update_v2` hands to `fwrite` are `ota2_header_layout`: the
4 magic bytes, the source and the target revision as 8 little-endian bytes
each, `N` as 2 little-endian bytes, the device ids as 2 little-endian bytes
each in the order of `info.devices`, the critical flag as 1 byte, one zero
byte, the disguised digest, `M` as 2 little-endian bytes, and for each meta
string in order its length as 2 bytes most significant first and then its
characters without terminator; nothing else is written before `munger`. -/
theorem ota2_header_bytes_in_order (c : Consts) (env : Env) (info : UpdateInformation)
    (input_tgz output : FILE)
    (hmagic : c.MAGIC_NUMBER_LENGTH = 4)
    (hblock : c.OTA_UPDATE_V2_BLOCK_SIZE = 8 + 8 + 2)
    (hpart2 : c.OTA_UPDATE_V2_PART_2_BLOCK_SIZE = 1 + 1 + c.MD5_HASH_LENGTH + 2)
    (hmag : info.magic_number.length = 4) (hpad : NulPadded info.magic_number)
    (hN : info.num_devices = info.devices.length)
    (hM : info.num_meta = info.metastrings.length)
    (hsize : ota2_header_size c info ≤ INT_MAX)
    (hrc : 0 ≤ (env.md5_sum input_tgz).1)
    (hd1 : c.MD5_HASH_LENGTH ≤ (env.md5_sum input_tgz).2.length)
    (hd2 : (env.md5_sum input_tgz).2.length ≤ c.MD5_HASH_LENGTH + 2)
    (hmd : (env.md ((env.md5_sum input_tgz).2.take c.MD5_HASH_LENGTH)).length
      = c.MD5_HASH_LENGTH) :
    kindle_create_ota_update_v2 c env info input_tgz output
      = some (
          if (fwrite (ota2_header_layout info
                (env.md ((env.md5_sum input_tgz).2.take c.MD5_HASH_LENGTH))) output).1
              < (ota2_header_layout info
                (env.md ((env.md5_sum input_tgz).2.take c.MD5_HASH_LENGTH))).length
          then (-1, (fwrite (ota2_header_layout info
                (env.md ((env.md5_sum input_tgz).2.take c.MD5_HASH_LENGTH))) output).2)
          else env.munger (rewind input_tgz) (fwrite (ota2_header_layout info
                (env.md ((env.md5_sum input_tgz).2.take c.MD5_HASH_LENGTH))) output).2) :=
  ota2_written_header c env info input_tgz output hmagic hblock hpart2 hmag hpad hN hM hsize hrc
    hd1 hd2 hmd

theorem ota2_header_bytes_in_order_witness :
    kindle_create_ota_update_v2 sampleConsts sampleEnv sampleOta2
        (fileOf [10, 20, 30, 40, 50]) emptyFile
      = some (0, ⟨[70, 67, 48, 52, 1, 0, 0, 0, 0, 0, 0, 0, 2, 1, 0, 0, 0, 0, 0, 0, 2, 0, 3, 0, 4,
          1, 1, 0, 207, 206, 202, 207, 2, 0, 0, 3, 97, 61, 98, 0, 2, 99, 61,
          245, 235, 225, 215, 205], 48, none, none, false⟩) :=
  (ota2_header_bytes_in_order sampleConsts sampleEnv sampleOta2
    (fileOf [10, 20, 30, 40, 50]) emptyFile rfl rfl rfl rfl (by decide) rfl rfl (by decide)
    (by decide) (by decide) (by decide) (by decide)).trans (by decide)

/-! ## Streams -/

theorem readable_eq_data (f : FILE) (h : f.data.length ≤ f.readable.length) :
    f.readable = f.data := by
  unfold FILE.readable at h ⊢
  cases hr : f.rlimit with
  | none => rfl
  | some k =>
    rw [hr] at h
    simp only [List.length_take] at h
    exact List.take_of_length_le (by omega)

theorem fwrite_full (bs : Bytes) (f : FILE) (hpos : f.pos = f.data.length)
    (h : ¬ (fwrite bs f).1 < bs.length) :
    (fwrite bs f).2.data = f.data ++ bs
      ∧ (fwrite bs f).2.pos = (fwrite bs f).2.data.length := by
  unfold fwrite at h ⊢
  cases hw : f.wroom with
  | none =>
    simp only [hpos, List.take_length, List.take_of_length_le (le_refl bs.length),
      List.drop_eq_nil_of_le (Nat.le_add_right _ _), List.append_nil, List.length_append,
      and_self]
  | some r =>
    rw [hw] at h
    simp only at h
    have hk : min r bs.length = bs.length := by omega
    simp only [hk, hpos, List.take_length, List.take_of_length_le (le_refl bs.length),
      List.drop_eq_nil_of_le (Nat.le_add_right _ _), List.append_nil, List.length_append,
      and_self]

theorem rewind_fread (n : Nat) (f : FILE) : rewind (fread n f).2 = rewind f := by
  simp [rewind, fread]

theorem fread_readable (n : Nat) (f : FILE) : (fread n f).2.readable = f.readable := by
  simp [fread, FILE.readable]

theorem fread_pos (n : Nat) (f : FILE) : (fread n f).2.pos = f.pos + (fread n f).1.length := rfl

theorem fread_length (n : Nat) (f : FILE) :
    (fread n f).1.length = min n (f.readable.length - f.pos) := by
  simp [fread]

theorem fread_measure (n : Nat) (f : FILE) (h : 0 < (fread n f).1.length) :
    (fread n f).2.readable.length - (fread n f).2.pos < f.readable.length - f.pos := by
  rw [fread_readable, fread_pos]
  rw [fread_length] at h ⊢
  omega

theorem drop_take_length (n : Nat) (l : Bytes) : l.drop (l.take n).length = l.drop n := by
  rw [List.length_take]
  rcases Nat.le_total n l.length with h | h
  · rw [Nat.min_eq_left h]
  · rw [Nat.min_eq_right h, List.drop_eq_nil_of_le (le_refl _), List.drop_eq_nil_of_le h]

/-! ## `sign_file` -/

theorem sign_loop_rounds_enough {Ctx : Type} (evp : Evp Ctx) (B : Nat) :
    ∀ (n m : Nat) (ctx : Ctx) (f : FILE), f.readable.length - f.pos < n →
      f.readable.length - f.pos < m →
      sign_loop_rounds evp B n ctx f = sign_loop_rounds evp B m ctx f := by
  intro n
  induction n with
  | zero => intro m ctx f h; omega
  | succ n ih =>
    intro m ctx f hn hm
    cases m with
    | zero => omega
    | succ m =>
      simp only [sign_loop_rounds]
      by_cases hc : 0 < (fread B f).1.length
      · simp only [hc, if_true]
        cases hu : evp.EVP_SignUpdate ctx (fread B f).1 with
        | none => rfl
        | some ctx1 =>
          have hlt := fread_measure B f hc
          exact ih m ctx1 (fread B f).2 (by omega) (by omega)
      · simp only [hc, if_false]

/-- The loop of `sign_file` unfolds like the `while` statement it stands for. -/
theorem sign_loop_eq {Ctx : Type} (evp : Evp Ctx) (B : Nat) (ctx : Ctx) (f : FILE) :
    sign_loop evp B ctx f =
      if 0 < (fread B f).1.length then
        match evp.EVP_SignUpdate ctx (fread B f).1 with
        | none => (none, (fread B f).2)
        | some ctx => sign_loop evp B ctx (fread B f).2
      else (some ctx, (fread B f).2) := by
  unfold sign_loop
  simp only [sign_loop_rounds]
  by_cases hc : 0 < (fread B f).1.length
  · simp only [hc, if_true]
    cases hu : evp.EVP_SignUpdate ctx (fread B f).1 with
    | none => rfl
    | some ctx1 =>
      have hlt := fread_measure B f hc
      exact sign_loop_rounds_enough evp B (f.readable.length - f.pos)
        ((fread B f).2.readable.length - (fread B f).2.pos + 1) ctx1 (fread B f).2 hlt
        (by omega)
  · simp only [hc, if_false]

theorem sign_loop_ctx {Ctx : Type} (evp : Evp Ctx) (B : Nat) (hB : 0 < B)
    (hinc : evp.Incremental) :
    ∀ (n : Nat) (ctx : Ctx) (f : FILE), f.readable.length - f.pos = n →
      (sign_loop evp B ctx f).1 = evp.EVP_SignUpdate ctx (f.readable.drop f.pos) := by
  intro n
  induction n using Nat.strong_induction_on with
  | _ n ih =>
    intro ctx f hn
    rw [sign_loop_eq]
    have hsplit : f.readable.drop f.pos
        = (fread B f).1 ++ (f.readable.drop f.pos).drop B := by
      simp only [fread]; exact (List.take_append_drop _ _).symm
    by_cases hc : 0 < (fread B f).1.length
    · simp only [hc, if_true]
      rw [hsplit, hinc.1]
      cases hu : evp.EVP_SignUpdate ctx (fread B f).1 with
      | none => rfl
      | some ctx1 =>
        simp only [Option.some_bind]
        have hlt : (fread B f).2.readable.length - (fread B f).2.pos < n := by
          rw [← hn]; exact fread_measure B f hc
        rw [ih _ hlt ctx1 (fread B f).2 rfl, fread_readable]
        congr 1
        simp only [fread]
        rw [← List.drop_drop, drop_take_length]
    · simp only [hc, if_false]
      have hnil : (fread B f).1 = [] := List.length_eq_zero.mp (by omega)
      have hrest : f.readable.drop f.pos = [] := by
        have : ((f.readable.drop f.pos).take B).length = 0 := by
          have := congrArg List.length hnil
          simpa [fread] using this
        rw [List.length_take] at this
        exact List.length_eq_zero.mp (by omega)
      rw [hrest, hinc.2]

theorem sign_loop_rewind {Ctx : Type} (evp : Evp Ctx) (B : Nat) :
    ∀ (n : Nat) (ctx : Ctx) (f : FILE), f.readable.length - f.pos = n →
      rewind (sign_loop evp B ctx f).2 = rewind f := by
  intro n
  induction n using Nat.strong_induction_on with
  | _ n ih =>
    intro ctx f hn
    rw [sign_loop_eq]
    by_cases hc : 0 < (fread B f).1.length
    · simp only [hc, if_true]
      cases hu : evp.EVP_SignUpdate ctx (fread B f).1 with
      | none => exact rewind_fread B f
      | some ctx1 =>
        have hlt : (fread B f).2.readable.length - (fread B f).2.pos < n := by
          rw [← hn]; exact fread_measure B f hc
        simp only
        rw [ih _ hlt ctx1 (fread B f).2 rfl, rewind_fread]
    · simp only [hc, if_false]
      exact rewind_fread B f

theorem sign_loop_no_error {Ctx : Type} (evp : Evp Ctx) (B : Nat) (hB : 0 < B) :
    ∀ (n : Nat) (ctx : Ctx) (f : FILE), f.readable.length - f.pos = n →
      (sign_loop evp B ctx f).1.isSome = true →
      (sign_loop evp B ctx f).2.error = false →
      f.data.length ≤ f.readable.length := by
  intro n
  induction n using Nat.strong_induction_on with
  | _ n ih =>
    intro ctx f hn
    rw [sign_loop_eq]
    by_cases hc : 0 < (fread B f).1.length
    · simp only [hc, if_true]
      cases hu : evp.EVP_SignUpdate ctx (fread B f).1 with
      | none => simp
      | some ctx1 =>
        have hlt : (fread B f).2.readable.length - (fread B f).2.pos < n := by
          rw [← hn]; exact fread_measure B f hc
        simp only
        intro h1 h2
        have := ih _ hlt ctx1 (fread B f).2 rfl h1 h2
        rw [fread_readable] at this
        simpa [fread] using this
    · simp only [hc, if_false]
      intro _ herr
      have hz : (fread B f).1.length = 0 := by omega
      simp only [fread, Bool.or_eq_false_iff, Bool.and_eq_false_imp, decide_eq_true_eq,
        decide_eq_false_iff_not] at herr hz
      have := herr.2 (by omega)
      omega

theorem sign_file_ok {Ctx : Type} (c : Consts) (evp : Evp Ctx) (f : FILE) (key : Nat)
    (out : FILE) (hB : 0 < c.BUFFER_SIZE) (hinc : evp.Incremental)
    (h : ¬ (sign_file c evp f key out).1 < 0) :
    ∃ σ, sign_oneshot evp key (f.data.drop f.pos) = some σ
      ∧ ¬ (fwrite σ out).1 < σ.length
      ∧ (sign_file c evp f key out).1 = 0
      ∧ (sign_file c evp f key out).2.2 = (fwrite σ out).2
      ∧ rewind (sign_file c evp f key out).2.1 = rewind f
      ∧ f.readable = f.data := by
  revert h
  unfold sign_file
  split
  · intro h; simp at h
  · rename_i hk
    split
    · intro h; simp at h
    · rename_i ctx0 hi
      have hctx := sign_loop_ctx evp c.BUFFER_SIZE hB hinc _ ctx0 f rfl
      have hrw := sign_loop_rewind evp c.BUFFER_SIZE _ ctx0 f rfl
      have hne := sign_loop_no_error evp c.BUFFER_SIZE hB _ ctx0 f rfl
      split
      · intro h; simp at h
      · rename_i ctx1 f1 hl
        rw [hl] at hctx hrw hne
        simp only at hctx hrw hne
        split
        · intro h; simp at h
        · rename_i he
          have hread : f.readable = f.data :=
            readable_eq_data f (hne rfl (by simpa [ferror] using he))
          split
          · intro h; simp at h
          · rename_i sig hf
            split
            · intro h; simp at h
            · rename_i hw
              intro _
              refine ⟨sig, ?_, hw, rfl, rfl, hrw, hread⟩
              simp only [sign_oneshot, hk, if_false, hi, Option.some_bind]
              rw [← hread, ← hctx]
              simp [hf]

/-! ## The copy loop of `kindle_create` -/

theorem copy_loop_rounds_enough (B : Nat) :
    ∀ (n m : Nat) (t o : FILE), t.readable.length - t.pos < n →
      t.readable.length - t.pos < m →
      copy_loop_rounds B n t o = copy_loop_rounds B m t o := by
  intro n
  induction n with
  | zero => intro m t o h; omega
  | succ n ih =>
    intro m t o hn hm
    cases m with
    | zero => omega
    | succ m =>
      simp only [copy_loop_rounds]
      by_cases hc : 0 < (fread B t).1.length
      · simp only [hc, if_true]
        by_cases hw : (fwrite (fread B t).1 o).1 < (fread B t).1.length
        · simp only [hw, if_true]
        · simp only [hw, if_false]
          have hlt := fread_measure B t hc
          exact ih m (fread B t).2 _ (by omega) (by omega)
      · simp only [hc, if_false]

/-- The copy loop unfolds like the `while` statement it stands for. -/
theorem copy_loop_eq (B : Nat) (t o : FILE) :
    copy_loop B t o =
      if 0 < (fread B t).1.length then
        if (fwrite (fread B t).1 o).1 < (fread B t).1.length then
          (true, (fread B t).2, (fwrite (fread B t).1 o).2)
        else copy_loop B (fread B t).2 (fwrite (fread B t).1 o).2
      else (false, (fread B t).2, o) := by
  unfold copy_loop
  simp only [copy_loop_rounds]
  by_cases hc : 0 < (fread B t).1.length
  · simp only [hc, if_true]
    by_cases hw : (fwrite (fread B t).1 o).1 < (fread B t).1.length
    · simp only [hw, if_true]
    · simp only [hw, if_false]
      have hlt := fread_measure B t hc
      exact copy_loop_rounds_enough B (t.readable.length - t.pos)
        ((fread B t).2.readable.length - (fread B t).2.pos + 1) (fread B t).2 _ hlt (by omega)
  · simp only [hc, if_false]

theorem fread_nil_rest (B : Nat) (hB : 0 < B) (t : FILE) (hc : ¬ 0 < (fread B t).1.length) :
    t.readable.drop t.pos = [] := by
  rw [fread_length] at hc
  exact List.length_eq_zero.mp (by rw [List.length_drop]; omega)

theorem copy_loop_ok (B : Nat) (hB : 0 < B) :
    ∀ (n : Nat) (t o : FILE), t.readable.length - t.pos = n → o.pos = o.data.length →
      (copy_loop B t o).1 = false →
      (copy_loop B t o).2.2.data = o.data ++ t.readable.drop t.pos := by
  intro n
  induction n using Nat.strong_induction_on with
  | _ n ih =>
    intro t o hn hpos
    rw [copy_loop_eq]
    by_cases hc : 0 < (fread B t).1.length
    · simp only [hc, if_true]
      by_cases hw : (fwrite (fread B t).1 o).1 < (fread B t).1.length
      · simp [hw]
      · simp only [hw, if_false]
        intro hres
        have hlt : (fread B t).2.readable.length - (fread B t).2.pos < n := by
          rw [← hn]; exact fread_measure B t hc
        have hfw := fwrite_full (fread B t).1 o hpos hw
        rw [ih _ hlt (fread B t).2 (fwrite (fread B t).1 o).2 rfl hfw.2 hres, hfw.1,
          fread_readable, List.append_assoc]
        congr 1
        have hsplit : t.readable.drop t.pos
            = (fread B t).1 ++ (t.readable.drop t.pos).drop B := by
          simp only [fread]; exact (List.take_append_drop _ _).symm
        conv_rhs => rw [hsplit]
        congr 1
        simp only [fread]
        rw [← List.drop_drop, drop_take_length]
    · simp only [hc, if_false]
      intro _
      rw [fread_nil_rest B hB t hc, List.append_nil]

theorem copy_loop_no_error (B : Nat) (hB : 0 < B) :
    ∀ (n : Nat) (t o : FILE), t.readable.length - t.pos = n →
      (copy_loop B t o).1 = false → (copy_loop B t o).2.1.error = false →
      t.readable = t.data := by
  intro n
  induction n using Nat.strong_induction_on with
  | _ n ih =>
    intro t o hn
    rw [copy_loop_eq]
    by_cases hc : 0 < (fread B t).1.length
    · simp only [hc, if_true]
      by_cases hw : (fwrite (fread B t).1 o).1 < (fread B t).1.length
      · simp [hw]
      · simp only [hw, if_false]
        intro h1 h2
        have hlt : (fread B t).2.readable.length - (fread B t).2.pos < n := by
          rw [← hn]; exact fread_measure B t hc
        have := ih _ hlt (fread B t).2 (fwrite (fread B t).1 o).2 rfl h1 h2
        rw [fread_readable] at this
        simpa [fread] using this
    · simp only [hc, if_false]
      intro _ herr
      apply readable_eq_data
      have hz : (fread B t).1.length = 0 := by omega
      simp only [fread, Bool.or_eq_false_iff, Bool.and_eq_false_imp, decide_eq_true_eq,
        decide_eq_false_iff_not] at herr hz
      have := herr.2 (by omega)
      omega

/-! ## `kindle_create_signature` -/

theorem store_length (obj : Bytes) (off : Nat) (src obj2 : Bytes)
    (h : store obj off src = some obj2) : obj2.length = obj.length := by
  unfold store at h
  split at h
  · cases h
    simp only [List.length_append, List.length_take, List.length_drop]
    omega
  · cases h

theorem signature_header_record (c : Consts) (L : Layout) (info : UpdateInformation)
    (hm : L.magic_number = 0) (hc : L.signature_certificate_number = 4)
    (h8 : 8 ≤ c.MAGIC_NUMBER_LENGTH + c.UPDATE_SIGNATURE_BLOCK_SIZE)
    (hsz : c.MAGIC_NUMBER_LENGTH + c.UPDATE_SIGNATURE_BLOCK_SIZE ≤ L.sizeof_UpdateHeader) :
    (signature_header L info).bind
        (fun h => load h 0 (c.MAGIC_NUMBER_LENGTH + c.UPDATE_SIGNATURE_BLOCK_SIZE))
      = some (signature_record c info) := by
  have hsp : strncpy SP01 4 = [83, 80, 48, 49] := by decide
  have hle : (le 4 (info.certificate_number % 2 ^ 32)).length = 4 := le_length _ _
  obtain ⟨n, hn⟩ : ∃ n, L.sizeof_UpdateHeader = 8 + n := ⟨L.sizeof_UpdateHeader - 8, by omega⟩
  obtain ⟨k, hk⟩ : ∃ k, c.MAGIC_NUMBER_LENGTH + c.UPDATE_SIGNATURE_BLOCK_SIZE = 8 + k :=
    ⟨c.MAGIC_NUMBER_LENGTH + c.UPDATE_SIGNATURE_BLOCK_SIZE - 8, by omega⟩
  have s1 : store (memset0 (8 + n)) 0 [83, 80, 48, 49]
      = some ([83, 80, 48, 49] ++ List.replicate (4 + n) 0) := by
    simp only [store, memset0, List.length_replicate, List.length_cons, List.length_nil]
    rw [if_pos (by omega)]
    simp only [List.take_zero, List.nil_append, List.drop_replicate, Option.some.injEq]
    congr 2; omega
  have s2 : store ([83, 80, 48, 49] ++ List.replicate (4 + n) 0) 4
        (le 4 (info.certificate_number % 2 ^ 32))
      = some ([83, 80, 48, 49] ++ le 4 (info.certificate_number % 2 ^ 32)
          ++ List.replicate n 0) := by
    simp only [store, hle, List.length_append, List.length_replicate, List.length_cons,
      List.length_nil]
    rw [if_pos (by omega)]
    simp [List.drop_append_eq_append_drop, List.take_append_eq_append_take]
  have s3 : load ([83, 80, 48, 49] ++ le 4 (info.certificate_number % 2 ^ 32)
        ++ List.replicate n 0) 0 (8 + k)
      = some ([83, 80, 48, 49] ++ le 4 (info.certificate_number % 2 ^ 32)
          ++ List.replicate k 0) := by
    simp only [load, hle, List.length_append, List.length_replicate, List.length_cons,
      List.length_nil]
    rw [if_pos (by omega)]
    simp only [List.drop_zero, Option.some.injEq]
    rw [List.take_append_eq_append_take, List.take_of_length_le
      (by simp only [List.length_append, hle, List.length_cons, List.length_nil]; omega)]
    simp only [List.length_append, hle, List.length_cons, List.length_nil, List.take_replicate]
    congr 2; omega
  simp only [signature_header, hm, hc, hn, hsp, s1, s2, hk, s3, Option.bind_eq_bind,
    Option.some_bind, signature_record]
  congr 3; omega

theorem signature_record_length (c : Consts) (info : UpdateInformation)
    (h8 : 8 ≤ c.MAGIC_NUMBER_LENGTH + c.UPDATE_SIGNATURE_BLOCK_SIZE) :
    (signature_record c info).length
      = c.MAGIC_NUMBER_LENGTH + c.UPDATE_SIGNATURE_BLOCK_SIZE := by
  simp only [signature_record, List.length_append, le_length, List.length_replicate,
    List.length_cons, List.length_nil]
  omega

theorem kindle_create_signature_eq {Ctx : Type} (c : Consts) (L : Layout) (evp : Evp Ctx)
    (info : UpdateInformation) (input_bin output : FILE)
    (hm : L.magic_number = 0) (hc : L.signature_certificate_number = 4)
    (h8 : 8 ≤ c.MAGIC_NUMBER_LENGTH + c.UPDATE_SIGNATURE_BLOCK_SIZE)
    (hsz : c.MAGIC_NUMBER_LENGTH + c.UPDATE_SIGNATURE_BLOCK_SIZE ≤ L.sizeof_UpdateHeader) :
    kindle_create_signature c L evp info input_bin output
      = some (
          if (fwrite (signature_record c info) output).1 < (signature_record c info).length then
            (-1, input_bin, (fwrite (signature_record c info) output).2)
          else if (sign_file c evp input_bin info.sign_pkey
              (fwrite (signature_record c info) output).2).1 < 0 then
            (-1, (sign_file c evp input_bin info.sign_pkey
              (fwrite (signature_record c info) output).2).2)
          else
            (0, (sign_file c evp input_bin info.sign_pkey
              (fwrite (signature_record c info) output).2).2)) := by
  have hrec := signature_header_record c L info hm hc h8 hsz
  rw [signature_record_length c info h8]
  unfold kindle_create_signature
  cases hh : signature_header L info with
  | none => rw [hh] at hrec; simp at hrec
  | some header =>
    rw [hh] at hrec
    simp only [Option.some_bind] at hrec
    simp only [Option.bind_eq_bind, Option.some_bind, hrec]
    split
    · rfl
    · split <;> rfl

theorem sign_file_inv {Ctx : Type} (c : Consts) (evp : Evp Ctx) (f : FILE) (key : Nat)
    (out : FILE) (h : ¬ (sign_file c evp f key out).1 < 0) :
    ∃ σ ctx, evp.EVP_SignFinal ctx key = some σ
      ∧ ¬ (fwrite σ out).1 < σ.length
      ∧ (sign_file c evp f key out).1 = 0
      ∧ (sign_file c evp f key out).2.2 = (fwrite σ out).2 := by
  revert h
  unfold sign_file
  split
  · intro h; simp at h
  · split
    · intro h; simp at h
    · split
      · intro h; simp at h
      · split
        · intro h; simp at h
        · split
          · intro h; simp at h
          · split
            · intro h; simp at h
            · intro _
              exact ⟨_, _, by assumption, by assumption, rfl, rfl⟩

/-- C4. The record `kindle_create_signature` hands to `fwrite` is
`signature_record`: `MAGIC_NUMBER_LENGTH + UPDATE_SIGNATURE_BLOCK_SIZE` bytes,
`"SP01"`, the certificate number as 32 bits little-endian, then zeros only;
and when the call succeeds the output has grown by that record followed
directly by the signature `EVP_SignFinal` produced. -/
theorem signature_record_then_signature {Ctx : Type} (c : Consts) (L : Layout) (evp : Evp Ctx)
    (info : UpdateInformation) (input_bin output : FILE)
    (hm : L.magic_number = 0) (hc : L.signature_certificate_number = 4)
    (h8 : 8 ≤ c.MAGIC_NUMBER_LENGTH + c.UPDATE_SIGNATURE_BLOCK_SIZE)
    (hsz : c.MAGIC_NUMBER_LENGTH + c.UPDATE_SIGNATURE_BLOCK_SIZE ≤ L.sizeof_UpdateHeader)
    (hpos : output.pos = output.data.length) :
    (signature_record c info).length = c.MAGIC_NUMBER_LENGTH + c.UPDATE_SIGNATURE_BLOCK_SIZE
    ∧ (∃ zeros, signature_record c info
          = [83, 80, 48, 49] ++ le 4 (info.certificate_number % 2 ^ 32) ++ zeros
        ∧ ∀ b ∈ zeros, b = 0)
    ∧ kindle_create_signature c L evp info input_bin output
      = some (
          if (fwrite (signature_record c info) output).1 < (signature_record c info).length then
            (-1, input_bin, (fwrite (signature_record c info) output).2)
          else if (sign_file c evp input_bin info.sign_pkey
              (fwrite (signature_record c info) output).2).1 < 0 then
            (-1, (sign_file c evp input_bin info.sign_pkey
              (fwrite (signature_record c info) output).2).2)
          else
            (0, (sign_file c evp input_bin info.sign_pkey
              (fwrite (signature_record c info) output).2).2))
    ∧ ∀ rc in2 out2, kindle_create_signature c L evp info input_bin output
          = some (rc, in2, out2) → 0 ≤ rc →
        ∃ σ ctx, evp.EVP_SignFinal ctx info.sign_pkey = some σ
          ∧ out2.data = output.data ++ signature_record c info ++ σ := by
  have heq := kindle_create_signature_eq c L evp info input_bin output hm hc h8 hsz
  refine ⟨signature_record_length c info h8, ⟨_, rfl, ?_⟩, heq, ?_⟩
  · intro b hb; exact List.eq_of_mem_replicate hb
  · intro rc in2 out2 hret hrc
    rw [heq] at hret
    by_cases h1 : (fwrite (signature_record c info) output).1 < (signature_record c info).length
    · simp only [h1, if_true, Option.some.injEq, Prod.mk.injEq] at hret
      omega
    · simp only [h1, if_false] at hret
      by_cases h2 : (sign_file c evp input_bin info.sign_pkey
          (fwrite (signature_record c info) output).2).1 < 0
      · simp only [h2, if_true, Option.some.injEq, Prod.mk.injEq] at hret
        omega
      · simp only [h2, if_false, Option.some.injEq, Prod.mk.injEq] at hret
        obtain ⟨σ, ctx, hf, hw, _, hout⟩ := sign_file_inv c evp input_bin info.sign_pkey _ h2
        have w1 := fwrite_full _ output hpos h1
        have w2 := fwrite_full σ _ w1.2 hw
        refine ⟨σ, ctx, hf, ?_⟩
        have hout2 : (sign_file c evp input_bin info.sign_pkey
            (fwrite (signature_record c info) output).2).2.2 = out2 := by
          have := congrArg Prod.snd hret.2
          simpa using this
        rw [← hout2, hout, w2.1, w1.1]

theorem rewind_rewind (f : FILE) : rewind (rewind f) = rewind f := rfl

theorem rewind_readable (f : FILE) : (rewind f).readable = f.readable := rfl

theorem two_stage_inv {Ctx : Type} (c : Consts) (L : Layout) (env : Env) (evp : Evp Ctx)
    (info : UpdateInformation) (input_tgz temp output out2 : FILE)
    (hB : 0 < c.BUFFER_SIZE) (hinc : evp.Incremental)
    (hm : L.magic_number = 0) (hc : L.signature_certificate_number = 4)
    (h8 : 8 ≤ c.MAGIC_NUMBER_LENGTH + c.UPDATE_SIGNATURE_BLOCK_SIZE)
    (hsz : c.MAGIC_NUMBER_LENGTH + c.UPDATE_SIGNATURE_BLOCK_SIZE ≤ L.sizeof_UpdateHeader)
    (hpos : output.pos = output.data.length)
    (hret : kindle_create_two_stage c L env evp info input_tgz temp output = some (0, out2)) :
    ∃ rc1 S σ, kindle_create_ota_update_v2 c env info input_tgz temp = some (rc1, S)
      ∧ 0 ≤ rc1
      ∧ sign_oneshot evp info.sign_pkey S.data = some σ
      ∧ out2.data = output.data ++ signature_record c info ++ σ ++ S.data := by
  unfold kindle_create_two_stage at hret
  cases h1 : kindle_create_ota_update_v2 c env info input_tgz temp with
  | none => rw [h1] at hret; simp at hret
  | some stage1 =>
    obtain ⟨rc1, S⟩ := stage1
    rw [h1] at hret
    simp only [Option.bind_eq_bind, Option.some_bind] at hret
    by_cases hneg : rc1 < 0
    · simp [hneg] at hret
    · simp only [hneg, if_false] at hret
      rw [kindle_create_signature_eq c L evp info (rewind S) output hm hc h8 hsz] at hret
      simp only [Option.some_bind] at hret
      by_cases hw1 : (fwrite (signature_record c info) output).1
          < (signature_record c info).length
      · simp [hw1] at hret
      · simp only [hw1, if_false] at hret
        by_cases hs : (sign_file c evp (rewind S) info.sign_pkey
            (fwrite (signature_record c info) output).2).1 < 0
        · simp [hs] at hret
        · simp only [hs, if_false] at hret
          obtain ⟨σ, hone, hw2, _, hout, hrw, hread⟩ :=
            sign_file_ok c evp (rewind S) info.sign_pkey _ hB hinc hs
          have w1 := fwrite_full _ output hpos hw1
          have w2 := fwrite_full σ _ w1.2 hw2
          rw [hout, hrw, rewind_rewind] at hret
          simp only [Int.lt_irrefl, if_false] at hret
          by_cases hcp : (copy_loop c.BUFFER_SIZE (rewind S)
              (fwrite σ (fwrite (signature_record c info) output).2).2).1 = true
          · simp [hcp] at hret
          · have hcp2 : (copy_loop c.BUFFER_SIZE (rewind S)
                (fwrite σ (fwrite (signature_record c info) output).2).2).1 = false := by
              simpa using hcp
            simp only [hcp2, Bool.false_eq_true, if_false] at hret
            by_cases hfe : ferror (copy_loop c.BUFFER_SIZE (rewind S)
                (fwrite σ (fwrite (signature_record c info) output).2).2).2.1 = true
            · simp [hfe] at hret
            · simp only [hfe, Bool.false_eq_true, if_false, Option.some.injEq, Prod.mk.injEq,
                true_and] at hret
              have hdata := copy_loop_ok c.BUFFER_SIZE hB _ (rewind S) _ rfl w2.2 hcp2
              refine ⟨rc1, S, σ, rfl, by omega, ?_, ?_⟩
              · simpa [rewind] using hone
              · rw [← hret, hdata, w2.1, w1.1, hread]
                simp [rewind]

/-- C2. When `kindle_create` returns 0 for an OTA2 request, what it appended
to `output` is the record `signature_record`, then the signature of the whole
temporary file as stage 1 left it, then that file; so any verifier that
accepts every signature the signing interface produces accepts the signature
against the bytes that follow it. -/
theorem ota2_output_is_record_signature_stage1 {Ctx : Type} (c : Consts) (L : Layout)
    (env : Env) (evp : Evp Ctx) (info : UpdateInformation) (input_tgz output out2 : FILE)
    (hver : info.version = BundleVersion.OTAUpdateV2)
    (hB : 0 < c.BUFFER_SIZE) (hinc : evp.Incremental)
    (hm : L.magic_number = 0) (hc : L.signature_certificate_number = 4)
    (h8 : 8 ≤ c.MAGIC_NUMBER_LENGTH + c.UPDATE_SIGNATURE_BLOCK_SIZE)
    (hsz : c.MAGIC_NUMBER_LENGTH + c.UPDATE_SIGNATURE_BLOCK_SIZE ≤ L.sizeof_UpdateHeader)
    (hpos : output.pos = output.data.length)
    (hret : kindle_create c L env evp info input_tgz output = some (0, out2)) :
    ∃ temp rc1 S σ, env.tmpfile = some temp
      ∧ kindle_create_ota_update_v2 c env info input_tgz temp = some (rc1, S)
      ∧ 0 ≤ rc1
      ∧ sign_oneshot evp info.sign_pkey S.data = some σ
      ∧ out2.data = output.data ++ signature_record c info ++ σ ++ S.data
      ∧ ∀ verify : Nat → Bytes → Bytes → Bool,
          (∀ m s, sign_oneshot evp info.sign_pkey m = some s
            → verify info.sign_pkey m s = true)
          → verify info.sign_pkey S.data σ = true := by
  unfold kindle_create at hret
  rw [hver] at hret
  simp only at hret
  cases ht : env.tmpfile with
  | none => rw [ht] at hret; simp at hret
  | some temp =>
    rw [ht] at hret
    simp only at hret
    obtain ⟨rc1, S, σ, h1, h2, h3, h4⟩ :=
      two_stage_inv c L env evp info input_tgz temp output out2 hB hinc hm hc h8 hsz hpos hret
    exact ⟨temp, rc1, S, σ, rfl, h1, h2, h3, h4, fun verify hv => hv _ _ h3⟩

/-! ## Success of every step gives a result -/

theorem fwrite_unlimited (bs : Bytes) (f : FILE) (hw : f.wroom = none) :
    ¬ (fwrite bs f).1 < bs.length ∧ (fwrite bs f).2.wroom = none := by
  simp [fwrite, hw]

theorem fread_error (n : Nat) (f : FILE) (h : f.rlimit = none) :
    (fread n f).2.error = f.error ∧ (fread n f).2.rlimit = none := by
  simp [fread, FILE.readable, h]

theorem sign_loop_error {Ctx : Type} (evp : Evp Ctx) (B : Nat) :
    ∀ (n : Nat) (ctx : Ctx) (f : FILE), f.readable.length - f.pos = n → f.rlimit = none →
      (sign_loop evp B ctx f).2.error = f.error := by
  intro n
  induction n using Nat.strong_induction_on with
  | _ n ih =>
    intro ctx f hn hr
    rw [sign_loop_eq]
    by_cases hc : 0 < (fread B f).1.length
    · simp only [hc, if_true]
      cases hu : evp.EVP_SignUpdate ctx (fread B f).1 with
      | none => exact (fread_error B f hr).1
      | some ctx1 =>
        have hlt : (fread B f).2.readable.length - (fread B f).2.pos < n := by
          rw [← hn]; exact fread_measure B f hc
        simp only
        rw [ih _ hlt ctx1 (fread B f).2 rfl (fread_error B f hr).2, (fread_error B f hr).1]
    · simp only [hc, if_false]
      exact (fread_error B f hr).1

theorem sign_file_runs {Ctx : Type} (c : Consts) (evp : Evp Ctx) (f : FILE) (key : Nat)
    (out : FILE) (σ : Bytes) (hB : 0 < c.BUFFER_SIZE) (hinc : evp.Incremental)
    (hr : f.rlimit = none) (he : f.error = false) (hw : out.wroom = none)
    (hone : sign_oneshot evp key (f.data.drop f.pos) = some σ) :
    (sign_file c evp f key out).1 = 0 := by
  unfold sign_oneshot at hone
  have hread : f.readable = f.data := by simp [FILE.readable, hr]
  unfold sign_file
  split at hone
  · cases hone
  · rename_i hk
    simp only [hk, if_false]
    cases hi : evp.EVP_SignInit with
    | none => rw [hi] at hone; simp at hone
    | some ctx0 =>
      rw [hi] at hone
      simp only [Option.some_bind] at hone ⊢
      have hctx := sign_loop_ctx evp c.BUFFER_SIZE hB hinc _ ctx0 f rfl
      have herr := sign_loop_error evp c.BUFFER_SIZE _ ctx0 f rfl hr
      rw [hread] at hctx
      cases hl : sign_loop evp c.BUFFER_SIZE ctx0 f with
      | mk octx f1 =>
        rw [hl] at hctx herr
        simp only at hctx herr
        cases hu : evp.EVP_SignUpdate ctx0 (f.data.drop f.pos) with
        | none => rw [hu] at hone; simp at hone
        | some ctx1 =>
          rw [hu] at hone hctx
          simp only [Option.some_bind] at hone
          subst hctx
          simp only [ferror, herr, he, Bool.false_eq_true, if_false, hone,
            (fwrite_unlimited σ out hw).1]
          simp

theorem copy_loop_runs (B : Nat) :
    ∀ (n : Nat) (t o : FILE), t.readable.length - t.pos = n → t.rlimit = none →
      o.wroom = none →
      (copy_loop B t o).1 = false ∧ (copy_loop B t o).2.1.error = t.error := by
  intro n
  induction n using Nat.strong_induction_on with
  | _ n ih =>
    intro t o hn hr hw
    rw [copy_loop_eq]
    by_cases hc : 0 < (fread B t).1.length
    · have hlt : (fread B t).2.readable.length - (fread B t).2.pos < n := by
        rw [← hn]; exact fread_measure B t hc
      have hfw := fwrite_unlimited (fread B t).1 o hw
      have := ih _ hlt (fread B t).2 (fwrite (fread B t).1 o).2 rfl (fread_error B t hr).2 hfw.2
      simp only [hc, if_true, hfw.1, if_false, this, (fread_error B t hr).1, and_self]
    · simp only [hc, if_false, (fread_error B t hr).1, and_self]

theorem two_stage_runs {Ctx : Type} (c : Consts) (L : Layout) (env : Env) (evp : Evp Ctx)
    (info : UpdateInformation) (input_tgz temp output S : FILE) (rc1 : Int) (σ : Bytes)
    (hB : 0 < c.BUFFER_SIZE) (hinc : evp.Incremental)
    (hm : L.magic_number = 0) (hc : L.signature_certificate_number = 4)
    (h8 : 8 ≤ c.MAGIC_NUMBER_LENGTH + c.UPDATE_SIGNATURE_BLOCK_SIZE)
    (hsz : c.MAGIC_NUMBER_LENGTH + c.UPDATE_SIGNATURE_BLOCK_SIZE ≤ L.sizeof_UpdateHeader)
    (hw : output.wroom = none)
    (h1 : kindle_create_ota_update_v2 c env info input_tgz temp = some (rc1, S))
    (hrc : 0 ≤ rc1) (hr : S.rlimit = none)
    (hone : sign_oneshot evp info.sign_pkey S.data = some σ) :
    ∃ out2, kindle_create_two_stage c L env evp info input_tgz temp output = some (0, out2) := by
  have hneg : ¬ rc1 < 0 := by omega
  have hw1 := fwrite_unlimited (signature_record c info) output hw
  have hsf := sign_file_runs c evp (rewind S) info.sign_pkey
    (fwrite (signature_record c info) output).2 σ hB hinc hr rfl hw1.2 hone
  have hs : ¬ (sign_file c evp (rewind S) info.sign_pkey
      (fwrite (signature_record c info) output).2).1 < 0 := by rw [hsf]; decide
  obtain ⟨σ2, _, hw2, _, hout, hrw, _⟩ :=
    sign_file_ok c evp (rewind S) info.sign_pkey _ hB hinc hs
  have hcp := copy_loop_runs c.BUFFER_SIZE _ (rewind S)
    (fwrite σ2 (fwrite (signature_record c info) output).2).2 rfl hr
    (fwrite_unlimited σ2 _ hw1.2).2
  have hfe : ferror (copy_loop c.BUFFER_SIZE (rewind S)
      (fwrite σ2 (fwrite (signature_record c info) output).2).2).2.1 = false := hcp.2
  unfold kindle_create_two_stage
  simp only [h1, Option.bind_eq_bind, Option.some_bind, hneg, if_false]
  rw [kindle_create_signature_eq c L evp info (rewind S) output hm hc h8 hsz]
  simp only [Option.some_bind, hw1.1, if_false, hs, hout, hrw, rewind_rewind, hcp.1, hfe,
    Int.lt_irrefl, Bool.false_eq_true]
  exact ⟨_, rfl⟩

/-! ## The fixed-size headers -/

theorem store_eq (obj : Bytes) (off : Nat) (src obj2 : Bytes)
    (h : store obj off src = some obj2) :
    off + src.length ≤ obj.length
      ∧ obj2 = obj.take off ++ src ++ obj.drop (off + src.length) := by
  unfold store at h
  split at h
  · cases h; exact ⟨by assumption, rfl⟩
  · cases h

theorem load_eq (obj : Bytes) (off n : Nat) (r : Bytes) (h : load obj off n = some r) :
    off + n ≤ obj.length ∧ r = (obj.drop off).take n := by
  unfold load at h
  split at h
  · cases h; exact ⟨by assumption, rfl⟩
  · cases h

theorem fixed_header_record_field (c : Consts) (env : Env) (header : Bytes) (off size : Nat)
    (input_tgz : FILE) (H : Bytes)
    (hH : fixed_header_record c env header off size input_tgz = some H)
    (hd : c.MD5_HASH_LENGTH ≤ (env.md5_sum input_tgz).2.length)
    (hmd : (env.md ((env.md5_sum input_tgz).2.take c.MD5_HASH_LENGTH)).length
      = c.MD5_HASH_LENGTH)
    (hfield : off + c.MD5_HASH_LENGTH ≤ size) :
    H.length = size
      ∧ load H off c.MD5_HASH_LENGTH
        = some (env.md ((env.md5_sum input_tgz).2.take c.MD5_HASH_LENGTH)) := by
  unfold fixed_header_record at hH
  cases h1 : store header off (env.md5_sum input_tgz).2 with
  | none => rw [h1] at hH; simp at hH
  | some header1 =>
    rw [h1] at hH
    simp only [Option.bind_eq_bind, Option.some_bind] at hH
    obtain ⟨hb1, e1⟩ := store_eq _ _ _ _ h1
    have hlen1 := store_length _ _ _ _ h1
    have hload : load header1 off c.MD5_HASH_LENGTH
        = some ((env.md5_sum input_tgz).2.take c.MD5_HASH_LENGTH) := by
      unfold load
      rw [if_pos (by omega)]
      rw [e1]
      simp only [List.append_assoc, Option.some.injEq]
      rw [List.drop_append_eq_append_drop, List.drop_of_length_le (by simp), List.nil_append]
      simp only [List.length_take]
      rw [Nat.min_eq_left (by omega), Nat.sub_self, List.drop_zero,
        List.take_append_eq_append_take]
      rw [show c.MD5_HASH_LENGTH - (env.md5_sum input_tgz).2.length = 0 by omega]
      simp
    rw [hload] at hH
    simp only [Option.some_bind] at hH
    have htk : (env.md ((env.md5_sum input_tgz).2.take c.MD5_HASH_LENGTH)).take
        c.MD5_HASH_LENGTH = env.md ((env.md5_sum input_tgz).2.take c.MD5_HASH_LENGTH) :=
      List.take_of_length_le (by omega)
    rw [htk] at hH
    cases h2 : store header1 off (env.md ((env.md5_sum input_tgz).2.take c.MD5_HASH_LENGTH)) with
    | none => rw [h2] at hH; simp at hH
    | some header2 =>
      rw [h2] at hH
      simp only [Option.some_bind] at hH
      obtain ⟨hb2, e2⟩ := store_eq _ _ _ _ h2
      have hlen2 := store_length _ _ _ _ h2
      obtain ⟨hb3, e3⟩ := load_eq _ _ _ _ hH
      have hHlen : H.length = size := by
        rw [e3]; simp only [List.drop_zero, List.length_take]; omega
      refine ⟨hHlen, ?_⟩
      unfold load
      rw [if_pos (by omega), e3, e2]
      simp only [List.drop_zero, List.append_assoc, Option.some.injEq]
      rw [List.drop_take, List.drop_append_eq_append_drop, List.drop_of_length_le (by simp)]
      simp only [List.length_take, List.nil_append]
      rw [Nat.min_eq_left (by omega), Nat.sub_self, List.drop_zero, List.take_take,
        List.take_append_eq_append_take, hmd]
      rw [Nat.min_eq_left (by omega), List.take_of_length_le (by omega)]
      simp

theorem rewind_at_start (f : FILE) (hp : f.pos = 0) (he : f.error = false) : rewind f = f := by
  cases f
  simp only [rewind] at *
  simp [hp, he]

theorem fixed_header_finish_inv (c : Consts) (env : Env) (header : Bytes) (off size : Nat)
    (input_tgz output out2 : FILE) (rc : Int)
    (hin : input_tgz.pos = 0) (hie : input_tgz.error = false)
    (hret : fixed_header_finish c env header off size input_tgz output = some (rc, out2))
    (hrc : 0 ≤ rc) :
    ∃ H, fixed_header_record c env header off size input_tgz = some H
      ∧ ¬ (env.md5_sum input_tgz).1 < 0
      ∧ ¬ (fwrite H output).1 < size
      ∧ env.munger input_tgz (fwrite H output).2 = (rc, out2) := by
  unfold fixed_header_finish at hret
  by_cases h5 : (env.md5_sum input_tgz).1 < 0
  · simp only [h5, if_true, Option.some.injEq, Prod.mk.injEq] at hret
    omega
  · simp only [h5, if_false] at hret
    cases hH : fixed_header_record c env header off size input_tgz with
    | none => rw [hH] at hret; simp at hret
    | some H =>
      rw [hH] at hret
      simp only [Option.bind_eq_bind, Option.some_bind] at hret
      by_cases hw : (fwrite H output).1 < size
      · simp only [hw, if_true, Option.some.injEq, Prod.mk.injEq] at hret
        omega
      · simp only [hw, if_false, Option.some.injEq, rewind_at_start _ hin hie] at hret
        exact ⟨H, rfl, h5, hw, hret⟩

/-- C3. When `kindle_create_ota_update` or `kindle_create_recovery` returns a
code that is not negative for a payload stream at its start, the output has
first grown by one record `H` of the fixed size whose digest member holds
`md` of what `md5_sum` computed on the payload as given, and `munger` then ran
once, on that same payload, on the output ending in `H`; so when `munger`
appends `T` the output has grown by exactly `H ++ T`. -/
theorem fixed_header_then_transformed_payload (c : Consts) (L : Layout) (env : Env)
    (info : UpdateInformation) (input_tgz output out2 : FILE) (rc : Int)
    (hpos : output.pos = output.data.length)
    (hin : input_tgz.pos = 0) (hie : input_tgz.error = false)
    (hd : c.MD5_HASH_LENGTH ≤ (env.md5_sum input_tgz).2.length)
    (hmd : (env.md ((env.md5_sum input_tgz).2.take c.MD5_HASH_LENGTH)).length
      = c.MD5_HASH_LENGTH)
    (hrc : 0 ≤ rc) :
    (L.ota_md5_sum + c.MD5_HASH_LENGTH ≤ c.MAGIC_NUMBER_LENGTH + c.OTA_UPDATE_BLOCK_SIZE →
      kindle_create_ota_update c L env info input_tgz output = some (rc, out2) →
      ∃ H, H.length = c.MAGIC_NUMBER_LENGTH + c.OTA_UPDATE_BLOCK_SIZE
        ∧ load H L.ota_md5_sum c.MD5_HASH_LENGTH
          = some (env.md ((env.md5_sum input_tgz).2.take c.MD5_HASH_LENGTH))
        ∧ (fwrite H output).2.data = output.data ++ H
        ∧ env.munger input_tgz (fwrite H output).2 = (rc, out2)
        ∧ ∀ T, out2.data = (fwrite H output).2.data ++ T → out2.data = output.data ++ H ++ T)
    ∧ (L.recovery_md5_sum + c.MD5_HASH_LENGTH
          ≤ c.MAGIC_NUMBER_LENGTH + c.RECOVERY_UPDATE_BLOCK_SIZE →
      kindle_create_recovery c L env info input_tgz output = some (rc, out2) →
      ∃ H, H.length = c.MAGIC_NUMBER_LENGTH + c.RECOVERY_UPDATE_BLOCK_SIZE
        ∧ load H L.recovery_md5_sum c.MD5_HASH_LENGTH
          = some (env.md ((env.md5_sum input_tgz).2.take c.MD5_HASH_LENGTH))
        ∧ (fwrite H output).2.data = output.data ++ H
        ∧ env.munger input_tgz (fwrite H output).2 = (rc, out2)
        ∧ ∀ T, out2.data = (fwrite H output).2.data ++ T → out2.data = output.data ++ H ++ T) := by
  constructor
  · intro hfield hret
    unfold kindle_create_ota_update at hret
    cases hf : ota_update_fields L info with
    | none => rw [hf] at hret; simp at hret
    | some header =>
      rw [hf] at hret
      simp only [Option.bind_eq_bind, Option.some_bind] at hret
      obtain ⟨H, hH, _, hw, hmung⟩ :=
        fixed_header_finish_inv c env header _ _ input_tgz output out2 rc hin hie hret hrc
      obtain ⟨hlen, hfld⟩ := fixed_header_record_field c env header _ _ input_tgz H hH hd hmd hfield
      have hfw := fwrite_full H output hpos (by rw [hlen]; exact hw)
      exact ⟨H, hlen, hfld, hfw.1, hmung, fun T hT => by rw [hT, hfw.1]⟩
  · intro hfield hret
    unfold kindle_create_recovery at hret
    cases hf : recovery_fields L info with
    | none => rw [hf] at hret; simp at hret
    | some header =>
      rw [hf] at hret
      simp only [Option.bind_eq_bind, Option.some_bind] at hret
      obtain ⟨H, hH, _, hw, hmung⟩ :=
        fixed_header_finish_inv c env header _ _ input_tgz output out2 rc hin hie hret hrc
      obtain ⟨hlen, hfld⟩ := fixed_header_record_field c env header _ _ input_tgz H hH hd hmd hfield
      have hfw := fwrite_full H output hpos (by rw [hlen]; exact hw)
      exact ⟨H, hlen, hfld, hfw.1, hmung, fun T hT => by rw [hT, hfw.1]⟩

theorem fixed_header_then_transformed_payload_witness :
    (∃ H, H.length = 64
        ∧ load H 16 4 = some [207, 207, 201, 207]
        ∧ (fwrite H emptyFile).2.data = [] ++ H
        ∧ sampleEnv.munger (fileOf [10, 20, 30]) (fwrite H emptyFile).2 = (0, sampleOtaOut))
    ∧ (∃ H, H.length = 64
        ∧ load H 16 4 = some [207, 207, 201, 207]
        ∧ (fwrite H emptyFile).2.data = [] ++ H
        ∧ sampleEnv.munger (fileOf [10, 20, 30]) (fwrite H emptyFile).2
          = (0, sampleRecoveryOut)) := by
  constructor
  · obtain ⟨H, h1, h2, h3, h4, _⟩ :=
      (fixed_header_then_transformed_payload sampleConsts sampleLayout sampleEnv sampleOta
        (fileOf [10, 20, 30]) emptyFile sampleOtaOut 0 rfl rfl rfl (by decide) (by decide)
        (by decide)).1 (by decide) (by decide)
    exact ⟨H, h1, h2, h3, h4⟩
  · obtain ⟨H, h1, h2, h3, h4, _⟩ :=
      (fixed_header_then_transformed_payload sampleConsts sampleLayout sampleEnv sampleRecovery
        (fileOf [10, 20, 30]) emptyFile sampleRecoveryOut 0 rfl rfl rfl (by decide) (by decide)
        (by decide)).2 (by decide) (by decide)
    exact ⟨H, h1, h2, h3, h4⟩

theorem sampleEvp_incremental : sampleEvp.Incremental := by
  constructor
  · intro ctx a b; simp [sampleEvp]
  · intro ctx; simp [sampleEvp]

/-- The temporary file of the sample run after stage 1. -/
theorem sample_stage1 :
    kindle_create_ota_update_v2 sampleConsts sampleEnv sampleOta2
        (fileOf [10, 20, 30, 40, 50]) emptyFile
      = some (0, ⟨[70, 67, 48, 52, 1, 0, 0, 0, 0, 0, 0, 0, 2, 1, 0, 0, 0, 0, 0, 0, 2, 0, 3, 0, 4,
          1, 1, 0, 207, 206, 202, 207, 2, 0, 0, 3, 97, 61, 98, 0, 2, 99, 61,
          245, 235, 225, 215, 205], 48, none, none, false⟩) := by decide

theorem ota2_output_is_record_signature_stage1_witness :
    ∃ out2, kindle_create sampleConsts sampleLayout sampleEnv sampleEvp sampleOta2
          (fileOf [10, 20, 30, 40, 50]) emptyFile = some (0, out2)
      ∧ ∃ temp rc1 S σ, sampleEnv.tmpfile = some temp
        ∧ kindle_create_ota_update_v2 sampleConsts sampleEnv sampleOta2
            (fileOf [10, 20, 30, 40, 50]) temp = some (rc1, S)
        ∧ 0 ≤ rc1
        ∧ sign_oneshot sampleEvp sampleOta2.sign_pkey S.data = some σ
        ∧ out2.data = emptyFile.data ++ signature_record sampleConsts sampleOta2 ++ σ ++ S.data
        ∧ ∀ verify : Nat → Bytes → Bytes → Bool,
            (∀ m s, sign_oneshot sampleEvp sampleOta2.sign_pkey m = some s
              → verify sampleOta2.sign_pkey m s = true)
            → verify sampleOta2.sign_pkey S.data σ = true := by
  obtain ⟨out2, hrun⟩ := two_stage_runs sampleConsts sampleLayout sampleEnv sampleEvp sampleOta2
    (fileOf [10, 20, 30, 40, 50]) emptyFile emptyFile _ 0 [7, 62]
    (by decide) sampleEvp_incremental rfl rfl (by decide) (by decide) rfl sample_stage1
    (by decide) rfl (by decide)
  have hk : kindle_create sampleConsts sampleLayout sampleEnv sampleEvp sampleOta2
      (fileOf [10, 20, 30, 40, 50]) emptyFile = some (0, out2) := hrun
  exact ⟨out2, hk, ota2_output_is_record_signature_stage1 sampleConsts sampleLayout sampleEnv
    sampleEvp sampleOta2 (fileOf [10, 20, 30, 40, 50]) emptyFile out2 rfl (by decide)
    sampleEvp_incremental rfl rfl (by decide) (by decide) rfl hk⟩

theorem signature_record_then_signature_witness :
    (signature_record sampleConsts sampleOta2).length = 64
      ∧ kindle_create_signature sampleConsts sampleLayout sampleEvp sampleOta2
          (fileOf [1, 2, 3]) emptyFile
        = some (
          if (fwrite (signature_record sampleConsts sampleOta2) emptyFile).1
              < (signature_record sampleConsts sampleOta2).length then
            (-1, fileOf [1, 2, 3], (fwrite (signature_record sampleConsts sampleOta2) emptyFile).2)
          else if (sign_file sampleConsts sampleEvp (fileOf [1, 2, 3]) sampleOta2.sign_pkey
              (fwrite (signature_record sampleConsts sampleOta2) emptyFile).2).1 < 0 then
            (-1, (sign_file sampleConsts sampleEvp (fileOf [1, 2, 3]) sampleOta2.sign_pkey
              (fwrite (signature_record sampleConsts sampleOta2) emptyFile).2).2)
          else
            (0, (sign_file sampleConsts sampleEvp (fileOf [1, 2, 3]) sampleOta2.sign_pkey
              (fwrite (signature_record sampleConsts sampleOta2) emptyFile).2).2)) :=
  ⟨(signature_record_then_signature sampleConsts sampleLayout sampleEvp sampleOta2
      (fileOf [1, 2, 3]) emptyFile rfl rfl (by decide) (by decide) rfl).1,
   (signature_record_then_signature sampleConsts sampleLayout sampleEvp sampleOta2
      (fileOf [1, 2, 3]) emptyFile rfl rfl (by decide) (by decide) rfl).2.2.1⟩

/-! ## The validation of `kindle_create_main` -/

/-- C8. The device-count check rejects a request exactly when it has no device,
or more than one while its format is not OTA2. -/
theorem device_count_validation (info : UpdateInformation) :
    (devices_rejected info = true ↔
        info.num_devices = 0
          ∨ (info.version ≠ BundleVersion.OTAUpdateV2 ∧ 1 < info.num_devices))
    ∧ ((info.version = BundleVersion.RecoveryUpdate ∨ info.version = BundleVersion.OTAUpdate) →
        (info.num_devices = 0 ∨ 1 < info.num_devices) → devices_rejected info = true)
    ∧ (info.version = BundleVersion.OTAUpdateV2 → info.num_devices = 0 →
        devices_rejected info = true)
    ∧ (info.version = BundleVersion.OTAUpdateV2 → 1 ≤ info.num_devices →
        devices_rejected info = false)
    ∧ ((info.version = BundleVersion.RecoveryUpdate ∨ info.version = BundleVersion.OTAUpdate) →
        info.num_devices = 1 → devices_rejected info = false) := by
  have key : devices_rejected info = true ↔
      info.num_devices = 0
        ∨ (info.version ≠ BundleVersion.OTAUpdateV2 ∧ 1 < info.num_devices) := by
    simp only [devices_rejected, Bool.or_eq_true, Bool.and_eq_true, decide_eq_true_eq,
      Nat.lt_one_iff, gt_iff_lt]
  have key2 : devices_rejected info = false ↔
      ¬ (info.num_devices = 0
        ∨ (info.version ≠ BundleVersion.OTAUpdateV2 ∧ 1 < info.num_devices)) := by
    rw [← key]; simp
  refine ⟨key, ?_, ?_, ?_, ?_⟩
  · intro hv hn
    rw [key]
    rcases hn with hn | hn
    · exact Or.inl hn
    · exact Or.inr ⟨by rcases hv with hv | hv <;> rw [hv] <;> decide, hn⟩
  · intro _ hn; rw [key]; exact Or.inl hn
  · intro hv hn; rw [key2]; intro h
    rcases h with h | h
    · omega
    · exact h.1 hv
  · intro _ hn; rw [key2]; intro h
    rcases h with h | h <;> omega

theorem device_count_validation_witness :
    devices_rejected sampleOta2 = false ∧ devices_rejected sampleOta = false
      ∧ devices_rejected { sampleOta with num_devices := 2, devices := [3, 4] } = true :=
  ⟨(device_count_validation sampleOta2).2.2.2.1 rfl (by decide),
   (device_count_validation sampleOta).2.2.2.2 (Or.inr rfl) rfl,
   (device_count_validation { sampleOta with num_devices := 2, devices := [3, 4] }).2.1
     (Or.inr rfl) (Or.inr (by decide))⟩

/-! ## Revisions -/

theorem unle_le (n x : Nat) : unle (le n x) = x % 256 ^ n := by
  induction n generalizing x with
  | zero => simp [le, unle, Nat.mod_one]
  | succ n ih =>
    simp only [le, unle, ih]
    rw [pow_succ, Nat.mul_comm (256 ^ n) 256, Nat.mod_mul]

theorem load_store_same (obj : Bytes) (off : Nat) (src obj2 : Bytes)
    (h : store obj off src = some obj2) : load obj2 off src.length = some src := by
  obtain ⟨hb, e⟩ := store_eq _ _ _ _ h
  have hl := store_length _ _ _ _ h
  unfold load
  rw [if_pos (by omega), e]
  simp only [List.append_assoc, Option.some.injEq]
  rw [List.drop_append_eq_append_drop, List.drop_of_length_le (by simp)]
  simp only [List.length_take, List.nil_append]
  rw [Nat.min_eq_left (by omega), Nat.sub_self, List.drop_zero, List.take_left']
  rfl

theorem load_store_apart (obj : Bytes) (off : Nat) (src obj2 : Bytes) (off2 n : Nat)
    (h : store obj off src = some obj2) (ha : Apart off2 n off src.length) :
    load obj2 off2 n = load obj off2 n := by
  obtain ⟨hb, e⟩ := store_eq _ _ _ _ h
  have hl := store_length _ _ _ _ h
  unfold load
  rw [hl]
  by_cases hin : off2 + n ≤ obj.length
  · rw [if_pos hin, if_pos hin]
    congr 1
    apply List.ext_getElem?
    intro i
    rw [e]
    simp only [List.getElem?_take, List.getElem?_drop]
    by_cases hi : i < n
    · simp only [hi, if_true]
      rcases ha with ha | ha
      · rw [List.append_assoc, List.getElem?_append_left
          (by simp only [List.length_take]; omega)]
        simp only [List.getElem?_take]
        rw [if_pos (by omega)]
      · rw [List.getElem?_append_right
          (by simp only [List.length_append, List.length_take]; omega)]
        simp only [List.length_append, List.length_take, List.getElem?_drop]
        congr 1
        omega
    · simp only [hi, if_false]
  · rw [if_neg hin, if_neg hin]

theorem ota_update_fields_revisions (L : Layout) (info : UpdateInformation) (header : Bytes)
    (h : ota_update_fields L info = some header)
    (hst : Apart L.ota_source_revision 4 L.ota_target_revision 4)
    (hsd : Apart L.ota_source_revision 4 L.ota_device 2)
    (hso : Apart L.ota_source_revision 4 L.ota_optional 1)
    (htd : Apart L.ota_target_revision 4 L.ota_device 2)
    (hto : Apart L.ota_target_revision 4 L.ota_optional 1) :
    load header L.ota_source_revision 4 = some (le 4 (info.source_revision % 2 ^ 32))
      ∧ load header L.ota_target_revision 4 = some (le 4 (info.target_revision % 2 ^ 32)) := by
  unfold ota_update_fields at h
  simp only [Option.bind_eq_bind] at h
  cases h0 : store (memset0 L.sizeof_UpdateHeader) L.magic_number (strncpy info.magic_number 4)
    with
  | none => rw [h0] at h; simp at h
  | some m0 =>
    rw [h0] at h; simp only [Option.some_bind] at h
    cases h1 : store m0 L.ota_source_revision (le 4 (info.source_revision % 2 ^ 32)) with
    | none => rw [h1] at h; simp at h
    | some m1 =>
      rw [h1] at h; simp only [Option.some_bind] at h
      cases h2 : store m1 L.ota_target_revision (le 4 (info.target_revision % 2 ^ 32)) with
      | none => rw [h2] at h; simp at h
      | some m2 =>
        rw [h2] at h; simp only [Option.some_bind] at h
        cases hd : info.devices[0]? with
        | none => rw [hd] at h; simp at h
        | some device =>
          rw [hd] at h; simp only [Option.some_bind] at h
          cases h3 : store m2 L.ota_device (le 2 (device % 2 ^ 16)) with
          | none => rw [h3] at h; simp at h
          | some m3 =>
            rw [h3] at h; simp only [Option.some_bind] at h
            have l1 := load_store_same _ _ _ _ h1
            have l2 := load_store_same _ _ _ _ h2
            rw [le_length] at l1 l2
            constructor
            · rw [load_store_apart _ _ _ _ _ 4 h (by rw [le_length]; exact hso),
                load_store_apart _ _ _ _ _ 4 h3 (by rw [le_length]; exact hsd),
                load_store_apart _ _ _ _ _ 4 h2 (by rw [le_length]; exact hst), l1]
            · rw [load_store_apart _ _ _ _ _ 4 h (by rw [le_length]; exact hto),
                load_store_apart _ _ _ _ _ 4 h3 (by rw [le_length]; exact htd), l2]

theorem ota2_layout_revisions (info : UpdateInformation) (dis : Bytes)
    (hmag : info.magic_number.length = 4) :
    ((ota2_header_layout info dis).drop 4).take 8 = le 8 info.source_revision
      ∧ ((ota2_header_layout info dis).drop 12).take 8 = le 8 info.target_revision := by
  have h8s : (le 8 info.source_revision).length = 8 := le_length _ _
  have h8t : (le 8 info.target_revision).length = 8 := le_length _ _
  simp only [ota2_header_layout, List.append_assoc]
  constructor
  · rw [List.drop_append_eq_append_drop, List.drop_of_length_le (by omega), hmag,
      List.nil_append, Nat.sub_self, List.drop_zero, List.take_append_eq_append_take, h8s,
      Nat.sub_self, List.take_zero, List.append_nil, List.take_of_length_le (by omega)]
  · rw [List.drop_append_eq_append_drop, List.drop_of_length_le (by omega), hmag,
      List.nil_append, List.drop_append_eq_append_drop, List.drop_of_length_le (by omega), h8s,
      List.nil_append, List.drop_zero, List.take_append_eq_append_take, h8t,
      Nat.sub_self, List.take_zero, List.append_nil, List.take_of_length_le (by omega)]

/-- C9. For a format other than OTA2 the revision check rejects exactly when a
revision exceeds `2^32 - 1`, and it never rejects OTA2; so the two 32-bit
members `kindle_create_ota_update` stores for an accepted OTA request hold the
request's revisions, and the OTA2 header holds both 64-bit revisions in full. -/
theorem revisions_checked_then_embedded (c : Consts) (L : Layout) (env : Env)
    (info : UpdateInformation) (input_tgz output : FILE) :
    (info.version ≠ BundleVersion.OTAUpdateV2 →
      (revisions_rejected info = true ↔
        (2 ^ 32 - 1 < info.source_revision ∨ 2 ^ 32 - 1 < info.target_revision)))
    ∧ (info.version = BundleVersion.OTAUpdateV2 → revisions_rejected info = false)
    ∧ (∀ header, info.version = BundleVersion.OTAUpdate → revisions_rejected info = false →
        ota_update_fields L info = some header →
        Apart L.ota_source_revision 4 L.ota_target_revision 4 →
        Apart L.ota_source_revision 4 L.ota_device 2 →
        Apart L.ota_source_revision 4 L.ota_optional 1 →
        Apart L.ota_target_revision 4 L.ota_device 2 →
        Apart L.ota_target_revision 4 L.ota_optional 1 →
        (load header L.ota_source_revision 4).map unle = some info.source_revision
          ∧ (load header L.ota_target_revision 4).map unle = some info.target_revision)
    ∧ (c.MAGIC_NUMBER_LENGTH = 4 → c.OTA_UPDATE_V2_BLOCK_SIZE = 8 + 8 + 2 →
        c.OTA_UPDATE_V2_PART_2_BLOCK_SIZE = 1 + 1 + c.MD5_HASH_LENGTH + 2 →
        info.magic_number.length = 4 → NulPadded info.magic_number →
        info.num_devices = info.devices.length → info.num_meta = info.metastrings.length →
        ota2_header_size c info ≤ INT_MAX → 0 ≤ (env.md5_sum input_tgz).1 →
        c.MD5_HASH_LENGTH ≤ (env.md5_sum input_tgz).2.length →
        (env.md5_sum input_tgz).2.length ≤ c.MD5_HASH_LENGTH + 2 →
        (env.md ((env.md5_sum input_tgz).2.take c.MD5_HASH_LENGTH)).length
          = c.MD5_HASH_LENGTH →
        info.source_revision < 2 ^ 64 → info.target_revision < 2 ^ 64 →
        ∃ H, kindle_create_ota_update_v2 c env info input_tgz output
            = some (if (fwrite H output).1 < H.length then (-1, (fwrite H output).2)
                else env.munger (rewind input_tgz) (fwrite H output).2)
          ∧ unle ((H.drop 4).take 8) = info.source_revision
          ∧ unle ((H.drop 12).take 8) = info.target_revision) := by
  refine ⟨?_, ?_, ?_, ?_⟩
  · intro hv
    simp only [revisions_rejected, UINT32_MAX, Bool.and_eq_true, Bool.or_eq_true,
      decide_eq_true_eq, gt_iff_lt, hv, ne_eq, not_false_eq_true, true_and]
    norm_num
  · intro hv
    simp [revisions_rejected, hv]
  · intro header hv hrej hf a1 a2 a3 a4 a5
    have hne : info.version ≠ BundleVersion.OTAUpdateV2 := by rw [hv]; decide
    simp only [revisions_rejected, UINT32_MAX, Bool.and_eq_false_imp, decide_eq_true_eq,
      Bool.or_eq_false_iff, decide_eq_false_iff_not, gt_iff_lt, not_lt] at hrej
    obtain ⟨hs, ht⟩ := hrej hne
    obtain ⟨l1, l2⟩ := ota_update_fields_revisions L info header hf a1 a2 a3 a4 a5
    have es : info.source_revision % 2 ^ 32 = info.source_revision :=
      Nat.mod_eq_of_lt (by norm_num; omega)
    have et : info.target_revision % 2 ^ 32 = info.target_revision :=
      Nat.mod_eq_of_lt (by norm_num; omega)
    rw [l1, l2, es, et]
    simp only [Option.map_some', unle_le, Option.some.injEq]
    constructor
    · exact Nat.mod_eq_of_lt (by norm_num; omega)
    · exact Nat.mod_eq_of_lt (by norm_num; omega)
  · intro hmagic hblock hpart2 hmag hpad hN hM hsize hrc hd1 hd2 hmd hs ht
    refine ⟨_, ota2_written_header c env info input_tgz output hmagic hblock hpart2 hmag hpad
      hN hM hsize hrc hd1 hd2 hmd, ?_, ?_⟩
    · rw [(ota2_layout_revisions info _ hmag).1, unle_le]
      exact Nat.mod_eq_of_lt (by norm_num; omega)
    · rw [(ota2_layout_revisions info _ hmag).2, unle_le]
      exact Nat.mod_eq_of_lt (by norm_num; omega)

theorem revisions_checked_then_embedded_witness :
    revisions_rejected sampleOta2 = false
      ∧ (revisions_rejected { sampleOta with source_revision := 2 ^ 32 } = true ↔
          (2 ^ 32 - 1 < 2 ^ 32 ∨ 2 ^ 32 - 1 < 4294967295))
      ∧ ((load [70, 67, 48, 50, 5, 0, 0, 0, 255, 255, 255, 255, 3, 0, 1, 0, 0, 0, 0, 0,
            0, 0, 0, 0, 0, 0, 0, 0, 0, 0, 0, 0, 0, 0, 0, 0, 0, 0, 0, 0, 0, 0, 0, 0, 0, 0, 0, 0,
            0, 0, 0, 0, 0, 0, 0, 0, 0, 0, 0, 0, 0, 0, 0, 0] 4 4).map unle = some 5
        ∧ (load [70, 67, 48, 50, 5, 0, 0, 0, 255, 255, 255, 255, 3, 0, 1, 0, 0, 0, 0, 0,
            0, 0, 0, 0, 0, 0, 0, 0, 0, 0, 0, 0, 0, 0, 0, 0, 0, 0, 0, 0, 0, 0, 0, 0, 0, 0, 0, 0,
            0, 0, 0, 0, 0, 0, 0, 0, 0, 0, 0, 0, 0, 0, 0, 0] 8 4).map unle = some 4294967295) :=
  ⟨(revisions_checked_then_embedded sampleConsts sampleLayout sampleEnv sampleOta2
      (fileOf [10, 20, 30]) emptyFile).2.1 rfl,
   (revisions_checked_then_embedded sampleConsts sampleLayout sampleEnv
      { sampleOta with source_revision := 2 ^ 32 } (fileOf [10, 20, 30]) emptyFile).1
      (by decide),
   (revisions_checked_then_embedded sampleConsts sampleLayout sampleEnv sampleOta
      (fileOf [10, 20, 30]) emptyFile).2.2.1 _ rfl (by decide) (by decide)
      (Or.inl (by decide)) (Or.inl (by decide)) (Or.inl (by decide)) (Or.inl (by decide))
      (Or.inl (by decide))⟩

/-! ## The metadata block -/

theorem decode_entries_encoded (ms : List Bytes) (rest : Bytes)
    (h : ∀ s ∈ ms, strlen s ≤ 65535) :
    decode_meta_entries ms.length
        ((ms.map (fun s => be16 (strlen s) ++ cstr s)).flatten ++ rest)
      = some (ms.map cstr, rest) := by
  induction ms with
  | nil => simp [decode_meta_entries]
  | cons s ms ih =>
    have hs : strlen s ≤ 65535 := h s (List.mem_cons_self _ _)
    have hlen : strlen s / 256 % 256 * 256 + strlen s % 256 = strlen s := by omega
    have ih2 := ih (fun t ht => h t (List.mem_cons_of_mem _ ht))
    have e : ((s :: ms).map (fun s => be16 (strlen s) ++ cstr s)).flatten ++ rest
        = (strlen s / 256 % 256) :: (strlen s % 256)
          :: (cstr s ++ ((ms.map (fun s => be16 (strlen s) ++ cstr s)).flatten ++ rest)) := by
      simp [be16]
    have hnot : ¬ (cstr s ++ ((ms.map (fun s => be16 (strlen s) ++ cstr s)).flatten
        ++ rest)).length < strlen s := by
      simp only [List.length_append, strlen]; omega
    have hdrop : (cstr s ++ ((ms.map (fun s => be16 (strlen s) ++ cstr s)).flatten
        ++ rest)).drop (strlen s)
        = (ms.map (fun s => be16 (strlen s) ++ cstr s)).flatten ++ rest := by
      simp only [strlen]; exact List.drop_left' rfl
    have htake : (cstr s ++ ((ms.map (fun s => be16 (strlen s) ++ cstr s)).flatten
        ++ rest)).take (strlen s) = cstr s := by
      simp only [strlen]; exact List.take_left' rfl
    rw [List.length_cons, e, decode_meta_entries, hlen, if_neg hnot, hdrop, htake, ih2]
    rfl

theorem decode_block_encoded (ms : List Bytes) (h : ∀ s ∈ ms, strlen s ≤ 65535)
    (hc : ms.length ≤ 65535) :
    decode_meta_block (le 2 ms.length
        ++ (ms.map (fun s => be16 (strlen s) ++ cstr s)).flatten)
      = some (ms.map cstr) := by
  have hcount : ms.length % 256 + 256 * (ms.length / 256 % 256) = ms.length := by omega
  have hd := decode_entries_encoded ms [] h
  rw [List.append_nil] at hd
  simp only [le, List.cons_append, List.nil_append, decode_meta_block, hcount, hd]

theorem ota2_layout_meta_block (c : Consts) (info : UpdateInformation) (dis : Bytes)
    (hmagic : c.MAGIC_NUMBER_LENGTH = 4) (hblock : c.OTA_UPDATE_V2_BLOCK_SIZE = 8 + 8 + 2)
    (hmag : info.magic_number.length = 4) (hdis : dis.length = c.MD5_HASH_LENGTH) :
    (ota2_header_layout info dis).drop (ota2_meta_offset c info.devices.length)
      = le 2 info.metastrings.length
        ++ (info.metastrings.map (fun s => be16 (strlen s) ++ cstr s)).flatten := by
  have hpre : (info.magic_number ++ le 8 info.source_revision ++ le 8 info.target_revision
      ++ le 2 info.devices.length ++ (info.devices.map (le 2)).flatten ++ le 1 info.critical
      ++ [0] ++ dis).length = ota2_meta_offset c info.devices.length := by
    simp only [List.length_append, le_length, flatten_le2_length, List.length_singleton,
      ota2_meta_offset, hmagic, hblock, hmag, hdis]
    omega
  simp only [ota2_header_layout]
  rw [List.append_assoc (_ ++ dis), ← hpre]
  exact List.drop_left' rfl

/-- C10. For meta strings of at most 65535 bytes each (and at most 65535 of
them, the range of the 16-bit count), the metadata block of the header
`kindle_create_ota_update_v2` writes (everything from the entry count on)
decodes with the length-prefix reader to the original strings, as many and in
the same order. -/
theorem ota2_meta_block_roundtrip (c : Consts) (env : Env) (info : UpdateInformation)
    (input_tgz output : FILE)
    (hmagic : c.MAGIC_NUMBER_LENGTH = 4)
    (hblock : c.OTA_UPDATE_V2_BLOCK_SIZE = 8 + 8 + 2)
    (hpart2 : c.OTA_UPDATE_V2_PART_2_BLOCK_SIZE = 1 + 1 + c.MD5_HASH_LENGTH + 2)
    (hmag : info.magic_number.length = 4) (hpad : NulPadded info.magic_number)
    (hN : info.num_devices = info.devices.length)
    (hM : info.num_meta = info.metastrings.length)
    (hsize : ota2_header_size c info ≤ INT_MAX)
    (hrc : 0 ≤ (env.md5_sum input_tgz).1)
    (hd1 : c.MD5_HASH_LENGTH ≤ (env.md5_sum input_tgz).2.length)
    (hd2 : (env.md5_sum input_tgz).2.length ≤ c.MD5_HASH_LENGTH + 2)
    (hmd : (env.md ((env.md5_sum input_tgz).2.take c.MD5_HASH_LENGTH)).length
      = c.MD5_HASH_LENGTH)
    (hlen : ∀ s ∈ info.metastrings, strlen s ≤ 65535)
    (hcount : info.metastrings.length ≤ 65535) :
    ∃ H, kindle_create_ota_update_v2 c env info input_tgz output
        = some (if (fwrite H output).1 < H.length then (-1, (fwrite H output).2)
            else env.munger (rewind input_tgz) (fwrite H output).2)
      ∧ decode_meta_block (H.drop (ota2_meta_offset c info.num_devices))
        = some (info.metastrings.map cstr) := by
  refine ⟨_, ota2_written_header c env info input_tgz output hmagic hblock hpart2 hmag hpad
    hN hM hsize hrc hd1 hd2 hmd, ?_⟩
  rw [hN, ota2_layout_meta_block c info _ hmagic hblock hmag hmd]
  exact decode_block_encoded info.metastrings hlen hcount

theorem ota2_meta_block_roundtrip_witness :
    ∃ H, kindle_create_ota_update_v2 sampleConsts sampleEnv sampleOta2
          (fileOf [10, 20, 30, 40, 50]) emptyFile
        = some (if (fwrite H emptyFile).1 < H.length then (-1, (fwrite H emptyFile).2)
            else sampleEnv.munger (rewind (fileOf [10, 20, 30, 40, 50])) (fwrite H emptyFile).2)
      ∧ decode_meta_block (H.drop (ota2_meta_offset sampleConsts sampleOta2.num_devices))
        = some [[97, 61, 98], [99, 61]] :=
  ota2_meta_block_roundtrip sampleConsts sampleEnv sampleOta2 (fileOf [10, 20, 30, 40, 50])
    emptyFile rfl rfl rfl rfl (by decide) rfl rfl (by decide) (by decide) (by decide)
    (by decide) (by decide) (by decide) (by decide)

/-! ## The signed archive -/

theorem tar_append_ok (t : TAR) (content name : Bytes)
    (h : ¬ (tar_append_file t content name).1 < 0) :
    (tar_append_file t content name).2.entries = t.entries ++ [(name, content)] := by
  unfold tar_append_file at h ⊢
  split
  · rename_i hr; rw [hr] at h; simp at h
  · rfl
  · rfl

theorem goto_stop (loc loc2 : Locals) (w w2 : Walk) (r : Option Int) (P : Prop)
    (h : goto_on_error loc w = some (r, loc2, w2)) :
    (∀ rc, r = some rc → rc = -1) ∧ (r = none → P) := by
  unfold goto_on_error on_error at h
  simp only [Option.bind_eq_bind, Option.map_eq_some', Option.bind_eq_some, Option.some.injEq,
    Prod.mk.injEq] at h
  obtain ⟨a, ⟨l1, _, l2, _, l3, _, ha⟩, hr, _, _⟩ := h
  subst ha
  subst hr
  exact ⟨fun rc hrc => by cases hrc; rfl, fun hn => by cases hn⟩

theorem add_to_index_and_tar_inv (c : Consts) (env : Env) (f : FileEnt) (absname : Bytes)
    (file : FILE) (md5 : Buf) (sig : Bytes) (hf hs : Nat) (loc : Locals) (w : Walk)
    (r : Option Int) (loc2 : Locals) (w2 : Walk)
    (h : add_to_index_and_tar c env f absname file md5 sig hf hs loc w = some (r, loc2, w2))
    (hpos : w.index.pos = w.index.data.length) :
    (∀ rc, r = some rc → rc = -1)
      ∧ (r = none →
        ∃ text, printed_string md5 = some text
          ∧ w2.index.data = w.index.data
              ++ index_line (if env.IS_SCRIPT f.d_name then 129 else 128) text absname
                  (f.st_size / c.BLOCK_SIZE) f.d_name
          ∧ w2.index.pos = w2.index.data.length
          ∧ w2.tar.entries = w.tar.entries
              ++ [(absname, file.data), (absname ++ [46, 115, 105, 103], sig)]) := by
  unfold add_to_index_and_tar at h
  by_cases hb : c.BLOCK_SIZE = 0
  · rw [if_pos hb] at h; cases h
  · rw [if_neg hb] at h
    cases htext : printed_string md5 with
    | none => rw [htext] at h; cases h
    | some text =>
      rw [htext] at h
      simp only at h
      generalize hline : index_line (if env.IS_SCRIPT f.d_name then 129 else 128) text absname
        (f.st_size / c.BLOCK_SIZE) f.d_name = line at h ⊢
      by_cases hw : (fwrite line w.index).1 < line.length
      · rw [if_pos hw] at h
        exact goto_stop _ _ _ _ _ _ h
      · rw [if_neg hw] at h
        have hfw := fwrite_full _ w.index hpos hw
        by_cases ht1 : (tar_append_file w.tar file.data absname).1 < 0
        · rw [if_pos ht1] at h
          exact goto_stop _ _ _ _ _ _ h
        · rw [if_neg ht1] at h
          have e1 := tar_append_ok _ _ _ ht1
          by_cases ht2 : (tar_append_file (tar_append_file w.tar file.data absname).2 sig
              (absname ++ [46, 115, 105, 103])).1 < 0
          · rw [if_pos ht2] at h
            exact goto_stop _ _ _ _ _ _ h
          · rw [if_neg ht2] at h
            have e2 := tar_append_ok _ _ _ ht2
            cases h
            constructor
            · intro rc hrc; cases hrc
            · intro _
              refine ⟨text, rfl, ?_, hfw.2, ?_⟩
              · rw [hline]; exact hfw.1
              show (tar_append_file (tar_append_file w.tar file.data absname).2 sig
                (absname ++ [46, 115, 105, 103])).2.entries = _
              rw [e2, e1, List.append_assoc]
              rfl

theorem add_file_inv {Ctx : Type} (c : Consts) (env : Env) (evp : Evp Ctx) (key : Nat)
    (f : FileEnt) (absname : Bytes) (loc : Locals) (w : Walk)
    (r : Option Int) (loc2 : Locals) (w2 : Walk)
    (h : add_file c env evp key f absname loc w = some (r, loc2, w2))
    (hpos : w.index.pos = w.index.data.length) :
    (∀ rc, r = some rc → rc = -1)
      ∧ (r = none →
        w2.index.data = w.index.data ++ file_index_line c env absname f
          ∧ w2.index.pos = w2.index.data.length
          ∧ ∃ content sig, w2.tar.entries = w.tar.entries
              ++ [(absname, content), (absname ++ [46, 115, 105, 103], sig)]) := by
  unfold add_file at h
  cases hstream : f.stream with
  | none =>
    rw [hstream] at h
    exact goto_stop _ _ _ _ _ _ h
  | some file =>
    rw [hstream] at h
    simp only at h
    by_cases h5 : (env.md5_sum file).1 ≠ 0
    · rw [if_pos h5] at h
      exact goto_stop _ _ _ _ _ _ h
    · rw [if_neg h5] at h
      cases hmd5 : md5_array c (env.md5_sum file).2 with
      | none => rw [hmd5] at h; cases h
      | some md5 =>
        rw [hmd5] at h
        simp only at h
        cases hsig : f.sigfile with
        | none =>
          rw [hsig] at h
          exact goto_stop _ _ _ _ _ _ h
        | some sigfile =>
          rw [hsig] at h
          simp only at h
          by_cases hsf : (sign_file c evp (rewind file) key sigfile).1 < 0
          · rw [if_pos hsf] at h
            exact goto_stop _ _ _ _ _ _ h
          · rw [if_neg hsf] at h
            by_cases hch : env.IS_SCRIPT f.d_name = true ∧ f.chmod_ok = false
            · rw [if_pos hch] at h
              exact goto_stop _ _ _ _ _ _ h
            · rw [if_neg hch] at h
              obtain ⟨h1, h2⟩ := add_to_index_and_tar_inv c env f absname file md5 _ _ _ _ _
                r loc2 w2 h hpos
              refine ⟨h1, fun hr => ?_⟩
              obtain ⟨text, htext, hd, hp, ht⟩ := h2 hr
              have hds : digest_string c env f = text := by
                unfold digest_string
                rw [hstream]
                simp only [hmd5, Option.some_bind, htext, Option.getD_some]
              refine ⟨?_, hp, _, _, ht⟩
              have hl : file_index_line c env absname f
                  = index_line (if env.IS_SCRIPT f.d_name then 129 else 128) text absname
                    (f.st_size / c.BLOCK_SIZE) f.d_name := by
                unfold file_index_line
                rw [hds]
              rw [hl]
              exact hd

theorem index_of_cons (c : Consts) (env : Env) (p : Bytes × FileEnt)
    (files : List (Bytes × FileEnt)) :
    index_of c env (p :: files) = file_index_line c env p.1 p.2 ++ index_of c env files := rfl

theorem index_of_append (c : Consts) (env : Env) (a b : List (Bytes × FileEnt)) :
    index_of c env (a ++ b) = index_of c env a ++ index_of c env b := by
  simp [index_of]

theorem member_names_cons (p : Bytes × FileEnt) (files : List (Bytes × FileEnt)) :
    member_names (p :: files) = [p.1, p.1 ++ [46, 115, 105, 103]] ++ member_names files := rfl

theorem member_names_append (a b : List (Bytes × FileEnt)) :
    member_names (a ++ b) = member_names a ++ member_names b := by
  simp [member_names]

theorem member_names_length (files : List (Bytes × FileEnt)) :
    (member_names files).length = 2 * files.length := by
  induction files with
  | nil => rfl
  | cons p files ih => rw [member_names_cons, List.length_append, ih]; simp; omega

mutual
theorem sign_and_add_entry_inv {Ctx : Type} (c : Consts) (env : Env) (evp : Evp Ctx)
    (key : Nat) :
    (ent : Entry) → ∀ (dirname : Bytes) (loc : Locals) (w : Walk) (r : Option Int)
      (loc2 : Locals) (w2 : Walk),
      sign_and_add_entry c env evp key ent dirname loc w = some (r, loc2, w2) →
      w.index.pos = w.index.data.length →
      (∀ rc, r = some rc → rc = -1)
        ∧ (r = none →
          w2.index.data = w.index.data ++ index_of c env (files_of_entry ent dirname)
            ∧ w2.index.pos = w2.index.data.length
            ∧ w2.tar.entries.map Prod.fst
              = w.tar.entries.map Prod.fst ++ member_names (files_of_entry ent dirname))
  | Entry.file f, dirname, loc, w, r, loc2, w2, h, hpos => by
    rw [sign_and_add_entry] at h
    by_cases hst : f.stat_ok = false
    · rw [if_pos hst] at h
      exact goto_stop _ _ _ _ _ _ h
    · rw [if_neg hst] at h
      obtain ⟨hstop, hgo⟩ := add_file_inv c env evp key f _ loc w r loc2 w2 h hpos
      refine ⟨hstop, fun hr => ?_⟩
      obtain ⟨hd, hp, content, sig, ht⟩ := hgo hr
      rw [files_of_entry]
      refine ⟨?_, hp, ?_⟩
      · rw [hd]; simp [index_of]
      · rw [ht]; simp [member_names]
  | Entry.dir d_name stat_ok chdir_ok none, dirname, loc, w, r, loc2, w2, h, hpos => by
    rw [sign_and_add_entry] at h
    by_cases hst : stat_ok = false
    · rw [if_pos hst] at h
      exact goto_stop _ _ _ _ _ _ h
    · rw [if_neg hst] at h
      by_cases hdot : d_name = [46, 46] ∨ d_name = [46]
      · rw [if_pos hdot] at h
        cases h
        refine ⟨fun rc2 h2 => (by cases h2), fun _ => ?_⟩
        rw [files_of_entry.eq_def]
        simp only [hdot, if_true]
        simp [index_of, member_names, hpos]
      · rw [if_neg hdot] at h
        by_cases hch : chdir_ok = false
        · rw [if_pos hch] at h
          exact goto_stop _ _ _ _ _ _ h
        · rw [if_neg hch] at h
          exact goto_stop _ _ _ _ _ _ h
  | Entry.dir d_name stat_ok chdir_ok (some sub), dirname, loc, w, r, loc2, w2, h, hpos => by
    rw [sign_and_add_entry] at h
    by_cases hst : stat_ok = false
    · rw [if_pos hst] at h
      exact goto_stop _ _ _ _ _ _ h
    · rw [if_neg hst] at h
      by_cases hdot : d_name = [46, 46] ∨ d_name = [46]
      · rw [if_pos hdot] at h
        cases h
        refine ⟨fun rc2 h2 => (by cases h2), fun _ => ?_⟩
        rw [files_of_entry.eq_def]
        simp only [hdot, if_true]
        simp [index_of, member_names, hpos]
      · rw [if_neg hdot] at h
        by_cases hch : chdir_ok = false
        · rw [if_pos hch] at h
          exact goto_stop _ _ _ _ _ _ h
        · rw [if_neg hch] at h
          cases hsub : sign_and_add_loop c env evp key sub (dirname ++ d_name ++ [47])
              (entry_locals { w with log := w.log ++ [Event.opendir w.handles],
                                     handles := w.handles + 1 })
              (entry_state { w with log := w.log ++ [Event.opendir w.handles],
                                    handles := w.handles + 1 }) with
          | none => rw [hsub] at h; cases h
          | some res =>
            obtain ⟨rc1, w1⟩ := res
            rw [hsub] at h
            simp only at h
            by_cases hneg : rc1 < 0
            · rw [if_pos hneg] at h
              exact goto_stop _ _ _ _ _ _ h
            · rw [if_neg hneg] at h
              cases h
              obtain ⟨s1, s2, s3⟩ := sign_and_add_loop_inv c env evp key sub _ _ _ rc1 w1
                hsub (by omega) hpos
              refine ⟨fun rc2 h2 => (by cases h2), fun _ => ?_⟩
              rw [files_of_entry.eq_def]
              simp only [hdot, if_false]
              exact ⟨s1, s2, s3⟩
theorem sign_and_add_loop_inv {Ctx : Type} (c : Consts) (env : Env) (evp : Evp Ctx) (key : Nat) :
    (entries : List Entry) → ∀ (dirname : Bytes) (loc : Locals) (w : Walk) (rc : Int)
      (w2 : Walk),
      sign_and_add_loop c env evp key entries dirname loc w = some (rc, w2) → 0 ≤ rc →
      w.index.pos = w.index.data.length →
      w2.index.data = w.index.data ++ index_of c env (files_in entries dirname)
        ∧ w2.index.pos = w2.index.data.length
        ∧ w2.tar.entries.map Prod.fst
          = w.tar.entries.map Prod.fst ++ member_names (files_in entries dirname)
  | [], dirname, loc, w, rc, w2, h, _, hpos => by
    rw [sign_and_add_loop] at h
    cases h
    simp [files_in, index_of, member_names, hpos]
  | ent :: rest, dirname, loc, w, rc, w2, h, hrc, hpos => by
    rw [sign_and_add_loop] at h
    cases he : sign_and_add_entry c env evp key ent dirname loc w with
    | none => rw [he] at h; cases h
    | some res =>
      obtain ⟨r, loc1, w1⟩ := res
      rw [he] at h
      obtain ⟨hstop, hgo⟩ := sign_and_add_entry_inv c env evp key ent dirname loc w r loc1 w1
        he hpos
      cases r with
      | some rc1 =>
        simp only at h
        cases h
        have := hstop rc rfl
        omega
      | none =>
        simp only at h
        obtain ⟨e1, e2, e3⟩ := hgo rfl
        obtain ⟨i1, i2, i3⟩ :=
          sign_and_add_loop_inv c env evp key rest dirname loc1 w1 rc w2 h hrc e2
        rw [files_in]
        refine ⟨?_, i2, ?_⟩
        · rw [i1, e1, index_of_append, List.append_assoc]
        · rw [i3, e3, member_names_append, List.append_assoc]
end

mutual
theorem files_of_entry_paths :
    (ent : Entry) → ∀ (dirname : Bytes) (p : Bytes × FileEnt),
      p ∈ files_of_entry ent dirname → ∃ pre, p.1 = dirname ++ pre ++ p.2.d_name
  | Entry.file f, dirname, p, h => by
    rw [files_of_entry] at h
    rcases List.mem_singleton.mp h with h
    subst h
    exact ⟨[], by simp⟩
  | Entry.dir d_name s ch none, dirname, p, h => by
    rw [files_of_entry.eq_def] at h
    simp only at h
    by_cases hdot : d_name = [46, 46] ∨ d_name = [46]
    · rw [if_pos hdot] at h; cases h
    · rw [if_neg hdot] at h; cases h
  | Entry.dir d_name s ch (some sub), dirname, p, h => by
    rw [files_of_entry.eq_def] at h
    simp only at h
    by_cases hdot : d_name = [46, 46] ∨ d_name = [46]
    · rw [if_pos hdot] at h; cases h
    · rw [if_neg hdot] at h
      obtain ⟨pre, hp⟩ := files_in_paths sub (dirname ++ d_name ++ [47]) p h
      exact ⟨d_name ++ [47] ++ pre, by rw [hp]; simp⟩
theorem files_in_paths :
    (entries : List Entry) → ∀ (dirname : Bytes) (p : Bytes × FileEnt),
      p ∈ files_in entries dirname → ∃ pre, p.1 = dirname ++ pre ++ p.2.d_name
  | [], dirname, p, h => by
    rw [files_in.eq_def] at h
    cases h
  | ent :: rest, dirname, p, h => by
    rw [files_in.eq_def] at h
    simp only at h
    rcases List.mem_append.mp h with h | h
    · exact files_of_entry_paths ent dirname p h
    · exact files_in_paths rest dirname p h
end

/-- C6. When `kindle_sign_and_add_files` returns a code that is not negative,
the index has grown by exactly one line per file of the walk, none for a
directory, each line being
`"<129|128> <digest string> <prefix ++ name> <size / BLOCK_SIZE> <name>\\n"`
with 129 exactly for `IS_SCRIPT` names and the quotient in decimal, and the
lines come in the order in which the files are appended to the archive. -/
theorem index_lines_in_archive_order {Ctx : Type} (c : Consts) (env : Env) (evp : Evp Ctx)
    (key : Nat) (entries : List Entry) (dirname : Bytes) (w w2 : Walk) (rc : Int)
    (hret : kindle_sign_and_add_files c env evp key entries dirname w = some (rc, w2))
    (hrc : 0 ≤ rc) (hpos : w.index.pos = w.index.data.length) :
    w2.index.data = w.index.data
        ++ ((files_in entries dirname).map (fun p =>
              decimal (if env.IS_SCRIPT p.2.d_name then 129 else 128) ++ [32]
                ++ digest_string c env p.2 ++ [32] ++ p.1 ++ [32]
                ++ decimal (p.2.st_size / c.BLOCK_SIZE) ++ [32] ++ p.2.d_name ++ [10])).flatten
      ∧ w2.tar.entries.map Prod.fst = w.tar.entries.map Prod.fst
        ++ ((files_in entries dirname).map
              (fun p => [p.1, p.1 ++ [46, 115, 105, 103]])).flatten
      ∧ ∀ p ∈ files_in entries dirname, ∃ pre, p.1 = dirname ++ pre ++ p.2.d_name := by
  rw [kindle_sign_and_add_files] at hret
  obtain ⟨h1, _, h3⟩ := sign_and_add_loop_inv c env evp key entries dirname _ _ rc w2 hret hrc hpos
  exact ⟨h1, h3, files_in_paths entries dirname⟩

theorem index_lines_in_archive_order_witness :
    sampleWalkEnd.index.data = sampleWalkStart.index.data
        ++ ((files_in sampleTree []).map (fun p =>
              decimal (if sampleEnv.IS_SCRIPT p.2.d_name then 129 else 128) ++ [32]
                ++ digest_string sampleConsts sampleEnv p.2 ++ [32] ++ p.1 ++ [32]
                ++ decimal (p.2.st_size / sampleConsts.BLOCK_SIZE) ++ [32] ++ p.2.d_name
                ++ [10])).flatten
      ∧ sampleWalkEnd.tar.entries.map Prod.fst = sampleWalkStart.tar.entries.map Prod.fst
        ++ ((files_in sampleTree []).map
              (fun p => [p.1, p.1 ++ [46, 115, 105, 103]])).flatten
      ∧ ∀ p ∈ files_in sampleTree [], ∃ pre, p.1 = [] ++ pre ++ p.2.d_name :=
  index_lines_in_archive_order sampleConsts sampleEnv sampleEvp 7 sampleTree []
    sampleWalkStart sampleWalkEnd 0 (by decide) (by decide) rfl

theorem rewind_data (f g : FILE) (h : rewind f = rewind g) : f.data = g.data := by
  have := congrArg FILE.data h
  simpa [rewind] using this

theorem sign_file_in_data {Ctx : Type} (c : Consts) (evp : Evp Ctx) (f : FILE) (key : Nat)
    (out : FILE) : (sign_file c evp f key out).2.1.data = f.data := by
  unfold sign_file
  split
  · rfl
  · split
    · rfl
    · rename_i ctx0 _
      have hrw := sign_loop_rewind evp c.BUFFER_SIZE _ ctx0 f rfl
      split
      · rename_i f1 hl
        rw [hl] at hrw
        exact rewind_data _ _ hrw
      · rename_i ctx1 f1 hl
        rw [hl] at hrw
        have hd := rewind_data _ _ hrw
        split
        · exact hd
        · split
          · exact hd
          · split <;> exact hd

theorem sign_index_inv {Ctx : Type} (c : Consts) (evp : Evp Ctx) (world : World) (key : Nat)
    (w w2 : Walk) (rc : Int) (h : sign_index c evp world key w = some (rc, w2))
    (hrc : 0 ≤ rc) :
    ∃ sig, w2.tar.entries
      = w.tar.entries ++ [(c.INDEX_FILE_NAME, w.index.data), (c.INDEX_SIG_FILE_NAME, sig)] := by
  unfold sign_index at h
  cases hs : world.index_sig_file with
  | none => rw [hs] at h; cases h
  | some index_sig_file =>
    rw [hs] at h
    simp only at h
    by_cases h1 : (sign_file c evp (rewind w.index) key index_sig_file).1 < 0
    · rw [if_pos h1] at h; cases h; omega
    · rw [if_neg h1] at h
      have hdata : (sign_file c evp (rewind w.index) key index_sig_file).2.1.data
          = w.index.data := sign_file_in_data c evp (rewind w.index) key index_sig_file
      by_cases h2 : (tar_append_file w.tar
          (sign_file c evp (rewind w.index) key index_sig_file).2.1.data c.INDEX_FILE_NAME).1 < 0
      · rw [if_pos h2] at h
        simp only [Option.map_eq_some', Prod.mk.injEq] at h
        obtain ⟨_, _, hr, _⟩ := h
        omega
      · rw [if_neg h2] at h
        have e2 := tar_append_ok _ _ _ h2
        by_cases h3 : (tar_append_file (tar_append_file w.tar
            (sign_file c evp (rewind w.index) key index_sig_file).2.1.data c.INDEX_FILE_NAME).2
            (sign_file c evp (rewind w.index) key index_sig_file).2.2.data
            c.INDEX_SIG_FILE_NAME).1 < 0
        · rw [if_pos h3] at h
          simp only [Option.map_eq_some', Prod.mk.injEq] at h
          obtain ⟨_, _, hr, _⟩ := h
          omega
        · rw [if_neg h3] at h
          have e3 := tar_append_ok _ _ _ h3
          cases h
          refine ⟨(sign_file c evp (rewind w.index) key index_sig_file).2.2.data, ?_⟩
          show (tar_append_file (tar_append_file w.tar
            (sign_file c evp (rewind w.index) key index_sig_file).2.1.data c.INDEX_FILE_NAME).2
            (sign_file c evp (rewind w.index) key index_sig_file).2.2.data
            c.INDEX_SIG_FILE_NAME).2.entries = _
          rw [e3, e2, hdata, List.append_assoc]
          rfl

theorem tar_from_directory_inv {Ctx : Type} (c : Consts) (env : Env) (evp : Evp Ctx)
    (world : World) (key : Nat) (rc : Int) (members : List (Bytes × Bytes)) (log : List Event)
    (hret : kindle_create_tar_from_directory c env evp world key = some (rc, members, log))
    (hrc : 0 ≤ rc)
    (hidx : ∀ f, world.index_file = some f → f.pos = f.data.length) :
    ∃ dir index_file tar0 sig, world.dir = some dir ∧ world.index_file = some index_file
      ∧ world.tar = some tar0
      ∧ members.map Prod.fst = tar0.entries.map Prod.fst ++ member_names (files_in dir [])
          ++ [c.INDEX_FILE_NAME, c.INDEX_SIG_FILE_NAME]
      ∧ members.drop (members.length - 2)
          = [(c.INDEX_FILE_NAME, index_file.data ++ index_of c env (files_in dir [])),
             (c.INDEX_SIG_FILE_NAME, sig)] := by
  unfold kindle_create_tar_from_directory at hret
  by_cases hcd : world.chdir_ok = false
  · rw [if_pos hcd] at hret; cases hret; omega
  · rw [if_neg hcd] at hret
    cases hdir : world.dir with
    | none => rw [hdir] at hret; cases hret; omega
    | some dir =>
      rw [hdir] at hret
      cases hif : world.index_file with
      | none => rw [hif] at hret; cases hret; omega
      | some index_file =>
        rw [hif] at hret
        cases htar : world.tar with
        | none => rw [htar] at hret; cases hret; omega
        | some tar0 =>
          rw [htar] at hret
          simp only at hret
          cases hwalk : kindle_sign_and_add_files c env evp key dir []
              { index := index_file, tar := tar0,
                log := [Event.opendir 0, Event.fopen 1, Event.create 0],
                handles := 2, tmps := 1 } with
          | none => rw [hwalk] at hret; cases hret
          | some res =>
            obtain ⟨rc1, w⟩ := res
            rw [hwalk] at hret
            simp only at hret
            by_cases hneg : rc1 < 0
            · rw [if_pos hneg] at hret; cases hret; omega
            · rw [if_neg hneg] at hret
              simp only [Option.map_eq_some'] at hret
              obtain ⟨⟨rc2, w2⟩, hsi, hres⟩ := hret
              cases hres
              rw [kindle_sign_and_add_files] at hwalk
              obtain ⟨i1, _, i3⟩ := sign_and_add_loop_inv c env evp key dir [] _ _ rc1 w hwalk
                (by omega) (hidx index_file hif)
              obtain ⟨sig, hs⟩ := sign_index_inv c evp world key w w2 _ hsi hrc
              simp only [entry_state] at i1 i3
              refine ⟨dir, index_file, tar0, sig, rfl, rfl, rfl, ?_, ?_⟩
              · rw [hs, List.map_append, i3]
                simp
              · rw [hs, i1]
                simp

/-- C5. When `kindle_create_tar_from_directory` returns a code that is not
negative, the names of the members it appended are, for each file of the
depth-first walk of the directory (`.` and `..` skipped, a subdirectory walked
in full where it is met), its slash-joined path and then that path with
`.sig`, followed by `INDEX_FILE_NAME` and `INDEX_SIG_FILE_NAME`: `2n + 2`
members for `n` files, the index last. -/
theorem archive_members_in_walk_order {Ctx : Type} (c : Consts) (env : Env) (evp : Evp Ctx)
    (world : World) (key : Nat) (rc : Int) (members : List (Bytes × Bytes)) (log : List Event)
    (hret : kindle_create_tar_from_directory c env evp world key = some (rc, members, log))
    (hrc : 0 ≤ rc)
    (hidx : ∀ f, world.index_file = some f → f.pos = f.data.length) :
    ∃ dir tar0, world.dir = some dir ∧ world.tar = some tar0
      ∧ members.map Prod.fst = tar0.entries.map Prod.fst
          ++ ((files_in dir []).map (fun p => [p.1, p.1 ++ [46, 115, 105, 103]])).flatten
          ++ [c.INDEX_FILE_NAME, c.INDEX_SIG_FILE_NAME]
      ∧ (tar0.entries = [] → members.length = 2 * (files_in dir []).length + 2) := by
  obtain ⟨dir, index_file, tar0, sig, h1, _, h3, h4, _⟩ :=
    tar_from_directory_inv c env evp world key rc members log hret hrc hidx
  refine ⟨dir, tar0, h1, h3, h4, fun he => ?_⟩
  have hl := congrArg List.length h4
  rw [he] at hl
  simp only [List.length_map, List.map_nil, List.nil_append, List.length_append,
    member_names_length, List.length_cons, List.length_nil] at hl
  omega

theorem archive_members_in_walk_order_witness :
    sampleMembers.map Prod.fst
        = [[97, 46, 115, 104], [97, 46, 115, 104, 46, 115, 105, 103],
           [115, 117, 98, 47, 98, 46, 116, 120, 116],
           [115, 117, 98, 47, 98, 46, 116, 120, 116, 46, 115, 105, 103],
           [73, 110, 100, 101, 120], [73, 110, 100, 101, 120, 46, 115, 105, 103]]
      ∧ sampleMembers.length = 6 := by
  obtain ⟨dir, tar0, h1, h2, h3, h4⟩ :=
    archive_members_in_walk_order sampleConsts sampleEnv sampleEvp sampleWorld 7 0
      sampleMembers sampleLog (by decide) (by decide)
      (fun f hf => by cases hf; rfl)
  cases h1
  cases h2
  exact ⟨h3.trans (by decide), (h4 rfl).trans (by decide)⟩

theorem digest_string_plain (c : Consts) (env : Env) (f : FileEnt) (file : FILE)
    (hs : f.stream = some file) (hl : (env.md5_sum file).2.length = c.MD5_HASH_LENGTH)
    (h0 : 0 ∉ (env.md5_sum file).2) :
    digest_string c env f = (env.md5_sum file).2 := by
  unfold digest_string
  rw [hs]
  simp only
  generalize (env.md5_sum file).2 = d at hl h0
  have h1 : poke (malloc (c.MD5_HASH_LENGTH + 1)) 0 d = some (cur d 1) := by
    have := poke_cur [] d (c.MD5_HASH_LENGTH + 1) (by omega)
    simp only [cur, List.map_nil, List.nil_append, List.length_nil] at this
    rw [malloc, this, ← hl]
    simp [cur]
  have h2 : poke (cur d 1) c.MD5_HASH_LENGTH [0] = some (cur (d ++ [0]) 0) := by
    rw [← hl]
    exact poke_cur d [0] 1 (by simp)
  have h3 : (cur (d ++ [0]) 0).takeWhile (fun b => b != some 0) = d.map some := by
    simp only [cur, List.map_append, List.map_cons, List.map_nil, List.replicate_zero,
      List.append_nil]
    rw [List.takeWhile_append_of_pos]
    · simp
    · intro b hb
      obtain ⟨a, ha, rfl⟩ := List.mem_map.mp hb
      have : a ≠ 0 := fun h => h0 (h ▸ ha)
      simpa using this
  simp only [md5_array, h1, h2, Option.bind_eq_bind, Option.some_bind, printed_string, h3,
    mapM_id_map_some, Option.getD_some]

/-- C7, as the code has it.  When `kindle_create_tar_from_directory` returns a
code that is not negative, the member `INDEX_FILE_NAME` holds one line per
file whose digest field is the digest string of the file, and that string is
what `md5_sum` stored for the file, as it stored it: `md` is not applied. -/
theorem index_digest_is_md5_sum_output {Ctx : Type} (c : Consts) (env : Env) (evp : Evp Ctx)
    (world : World) (key : Nat) (rc : Int) (members : List (Bytes × Bytes)) (log : List Event)
    (hret : kindle_create_tar_from_directory c env evp world key = some (rc, members, log))
    (hrc : 0 ≤ rc)
    (hfresh : ∀ f, world.index_file = some f → f.data = [] ∧ f.pos = 0) :
    ∃ dir sig, world.dir = some dir
      ∧ members.drop (members.length - 2)
        = [(c.INDEX_FILE_NAME,
            ((files_in dir []).map (fun p =>
              index_line (if env.IS_SCRIPT p.2.d_name then 129 else 128)
                (digest_string c env p.2) p.1 (p.2.st_size / c.BLOCK_SIZE) p.2.d_name)).flatten),
           (c.INDEX_SIG_FILE_NAME, sig)]
      ∧ ∀ p ∈ files_in dir [], ∀ file, p.2.stream = some file →
          (env.md5_sum file).2.length = c.MD5_HASH_LENGTH → 0 ∉ (env.md5_sum file).2 →
          digest_string c env p.2 = (env.md5_sum file).2 := by
  obtain ⟨dir, index_file, tar0, sig, h1, h2, _, _, h5⟩ :=
    tar_from_directory_inv c env evp world key rc members log hret hrc
      (fun f hf => by rw [(hfresh f hf).1, (hfresh f hf).2]; rfl)
  refine ⟨dir, sig, h1, ?_, fun p _ file hs hl h0 => digest_string_plain c env p.2 file hs hl h0⟩
  rw [h5, (hfresh index_file h2).1, List.nil_append]
  rfl

theorem index_digest_is_md5_sum_output_witness :
    sampleMembers.drop (sampleMembers.length - 2)
        = [([73, 110, 100, 101, 120], sampleIndex),
           ([73, 110, 100, 101, 120, 46, 115, 105, 103], [7, 106])]
      ∧ digest_string sampleConsts sampleEnv sampleScript = [48, 48, 48, 54] := by
  obtain ⟨dir, sig, h1, h2, h3⟩ :=
    index_digest_is_md5_sum_output sampleConsts sampleEnv sampleEvp sampleWorld 7 0
      sampleMembers sampleLog (by decide) (by decide)
      (fun f hf => by cases hf; exact ⟨rfl, rfl⟩)
  cases h1
  exact ⟨by decide, (h3 ([97, 46, 115, 104], sampleScript) (List.Mem.head _) (fileOf [1, 2, 3]) rfl
    (by decide) (by decide)).trans (by decide)⟩

/-- C7 as stated fails on the sample tree: the digest field of the line of
`a.sh` is `0006`, the string `md5_sum` stored, while `md` of it is another
string; the index is not the one with disguised digests. -/
theorem index_digest_disguised_counterexample :
    kindle_create_tar_from_directory sampleConsts sampleEnv sampleEvp sampleWorld 7
        = some (0, sampleMembers, sampleLog)
      ∧ sampleMembers.lookup sampleConsts.INDEX_FILE_NAME
        = some (index_of sampleConsts sampleEnv (files_in sampleTree []))
      ∧ index_of sampleConsts sampleEnv (files_in sampleTree [])
        ≠ disguised_index_of sampleConsts sampleEnv (files_in sampleTree [])
      ∧ (sampleEnv.md5_sum (fileOf [1, 2, 3])).2 = [48, 48, 48, 54]
      ∧ digest_string sampleConsts sampleEnv sampleScript = [48, 48, 48, 54]
      ∧ sampleEnv.md [48, 48, 48, 54] = [207, 207, 207, 201] := by
  decide

/-! ## Dispatch -/

/-- C11. `kindle_create` selects the builder by `info->version`: for
`OTAUpdate` its result is that of `kindle_create_ota_update`, for
`RecoveryUpdate` that of `kindle_create_recovery`, for `OTAUpdateV2` it is the
two-stage build over the stream `tmpfile()` returns (`-1` with `output` as it
was when `tmpfile()` fails); for every other version the result is `-1` with
`output` exactly as it was, whatever the input stream and the collaborators
are, so that neither is consulted. -/
theorem kindle_create_selects_builder {Ctx : Type} (c : Consts) (L : Layout) (env : Env)
    (evp : Evp Ctx) (info : UpdateInformation) (input_tgz output : FILE) :
    (info.version = BundleVersion.OTAUpdate →
        kindle_create c L env evp info input_tgz output
          = kindle_create_ota_update c L env info input_tgz output)
      ∧ (info.version = BundleVersion.RecoveryUpdate →
        kindle_create c L env evp info input_tgz output
          = kindle_create_recovery c L env info input_tgz output)
      ∧ (info.version = BundleVersion.OTAUpdateV2 →
        (∀ temp, env.tmpfile = some temp →
          kindle_create c L env evp info input_tgz output
            = kindle_create_two_stage c L env evp info input_tgz temp output)
        ∧ (env.tmpfile = none →
          kindle_create c L env evp info input_tgz output = some (-1, output)))
      ∧ (info.version ≠ BundleVersion.OTAUpdate → info.version ≠ BundleVersion.RecoveryUpdate →
        info.version ≠ BundleVersion.OTAUpdateV2 →
        ∀ (env2 : Env) (evp2 : Evp Ctx) (input2 : FILE),
          kindle_create c L env2 evp2 info input2 output = some (-1, output)) := by
  refine ⟨fun h => ?_, fun h => ?_, fun h => ⟨fun temp ht => ?_, fun ht => ?_⟩,
    fun h1 h2 h3 env2 evp2 input2 => ?_⟩
  · unfold kindle_create; rw [h]
  · unfold kindle_create; rw [h]
  · unfold kindle_create; rw [h]; simp only [ht]
  · unfold kindle_create; rw [h]; simp only [ht]
  · unfold kindle_create
    cases hv : info.version with
    | OTAUpdate => exact absurd hv h1
    | RecoveryUpdate => exact absurd hv h2
    | OTAUpdateV2 => exact absurd hv h3
    | UpdateSignature => rfl
    | UnknownUpdate => rfl

theorem kindle_create_selects_builder_witness :
    kindle_create sampleConsts sampleLayout sampleEnv sampleEvp sampleOta (fileOf [10, 20, 30])
        emptyFile = some (0, sampleOtaOut)
      ∧ kindle_create sampleConsts sampleLayout sampleEnv sampleEvp sampleRecovery
        (fileOf [10, 20, 30]) emptyFile = some (0, sampleRecoveryOut)
      ∧ kindle_create sampleConsts sampleLayout sampleEnv sampleEvp sampleOta2
        (fileOf [10, 20, 30]) emptyFile
        = kindle_create_two_stage sampleConsts sampleLayout sampleEnv sampleEvp sampleOta2
          (fileOf [10, 20, 30]) emptyFile emptyFile
      ∧ kindle_create sampleConsts sampleLayout failingEnv sampleEvp sampleOta2
        (fileOf [10, 20, 30]) (fileOf [1, 2]) = some (-1, fileOf [1, 2])
      ∧ kindle_create sampleConsts sampleLayout failingEnv sampleEvp sampleUnknown
        (fileOf [10, 20, 30]) (fileOf [1, 2]) = some (-1, fileOf [1, 2]) :=
  ⟨((kindle_create_selects_builder sampleConsts sampleLayout sampleEnv sampleEvp sampleOta
      (fileOf [10, 20, 30]) emptyFile).1 rfl).trans (by decide),
   ((kindle_create_selects_builder sampleConsts sampleLayout sampleEnv sampleEvp sampleRecovery
      (fileOf [10, 20, 30]) emptyFile).2.1 rfl).trans (by decide),
   ((kindle_create_selects_builder sampleConsts sampleLayout sampleEnv sampleEvp sampleOta2
      (fileOf [10, 20, 30]) emptyFile).2.2.1 rfl).1 emptyFile rfl,
   ((kindle_create_selects_builder sampleConsts sampleLayout failingEnv sampleEvp sampleOta2
      (fileOf [10, 20, 30]) (fileOf [1, 2])).2.2.1 rfl).2 rfl,
   (kindle_create_selects_builder sampleConsts sampleLayout sampleEnv sampleEvp sampleUnknown
      (fileOf [10, 20, 30]) (fileOf [1, 2])).2.2.2 (by decide) (by decide) (by decide)
      failingEnv sampleEvp (fileOf [10, 20, 30])⟩

/-! ## Return codes of `sign_file` -/

/-- C14, as the code has it.  `sign_file` returns 0 exactly when the key
adaptation, the digest initialisation, every update of the loop, the read of
the input, the final signing and the write of the signature all succeed.  When
it returns a negative value other than `-7`, `sigout_file` is as it was; when
it returns `-7` the write came up short and the bytes written are a proper
prefix of the signature. -/
theorem sign_file_codes {Ctx : Type} (c : Consts) (evp : Evp Ctx) (in_file : FILE) (key : Nat)
    (sigout_file : FILE) :
    ((sign_file c evp in_file key sigout_file).1 = 0 ↔
        evp.EVP_PKEY_set1_RSA key = true
          ∧ ∃ ctx0 ctx sig, evp.EVP_SignInit = some ctx0
            ∧ (sign_loop evp c.BUFFER_SIZE ctx0 in_file).1 = some ctx
            ∧ ferror (sign_loop evp c.BUFFER_SIZE ctx0 in_file).2 = false
            ∧ evp.EVP_SignFinal ctx key = some sig
            ∧ (fwrite sig sigout_file).1 = sig.length)
      ∧ ((sign_file c evp in_file key sigout_file).1 < 0 →
          (sign_file c evp in_file key sigout_file).1 ≠ -7 →
          (sign_file c evp in_file key sigout_file).2.2 = sigout_file)
      ∧ ((sign_file c evp in_file key sigout_file).1 = -7 →
          ∃ ctx sig k, evp.EVP_SignFinal ctx key = some sig ∧ k < sig.length
            ∧ (sign_file c evp in_file key sigout_file).2.2.data
              = sigout_file.data.take sigout_file.pos ++ sig.take k
                ++ sigout_file.data.drop (sigout_file.pos + k)) := by
  unfold sign_file
  by_cases hk : evp.EVP_PKEY_set1_RSA key = false
  · rw [if_pos hk]
    simp [hk]
  · rw [if_neg hk]
    have hk2 : evp.EVP_PKEY_set1_RSA key = true := by simpa using hk
    cases hi : evp.EVP_SignInit with
    | none => simp
    | some ctx0 =>
      simp only
      rcases hl : sign_loop evp c.BUFFER_SIZE ctx0 in_file with ⟨_ | ctx, f2⟩
      · simp [hl]
      · simp only
        by_cases he : ferror f2 = true
        · rw [if_pos he]
          simp [hl, he]
        · rw [if_neg he]
          have he2 : ferror f2 = false := by simpa using he
          cases hf : evp.EVP_SignFinal ctx key with
          | none => simp [hl, hf]
          | some sig =>
            simp only
            have hle : (fwrite sig sigout_file).1 ≤ sig.length := by
              unfold fwrite
              cases sigout_file.wroom with
              | none => exact Nat.le_refl _
              | some r => exact Nat.min_le_right _ _
            by_cases hw : (fwrite sig sigout_file).1 < sig.length
            · rw [if_pos hw]
              refine ⟨?_, ?_, ?_⟩
              · simp only [hk2, true_and]
                constructor
                · intro h; cases h
                · rintro ⟨a, b, s, ha, hb, _, hs, hlen⟩
                  cases ha
                  rw [hl] at hb
                  cases hb
                  rw [hf] at hs
                  cases hs
                  omega
              · intro _ h; exact absurd rfl h
              · intro _
                exact ⟨ctx, sig, (fwrite sig sigout_file).1, hf, hw, rfl⟩
            · rw [if_neg hw]
              refine ⟨?_, ?_, ?_⟩
              · simp only [hk2, true_and, true_iff]
                exact ⟨ctx0, ctx, sig, rfl, by rw [hl], by rw [hl]; exact he2, hf, by omega⟩
              · intro h; exact absurd h (by simp)
              · intro h; exact absurd h (by simp)

theorem sign_file_codes_witness :
    (sign_file sampleConsts sampleEvp (fileOf [1, 2, 3]) 7 emptyFile).1 = 0
      ∧ (sign_file sampleConsts failingEvp (fileOf [1, 2, 3]) 7 (fileOf [9])).2.2 = fileOf [9]
      ∧ ∃ ctx sig k, sampleEvp.EVP_SignFinal ctx 7 = some sig ∧ k < sig.length
          ∧ (sign_file sampleConsts sampleEvp (fileOf [1, 2, 3]) 7 oneByteFile).2.2.data
            = oneByteFile.data.take oneByteFile.pos ++ sig.take k
              ++ oneByteFile.data.drop (oneByteFile.pos + k) :=
  ⟨(sign_file_codes sampleConsts sampleEvp (fileOf [1, 2, 3]) 7 emptyFile).1.mpr
      ⟨rfl, [], [1, 2, 3], [7, 6], rfl, by decide, by decide, rfl, by decide⟩,
   (sign_file_codes sampleConsts failingEvp (fileOf [1, 2, 3]) 7 (fileOf [9])).2.1
      (by decide) (by decide),
   (sign_file_codes sampleConsts sampleEvp (fileOf [1, 2, 3]) 7 oneByteFile).2.2 (by decide)⟩

/-- C14 as stated fails when the write comes up short: with room for one byte
in `sigout_file`, `sign_file` returns `-7` after the first byte of the
signature `[7, 6]` was written. -/
theorem sign_file_partial_signature_counterexample :
    (sign_file sampleConsts sampleEvp (fileOf [1, 2, 3]) 7 oneByteFile).1 = -7
      ∧ oneByteFile.data = []
      ∧ sampleEvp.EVP_SignFinal [1, 2, 3] 7 = some [7, 6]
      ∧ (sign_file sampleConsts sampleEvp (fileOf [1, 2, 3]) 7 oneByteFile).2.2.data = [7] := by
  decide

/-! ## Device names -/

/-- C18, evaluated.  The comparisons of the option `-d` run in the order of the
source, so a name is taken by the first shorter name that is a prefix of it:
`k2i` stores `Kindle2US`, `dxi` and `dxg` store `KindleDXUS`, `k3gb` stores
`Kindle3Wifi3G`; the other eight names store the constant written next to
them; and names outside the twelve are accepted when they start like one of
them (`k1x`, `k3`, `k5`), while `kx` is rejected. -/
theorem device_names_taken_by_shorter_name :
    device_case [107, 50, 105] = some (Device.Kindle2US, none)
      ∧ device_case [100, 120, 105] = some (Device.KindleDXUS, none)
      ∧ device_case [100, 120, 103] = some (Device.KindleDXUS, none)
      ∧ device_case [107, 51, 103, 98] = some (Device.Kindle3Wifi3G, none)
      ∧ (device_option sampleDeviceValue [107, 50, 105] sampleUnknown).map
          (fun r => r.map (fun info => (info.num_devices, info.devices)))
        = some (some (2, [3, sampleDeviceValue Device.Kindle2US]))
      ∧ device_case [107, 49] = some (Device.Kindle1, none)
      ∧ device_case [107, 50] = some (Device.Kindle2US, none)
      ∧ device_case [100, 120] = some (Device.KindleDXUS, none)
      ∧ device_case [107, 51, 119] = some (Device.Kindle3Wifi, none)
      ∧ device_case [107, 51, 103] = some (Device.Kindle3Wifi3G, none)
      ∧ device_case [107, 52] = some (Device.Kindle4NonTouch, some [70, 67, 48, 52])
      ∧ device_case [107, 53, 119] = some (Device.Kindle5TouchWifi, some [70, 68, 48, 52])
      ∧ device_case [107, 53, 103] = some (Device.Kindle5TouchWifi3G, some [70, 68, 48, 52])
      ∧ device_case [107, 49, 120] = some (Device.Kindle1, none)
      ∧ device_case [107, 51] = some (Device.Kindle3Wifi3G, none)
      ∧ device_case [107, 53] = some (Device.Kindle5TouchWifi3G, some [70, 68, 48, 52])
      ∧ device_case [107, 120] = none := by
  and_intros <;> decide

/-! ## Resources on the error paths -/

/-- C13, evaluated.  When `stat` fails on the only entry of the directory,
`kindle_create_tar_from_directory` returns `-1` with the directory handle 0
still open: it is closed on the way that returns 0 only.  With an archive that
accepts no member the stream of the first file is closed before
`tar_append_file` fails and `on_error` closes it a second time, so the call
has no defined result; and when signing the index fails its scratch signature
file (name 3) is left behind.  On the sample tree, where every step succeeds,
each resource is released once. -/
theorem error_paths_leave_resources :
    kindle_create_tar_from_directory sampleConsts sampleEnv sampleEvp unreadableWorld 7
        = some (-1, [], [Event.opendir 0, Event.fopen 1, Event.create 0, Event.remove 1,
            Event.fclose 1, Event.tar_close, Event.remove 0])
      ∧ released_once [Event.opendir 0, Event.fopen 1, Event.create 0, Event.remove 1,
            Event.fclose 1, Event.tar_close, Event.remove 0] = false
      ∧ kindle_create_tar_from_directory sampleConsts sampleEnv sampleEvp fullTarWorld 7 = none
      ∧ close_if Event.fclose [Event.fopen 2, Event.fopen 3, Event.create 1, Event.fclose 2]
          (some 2) = none
      ∧ (((kindle_create_tar_from_directory sampleConsts sampleEnv sampleEvp shortSigWorld 7).map
          (fun r => (r.1, r.2.2.contains (Event.create 3), r.2.2.contains (Event.remove 3),
            released_once r.2.2))) = some (-1, true, false, false))
      ∧ released_once sampleLog = true := by
  and_intros <;> decide

/-! ## The OTA2 header buffer -/

theorem cstr_no_nul (s : Bytes) : 0 ∉ cstr s := by
  unfold cstr
  intro h
  have := List.mem_takeWhile_imp h
  simp at this

theorem cstr_of_no_nul (s : Bytes) (h : 0 ∉ s) : cstr s = s := by
  unfold cstr
  rw [List.takeWhile_eq_self_iff]
  intro b hb
  have : b ≠ 0 := fun e => h (e ▸ hb)
  simpa using this

theorem cstr_append_zeros (p : Bytes) (n : Nat) (h : 0 ∉ p) :
    cstr (p ++ List.replicate n 0) = p := by
  unfold cstr
  rw [List.takeWhile_append_of_pos]
  · cases n with
    | zero => simp
    | succ n => simp [List.replicate_succ, List.takeWhile_cons]
  · intro b hb
    have : b ≠ 0 := fun e => h (e ▸ hb)
    simpa using this

theorem strncpy_idem (m : Bytes) (n : Nat) : strncpy (strncpy m n) n = strncpy m n := by
  have h0 : 0 ∉ (cstr m).take n := fun h => cstr_no_nul m (List.mem_of_mem_take h)
  have hc : cstr (strncpy m n) = (cstr m).take n := by
    unfold strncpy
    exact cstr_append_zeros _ _ h0
  have hl : ((cstr m).take n).length ≤ n := by simp
  have hs : strncpy (strncpy m n) n = (cstr (strncpy m n)).take n
      ++ List.replicate (n - ((cstr (strncpy m n)).take n).length) 0 := rfl
  rw [hs, hc, List.take_of_length_le hl]
  rfl

theorem ota2_build_header_magic (c : Consts) (env : Env) (info : UpdateInformation)
    (input_tgz : FILE) :
    ota2_build_header c env
        { info with magic_number := strncpy info.magic_number c.MAGIC_NUMBER_LENGTH } input_tgz
      = ota2_build_header c env info input_tgz := by
  unfold ota2_build_header ota2_header_front ota2_header_back
  simp only [strncpy_idem]

theorem strncpy_is_nulPadded (m : Bytes) (n : Nat) : NulPadded (strncpy m n) := by
  have h0 : 0 ∉ (cstr m).take n := fun h => cstr_no_nul m (List.mem_of_mem_take h)
  unfold NulPadded strncpy
  generalize (cstr m).take n = p at h0
  generalize n - p.length = k
  induction p with
  | nil =>
    cases k with
    | zero => rfl
    | succ k => simp [List.replicate_succ, List.dropWhile_cons]
  | cons a t ih =>
    have ha : a ≠ 0 := fun e => h0 (by rw [e]; exact List.mem_cons_self _ _)
    have ht : 0 ∉ t := fun h => h0 (List.mem_cons_of_mem _ h)
    simp only [List.cons_append, List.dropWhile_cons, bne_iff_ne, ne_eq, ha, not_false_eq_true,
      decide_True, if_true]
    exact ih ht

/-- C17. For an OTA2 request with `N = num_devices` devices and meta strings
of lengths `l_1 .. l_M`, every store of `kindle_create_ota_update_v2` into the
header buffer lies within the size the buffer has at that moment (a store that
leaves the buffer has no result in the model, and the build has one); when the
header is handed to `fwrite` the cursor `index` equals `header_size`, which is
`MAGIC_NUMBER_LENGTH + OTA_UPDATE_V2_BLOCK_SIZE + 2N
+ OTA_UPDATE_V2_PART_2_BLOCK_SIZE + sum (l_i + 2)`, the buffer has exactly that
many bytes and every one of them was written. -/
theorem ota2_header_buffer_exact (c : Consts) (env : Env) (info : UpdateInformation)
    (input_tgz : FILE)
    (hmagic : c.MAGIC_NUMBER_LENGTH = 4)
    (hblock : c.OTA_UPDATE_V2_BLOCK_SIZE = 8 + 8 + 2)
    (hpart2 : c.OTA_UPDATE_V2_PART_2_BLOCK_SIZE = 1 + 1 + c.MD5_HASH_LENGTH + 2)
    (hN : info.num_devices = info.devices.length)
    (hM : info.num_meta = info.metastrings.length)
    (hsize : ota2_header_size c info ≤ INT_MAX)
    (hrc : 0 ≤ (env.md5_sum input_tgz).1)
    (hd1 : c.MD5_HASH_LENGTH ≤ (env.md5_sum input_tgz).2.length)
    (hd2 : (env.md5_sum input_tgz).2.length ≤ c.MD5_HASH_LENGTH + 2)
    (hmd : (env.md ((env.md5_sum input_tgz).2.take c.MD5_HASH_LENGTH)).length
      = c.MD5_HASH_LENGTH) :
    ∃ st bytes, ota2_build_header c env info input_tgz = some (0, st)
      ∧ st.index = st.header_size
      ∧ st.header_size = c.MAGIC_NUMBER_LENGTH + c.OTA_UPDATE_V2_BLOCK_SIZE
          + 2 * info.num_devices + c.OTA_UPDATE_V2_PART_2_BLOCK_SIZE
          + (info.metastrings.map (fun s => strlen s + 2)).sum
      ∧ st.header.length = st.header_size
      ∧ peek st.header 0 st.header_size = some bytes
      ∧ bytes.length = st.header_size := by
  have hb := ota2_build_header_eq c env
    { info with magic_number := strncpy info.magic_number c.MAGIC_NUMBER_LENGTH } input_tgz
    hmagic hblock hpart2 (by rw [hmagic]; exact strncpy_length _ _)
    (strncpy_is_nulPadded _ _) hN hM hsize hrc hd1 hd2 hmd
  rw [ota2_build_header_magic] at hb
  refine ⟨_, _, hb, ?_, ?_, ?_, ?_, rfl⟩
  · rfl
  · show (ota2_header_layout _ _).length = _
    rw [ota2_header_layout_length, hmd, hN, hmagic, hblock, hpart2]
    simp only [strncpy_length, meta_size]
    omega
  · show (cur _ _).length = _
    rw [cur_length]
    simp only [HeaderState.filled]
    omega
  · simp only [HeaderState.filled, Nat.sub_self]
    exact peek_cur_all _

theorem ota2_header_buffer_exact_witness :
    ∃ st bytes, ota2_build_header sampleConsts sampleEnv sampleOta2 (fileOf [10, 20, 30])
        = some (0, st)
      ∧ st.index = st.header_size
      ∧ st.header_size = sampleConsts.MAGIC_NUMBER_LENGTH + sampleConsts.OTA_UPDATE_V2_BLOCK_SIZE
          + 2 * sampleOta2.num_devices + sampleConsts.OTA_UPDATE_V2_PART_2_BLOCK_SIZE
          + (sampleOta2.metastrings.map (fun s => strlen s + 2)).sum
      ∧ st.header.length = st.header_size
      ∧ peek st.header 0 st.header_size = some bytes
      ∧ bytes.length = st.header_size :=
  ota2_header_buffer_exact sampleConsts sampleEnv sampleOta2 (fileOf [10, 20, 30]) rfl rfl rfl
    rfl rfl (by decide) (by decide) (by decide) (by decide) (by decide)

/-! ## Determinism of the fixed-size headers -/

theorem store_outside (obj : Bytes) (off : Nat) (src obj2 : Bytes)
    (h : store obj off src = some obj2) (i : Nat) (hi : ¬ (off ≤ i ∧ i < off + src.length)) :
    obj2[i]? = obj[i]? := by
  obtain ⟨hb, e⟩ := store_eq _ _ _ _ h
  rw [e]
  by_cases h1 : i < off
  · rw [List.append_assoc, List.getElem?_append_left (by simp only [List.length_take]; omega)]
    simp only [List.getElem?_take]
    rw [if_pos h1]
  · rw [List.getElem?_append_right
      (by simp only [List.length_append, List.length_take]; omega)]
    simp only [List.length_append, List.length_take, List.getElem?_drop]
    congr 1
    omega

theorem zeroOutside_memset0 (n : Nat) : ZeroOutside (memset0 n) [] := by
  intro i hi _
  unfold memset0 at hi ⊢
  rw [List.length_replicate] at hi
  simp [List.getElem?_replicate, hi]

theorem zeroOutside_store (obj : Bytes) (off : Nat) (src obj2 : Bytes) (n : Nat)
    (ranges : List (Nat × Nat)) (hz : ZeroOutside obj ranges)
    (h : store obj off src = some obj2) (hn : src.length ≤ n) :
    ZeroOutside obj2 ((off, n) :: ranges) := by
  intro i hi hr
  have hl := store_length _ _ _ _ h
  have h0 := hr (off, n) (List.mem_cons_self _ _)
  simp only at h0
  rw [store_outside obj off src obj2 h i (by omega)]
  exact hz i (by omega) (fun r hr2 => hr r (List.mem_cons_of_mem _ hr2))

theorem zeroOutside_take (obj : Bytes) (n : Nat) (ranges : List (Nat × Nat))
    (hz : ZeroOutside obj ranges) : ZeroOutside (obj.take n) ranges := by
  intro i hi hr
  simp only [List.length_take] at hi
  simp only [List.getElem?_take]
  rw [if_pos (by omega)]
  exact hz i (by omega) hr

theorem zeroOutside_record (c : Consts) (env : Env) (header : Bytes) (off size : Nat)
    (input_tgz : FILE) (H : Bytes) (ranges : List (Nat × Nat))
    (hz : ZeroOutside header ranges)
    (hH : fixed_header_record c env header off size input_tgz = some H) :
    ZeroOutside H ((off, c.MD5_HASH_LENGTH) :: (off, (env.md5_sum input_tgz).2.length)
      :: ranges) := by
  unfold fixed_header_record at hH
  simp only [Option.bind_eq_bind, Option.bind_eq_some] at hH
  obtain ⟨h1, e1, hash, _, h2, e2, e3⟩ := hH
  obtain ⟨_, e4⟩ := load_eq _ _ _ _ e3
  rw [e4, List.drop_zero]
  exact zeroOutside_take _ _ _
    (zeroOutside_store _ _ _ _ _ _ (zeroOutside_store _ _ _ _ _ _ hz e1 (Nat.le_refl _)) e2
      (by simp only [List.length_take]; omega))

theorem zeroOutside_ota_fields (L : Layout) (info : UpdateInformation) (header : Bytes)
    (h : ota_update_fields L info = some header) :
    ZeroOutside header [(L.ota_optional, 1), (L.ota_device, 2), (L.ota_target_revision, 4),
      (L.ota_source_revision, 4), (L.magic_number, 4)] := by
  unfold ota_update_fields at h
  simp only [Option.bind_eq_bind, Option.bind_eq_some] at h
  obtain ⟨m0, e0, m1, e1, m2, e2, device, _, m3, e3, e4⟩ := h
  exact zeroOutside_store _ _ _ _ _ _ (zeroOutside_store _ _ _ _ _ _
    (zeroOutside_store _ _ _ _ _ _ (zeroOutside_store _ _ _ _ _ _
      (zeroOutside_store _ _ _ _ _ _ (zeroOutside_memset0 _) e0
        (by rw [strncpy_length])) e1 (by rw [le_length])) e2 (by rw [le_length])) e3
          (by rw [le_length])) e4 (by rw [le_length])

theorem zeroOutside_recovery_fields (L : Layout) (info : UpdateInformation) (header : Bytes)
    (h : recovery_fields L info = some header) :
    ZeroOutside header [(L.recovery_device, 4), (L.recovery_minor, 4), (L.recovery_magic_2, 4),
      (L.recovery_magic_1, 4), (L.magic_number, 4)] := by
  unfold recovery_fields at h
  simp only [Option.bind_eq_bind, Option.bind_eq_some] at h
  obtain ⟨m0, e0, m1, e1, m2, e2, m3, e3, device, _, e4⟩ := h
  exact zeroOutside_store _ _ _ _ _ _ (zeroOutside_store _ _ _ _ _ _
    (zeroOutside_store _ _ _ _ _ _ (zeroOutside_store _ _ _ _ _ _
      (zeroOutside_store _ _ _ _ _ _ (zeroOutside_memset0 _) e0
        (by rw [strncpy_length])) e1 (by rw [le_length])) e2 (by rw [le_length])) e3
          (by rw [le_length])) e4 (by rw [le_length])

theorem fixed_header_finish_record (c : Consts) (env : Env) (header : Bytes) (off size : Nat)
    (input_tgz output out2 : FILE) (rc : Int)
    (hret : fixed_header_finish c env header off size input_tgz output = some (rc, out2))
    (hrc : 0 ≤ rc) :
    ∃ H, fixed_header_record c env header off size input_tgz = some H
      ∧ env.munger (rewind input_tgz) (fwrite H output).2 = (rc, out2) := by
  unfold fixed_header_finish at hret
  by_cases h5 : (env.md5_sum input_tgz).1 < 0
  · simp only [h5, if_true, Option.some.injEq, Prod.mk.injEq] at hret
    omega
  · simp only [h5, if_false] at hret
    cases hH : fixed_header_record c env header off size input_tgz with
    | none => rw [hH] at hret; simp at hret
    | some H =>
      rw [hH] at hret
      simp only [Option.bind_eq_bind, Option.some_bind] at hret
      by_cases hw : (fwrite H output).1 < size
      · simp only [hw, if_true, Option.some.injEq, Prod.mk.injEq] at hret
        omega
      · simp only [hw, if_false, Option.some.injEq] at hret
        exact ⟨H, rfl, hret⟩

/-- C15. The header record of an OTA or recovery request depends only on the
magic number, the fields of the format (`source_revision`, `target_revision`
and `optional` for OTA; `magic_1`, `magic_2` and `minor` for recovery),
`devices[0]` and the digest `md5_sum` stores for the payload: two requests
that agree on these give the same record, and for the same payload and output
the same result.  In the record that is written, every byte outside the
members that were assigned and the bytes `md5_sum` stored is zero. -/
theorem fixed_headers_deterministic (c : Consts) (L : Layout) (env : Env)
    (info1 info2 : UpdateInformation) (in1 in2 input_tgz output out2 : FILE) (rc : Int)
    (hmagic : info1.magic_number = info2.magic_number)
    (hdev : info1.devices[0]? = info2.devices[0]?)
    (hdigest : (env.md5_sum in1).2 = (env.md5_sum in2).2) :
    (info1.source_revision = info2.source_revision →
      info1.target_revision = info2.target_revision → info1.optional = info2.optional →
      ota_update_record c L env info1 in1 = ota_update_record c L env info2 in2
        ∧ kindle_create_ota_update c L env info1 input_tgz output
          = kindle_create_ota_update c L env info2 input_tgz output)
    ∧ (info1.magic_1 = info2.magic_1 → info1.magic_2 = info2.magic_2 →
      info1.minor = info2.minor →
      recovery_record c L env info1 in1 = recovery_record c L env info2 in2
        ∧ kindle_create_recovery c L env info1 input_tgz output
          = kindle_create_recovery c L env info2 input_tgz output)
    ∧ (kindle_create_ota_update c L env info1 input_tgz output = some (rc, out2) → 0 ≤ rc →
      ∃ H, ota_update_record c L env info1 input_tgz = some H
        ∧ ZeroOutside H [(L.ota_md5_sum, c.MD5_HASH_LENGTH),
            (L.ota_md5_sum, (env.md5_sum input_tgz).2.length), (L.ota_optional, 1),
            (L.ota_device, 2), (L.ota_target_revision, 4), (L.ota_source_revision, 4),
            (L.magic_number, 4)]
        ∧ env.munger (rewind input_tgz) (fwrite H output).2 = (rc, out2))
    ∧ (kindle_create_recovery c L env info1 input_tgz output = some (rc, out2) → 0 ≤ rc →
      ∃ H, recovery_record c L env info1 input_tgz = some H
        ∧ ZeroOutside H [(L.recovery_md5_sum, c.MD5_HASH_LENGTH),
            (L.recovery_md5_sum, (env.md5_sum input_tgz).2.length), (L.recovery_device, 4),
            (L.recovery_minor, 4), (L.recovery_magic_2, 4), (L.recovery_magic_1, 4),
            (L.magic_number, 4)]
        ∧ env.munger (rewind input_tgz) (fwrite H output).2 = (rc, out2)) := by
  refine ⟨fun h1 h2 h3 => ?_, fun h1 h2 h3 => ?_, fun hret hrc => ?_, fun hret hrc => ?_⟩
  · have hf : ota_update_fields L info1 = ota_update_fields L info2 := by
      unfold ota_update_fields
      rw [hmagic, hdev, h1, h2, h3]
    constructor
    · unfold ota_update_record fixed_header_record
      rw [hf, hdigest]
    · unfold kindle_create_ota_update
      rw [hf]
  · have hf : recovery_fields L info1 = recovery_fields L info2 := by
      unfold recovery_fields
      rw [hmagic, hdev, h1, h2, h3]
    constructor
    · unfold recovery_record fixed_header_record
      rw [hf, hdigest]
    · unfold kindle_create_recovery
      rw [hf]
  · unfold kindle_create_ota_update at hret
    simp only [Option.bind_eq_bind, Option.bind_eq_some] at hret
    obtain ⟨header, hf, hfin⟩ := hret
    obtain ⟨H, hH, hm⟩ := fixed_header_finish_record c env header _ _ _ _ _ _ hfin hrc
    refine ⟨H, ?_, zeroOutside_record c env header _ _ _ H _
      (zeroOutside_ota_fields L info1 header hf) hH, hm⟩
    unfold ota_update_record
    rw [hf]
    exact hH
  · unfold kindle_create_recovery at hret
    simp only [Option.bind_eq_bind, Option.bind_eq_some] at hret
    obtain ⟨header, hf, hfin⟩ := hret
    obtain ⟨H, hH, hm⟩ := fixed_header_finish_record c env header _ _ _ _ _ _ hfin hrc
    refine ⟨H, ?_, zeroOutside_record c env header _ _ _ H _
      (zeroOutside_recovery_fields L info1 header hf) hH, hm⟩
    unfold recovery_record
    rw [hf]
    exact hH

theorem fixed_headers_deterministic_witness :
    (ota_update_record sampleConsts sampleLayout sampleEnv sampleOta (fileOf [10, 20, 30])
        = ota_update_record sampleConsts sampleLayout sampleEnv sampleOtaOther
            (fileOf [30, 20, 10])
      ∧ kindle_create_ota_update sampleConsts sampleLayout sampleEnv sampleOta
          (fileOf [10, 20, 30]) emptyFile
        = kindle_create_ota_update sampleConsts sampleLayout sampleEnv sampleOtaOther
          (fileOf [10, 20, 30]) emptyFile)
    ∧ (recovery_record sampleConsts sampleLayout sampleEnv sampleRecovery (fileOf [10, 20, 30])
        = recovery_record sampleConsts sampleLayout sampleEnv sampleRecoveryOther
            (fileOf [30, 20, 10])
      ∧ kindle_create_recovery sampleConsts sampleLayout sampleEnv sampleRecovery
          (fileOf [10, 20, 30]) emptyFile
        = kindle_create_recovery sampleConsts sampleLayout sampleEnv sampleRecoveryOther
          (fileOf [10, 20, 30]) emptyFile)
    ∧ (∃ H, ota_update_record sampleConsts sampleLayout sampleEnv sampleOta
          (fileOf [10, 20, 30]) = some H
        ∧ ZeroOutside H [(16, 4), (16, 4), (14, 1), (12, 2), (8, 4), (4, 4), (0, 4)]
        ∧ sampleEnv.munger (rewind (fileOf [10, 20, 30])) (fwrite H emptyFile).2
          = (0, sampleOtaOut))
    ∧ (∃ H, recovery_record sampleConsts sampleLayout sampleEnv sampleRecovery
          (fileOf [10, 20, 30]) = some H
        ∧ ZeroOutside H [(16, 4), (16, 4), (32, 4), (28, 4), (24, 4), (20, 4), (0, 4)]
        ∧ sampleEnv.munger (rewind (fileOf [10, 20, 30])) (fwrite H emptyFile).2
          = (0, sampleRecoveryOut)) :=
  ⟨(fixed_headers_deterministic sampleConsts sampleLayout sampleEnv sampleOta sampleOtaOther
      (fileOf [10, 20, 30]) (fileOf [30, 20, 10]) (fileOf [10, 20, 30]) emptyFile sampleOtaOut 0
      rfl rfl (by decide)).1 rfl rfl rfl,
   (fixed_headers_deterministic sampleConsts sampleLayout sampleEnv sampleRecovery
      sampleRecoveryOther (fileOf [10, 20, 30]) (fileOf [30, 20, 10]) (fileOf [10, 20, 30])
      emptyFile sampleRecoveryOut 0 rfl rfl (by decide)).2.1 rfl rfl rfl,
   (fixed_headers_deterministic sampleConsts sampleLayout sampleEnv sampleOta sampleOtaOther
      (fileOf [10, 20, 30]) (fileOf [30, 20, 10]) (fileOf [10, 20, 30]) emptyFile sampleOtaOut 0
      rfl rfl (by decide)).2.2.1 (by decide) (by decide),
   (fixed_headers_deterministic sampleConsts sampleLayout sampleEnv sampleRecovery
      sampleRecoveryOther (fileOf [10, 20, 30]) (fileOf [30, 20, 10]) (fileOf [10, 20, 30])
      emptyFile sampleRecoveryOut 0 rfl rfl (by decide)).2.2.2 (by decide) (by decide)⟩

/-! ## The length of the digest -/

theorem bytes_length (l : Buf) (s : Bytes) (h : Buf.bytes l = some s) : s.length = l.length := by
  induction l generalizing s with
  | nil => simp [Buf.bytes] at h; subst h; rfl
  | cons a t ih =>
    cases a with
    | none => simp [Buf.bytes] at h
    | some b =>
      simp only [Buf.bytes, Option.map_eq_some'] at h
      obtain ⟨bs, hbs, rfl⟩ := h
      simp [ih bs hbs]

theorem takeWhile_stop_length (x : Buf) (rest : Buf) :
    ((x ++ some 0 :: rest).takeWhile (fun b => b != some 0)).length ≤ x.length := by
  induction x with
  | nil => simp [List.takeWhile_cons]
  | cons a t ih =>
    simp only [List.cons_append, List.takeWhile_cons]
    split
    · simp only [List.length_cons]; omega
    · simp

theorem poke_length (p : Buf) (i : Nat) (src : Bytes) (q : Buf) (h : poke p i src = some q) :
    q.length = p.length := by
  unfold poke at h
  split at h
  · cases h
    simp only [List.length_append, List.length_take, List.length_map, List.length_drop]
    omega
  · cases h

theorem printed_md5_length (c : Consts) (d s : Bytes)
    (h : (md5_array c d).bind printed_string = some s) : s.length ≤ c.MD5_HASH_LENGTH := by
  unfold md5_array at h
  simp only [Option.bind_eq_bind, Option.bind_eq_some] at h
  obtain ⟨b, ⟨a, ha, hb⟩, hs⟩ := h
  have hla := poke_length _ _ _ _ ha
  simp only [malloc, List.length_replicate] at hla
  unfold poke at hb
  rw [if_pos (by simp only [List.length_singleton]; omega)] at hb
  cases hb
  unfold printed_string at hs
  have hl := bytes_length _ _ hs
  rw [hl]
  have := takeWhile_stop_length (a.take c.MD5_HASH_LENGTH)
    (a.drop (c.MD5_HASH_LENGTH + [0].length))
  simp only [List.map_cons, List.map_nil, List.append_assoc, List.singleton_append]
  refine Nat.le_trans this ?_
  simp only [List.length_take]
  omega

theorem digest_string_length (c : Consts) (env : Env) (f : FileEnt) :
    (digest_string c env f).length ≤ c.MD5_HASH_LENGTH := by
  unfold digest_string
  cases f.stream with
  | none => simp
  | some file =>
    simp only
    cases h : (md5_array c (env.md5_sum file).2).bind printed_string with
    | none => simp
    | some s => exact printed_md5_length c _ s h

theorem ota2_layout_digest (info : UpdateInformation) (dis : Bytes) :
    ((ota2_header_layout info dis).drop (ota2_front_layout info).length).take dis.length = dis
      ∧ ((ota2_header_layout info dis).drop ((ota2_front_layout info).length + dis.length)).take 2
        = le 2 info.metastrings.length := by
  have e : ota2_header_layout info dis = ota2_front_layout info
      ++ (dis ++ (le 2 info.metastrings.length
        ++ (info.metastrings.map (fun s => be16 (strlen s) ++ cstr s)).flatten)) := by
    simp only [ota2_header_layout, ota2_front_layout, List.append_assoc]
  constructor
  · rw [e, List.drop_left, List.take_left]
  · rw [e, ← List.drop_drop, List.drop_left, List.drop_left]
    exact List.take_left' (le_length 2 _)

/-- C16, as the code has it.  In every header shape the disguised digest
occupies exactly `MD5_HASH_LENGTH` bytes: in the OTA2 header it starts after
the padding byte and the meta count follows `MD5_HASH_LENGTH` bytes later, in
the OTA and the recovery record the digest member holds `md` of the first
`MD5_HASH_LENGTH` bytes `md5_sum` stored.  The digest string of an index line
is printed from the same `md5_sum` output and has at most `MD5_HASH_LENGTH`
characters, so `MD5_HASH_LENGTH` is not less than the number of characters of
the digest in the index. -/
theorem digest_field_has_MD5_HASH_LENGTH_bytes (c : Consts) (L : Layout) (env : Env)
    (info : UpdateInformation) (input_tgz output out2 : FILE) (rc : Int) (f : FileEnt)
    (hd1 : c.MD5_HASH_LENGTH ≤ (env.md5_sum input_tgz).2.length)
    (hmd : (env.md ((env.md5_sum input_tgz).2.take c.MD5_HASH_LENGTH)).length
      = c.MD5_HASH_LENGTH) :
    (c.MAGIC_NUMBER_LENGTH = 4 → c.OTA_UPDATE_V2_BLOCK_SIZE = 8 + 8 + 2 →
      c.OTA_UPDATE_V2_PART_2_BLOCK_SIZE = 1 + 1 + c.MD5_HASH_LENGTH + 2 →
      info.magic_number.length = 4 → NulPadded info.magic_number →
      info.num_devices = info.devices.length → info.num_meta = info.metastrings.length →
      ota2_header_size c info ≤ INT_MAX → 0 ≤ (env.md5_sum input_tgz).1 →
      (env.md5_sum input_tgz).2.length ≤ c.MD5_HASH_LENGTH + 2 →
      ∃ H, kindle_create_ota_update_v2 c env info input_tgz output
          = some (if (fwrite H output).1 < H.length then (-1, (fwrite H output).2)
              else env.munger (rewind input_tgz) (fwrite H output).2)
        ∧ (H.drop (c.MAGIC_NUMBER_LENGTH + c.OTA_UPDATE_V2_BLOCK_SIZE + 2 * info.num_devices
              + 2)).take c.MD5_HASH_LENGTH
            = env.md ((env.md5_sum input_tgz).2.take c.MD5_HASH_LENGTH)
        ∧ (H.drop (c.MAGIC_NUMBER_LENGTH + c.OTA_UPDATE_V2_BLOCK_SIZE + 2 * info.num_devices
              + 2 + c.MD5_HASH_LENGTH)).take 2 = le 2 info.num_meta)
    ∧ (L.ota_md5_sum + c.MD5_HASH_LENGTH ≤ c.MAGIC_NUMBER_LENGTH + c.OTA_UPDATE_BLOCK_SIZE →
      kindle_create_ota_update c L env info input_tgz output = some (rc, out2) → 0 ≤ rc →
      ∃ H, ota_update_record c L env info input_tgz = some H
        ∧ load H L.ota_md5_sum c.MD5_HASH_LENGTH
          = some (env.md ((env.md5_sum input_tgz).2.take c.MD5_HASH_LENGTH)))
    ∧ (L.recovery_md5_sum + c.MD5_HASH_LENGTH
          ≤ c.MAGIC_NUMBER_LENGTH + c.RECOVERY_UPDATE_BLOCK_SIZE →
      kindle_create_recovery c L env info input_tgz output = some (rc, out2) → 0 ≤ rc →
      ∃ H, recovery_record c L env info input_tgz = some H
        ∧ load H L.recovery_md5_sum c.MD5_HASH_LENGTH
          = some (env.md ((env.md5_sum input_tgz).2.take c.MD5_HASH_LENGTH)))
    ∧ (digest_string c env f).length ≤ c.MD5_HASH_LENGTH := by
  refine ⟨fun hmagic hblock hpart2 hmag hpad hN hM hsize hrc hd2 => ?_,
    fun hfield hret hrc => ?_, fun hfield hret hrc => ?_, digest_string_length c env f⟩
  · refine ⟨_, ota2_written_header c env info input_tgz output hmagic hblock hpart2 hmag hpad
      hN hM hsize hrc hd1 hd2 hmd, ?_, ?_⟩
    · have h := (ota2_layout_digest info
        (env.md ((env.md5_sum input_tgz).2.take c.MD5_HASH_LENGTH))).1
      rw [ota2_front_layout_length, flatten_le2_length, hmd, hmag] at h
      rw [hmagic, hblock, hN]
      rw [show 4 + (8 + 8 + 2) + 2 * info.devices.length + 2
        = 4 + 20 + 2 * info.devices.length by omega]
      exact h
    · have h := (ota2_layout_digest info
        (env.md ((env.md5_sum input_tgz).2.take c.MD5_HASH_LENGTH))).2
      rw [ota2_front_layout_length, flatten_le2_length, hmd, hmag] at h
      rw [hmagic, hblock, hN, hM]
      rw [show 4 + (8 + 8 + 2) + 2 * info.devices.length + 2 + c.MD5_HASH_LENGTH
        = 4 + 20 + 2 * info.devices.length + c.MD5_HASH_LENGTH by omega]
      exact h
  · unfold kindle_create_ota_update at hret
    simp only [Option.bind_eq_bind, Option.bind_eq_some] at hret
    obtain ⟨header, hf, hfin⟩ := hret
    obtain ⟨H, hH, _⟩ := fixed_header_finish_record c env header _ _ _ _ _ _ hfin hrc
    refine ⟨H, ?_, (fixed_header_record_field c env header _ _ _ H hH hd1 hmd hfield).2⟩
    unfold ota_update_record
    rw [hf]
    exact hH
  · unfold kindle_create_recovery at hret
    simp only [Option.bind_eq_bind, Option.bind_eq_some] at hret
    obtain ⟨header, hf, hfin⟩ := hret
    obtain ⟨H, hH, _⟩ := fixed_header_finish_record c env header _ _ _ _ _ _ hfin hrc
    refine ⟨H, ?_, (fixed_header_record_field c env header _ _ _ H hH hd1 hmd hfield).2⟩
    unfold recovery_record
    rw [hf]
    exact hH

theorem digest_field_has_MD5_HASH_LENGTH_bytes_witness :
    (∃ H, kindle_create_ota_update_v2 digest32Consts hexEnv sampleOta2 emptyFile emptyFile
          = some (if (fwrite H emptyFile).1 < H.length then (-1, (fwrite H emptyFile).2)
              else hexEnv.munger (rewind emptyFile) (fwrite H emptyFile).2)
        ∧ (H.drop 28).take 32 = disguisedEmptyDigest
        ∧ (H.drop 60).take 2 = [2, 0])
    ∧ (∃ H, ota_update_record digest32Consts hexLayout hexEnv sampleOta emptyFile = some H
        ∧ load H 16 32 = some disguisedEmptyDigest)
    ∧ (∃ H, recovery_record digest32Consts hexLayout hexEnv sampleRecovery emptyFile = some H
        ∧ load H 16 32 = some disguisedEmptyDigest)
    ∧ (digest_string digest32Consts hexEnv emptyEnt).length ≤ 32 :=
  ⟨(digest_field_has_MD5_HASH_LENGTH_bytes digest32Consts hexLayout hexEnv sampleOta2 emptyFile
      emptyFile hexOtaOut 0 emptyEnt (by decide) (by decide)).1 rfl rfl rfl rfl (by decide) rfl
      rfl (by decide) (by decide) (by decide),
   (digest_field_has_MD5_HASH_LENGTH_bytes digest32Consts hexLayout hexEnv sampleOta emptyFile
      emptyFile hexOtaOut 0 emptyEnt (by decide) (by decide)).2.1 (by decide) (by decide)
      (by decide),
   (digest_field_has_MD5_HASH_LENGTH_bytes digest32Consts hexLayout hexEnv sampleRecovery
      emptyFile emptyFile hexRecoveryOut 0 emptyEnt (by decide) (by decide)).2.2.1 (by decide)
      (by decide) (by decide),
   (digest_field_has_MD5_HASH_LENGTH_bytes digest32Consts hexLayout hexEnv sampleOta emptyFile
      emptyFile hexOtaOut 0 emptyEnt (by decide) (by decide)).2.2.2⟩

set_option maxRecDepth 10000 in
/-- C16 as stated fails: with `MD5_HASH_LENGTH = 16` the digest of the index
line, 32 hexadecimal characters, does not fit where `md5_sum` stores it.  The
array `md5` of the walk and the header buffer of the OTA2 build are both
overrun, so neither has a result, while with `MD5_HASH_LENGTH = 32` both run
and the index line shows the 32 characters. -/
theorem digest_of_16_bytes_counterexample :
    digest16Consts.MD5_HASH_LENGTH = 16
      ∧ emptyDigest.length = 32
      ∧ (hexEnv.md5_sum emptyFile).2 = emptyDigest
      ∧ md5_array digest16Consts emptyDigest = none
      ∧ kindle_create_tar_from_directory digest16Consts hexEnv sampleEvp emptyFileWorld 7 = none
      ∧ (ota2_build_header digest16Consts hexEnv sampleOta2 emptyFile).isSome = false
      ∧ digest_string digest32Consts hexEnv emptyEnt = emptyDigest
      ∧ (kindle_create_tar_from_directory digest32Consts hexEnv sampleEvp emptyFileWorld 7).map
          (fun r => r.1) = some 0
      ∧ (ota2_build_header digest32Consts hexEnv sampleOta2 emptyFile).isSome = true := by
  and_intros <;> decide

/-! ## A failure after a file was added -/

/-- C12, evaluated.  On the tree `{a.sh, sub/b.txt, c.txt}` in which `fopen`
fails on `sub/b.txt`, the call of `kindle_sign_and_add_files` for the listing
of `sub` returns `-1`.  The enclosing call then goes to `on_error` while
`file` and `sigfile` still hold the streams of `a.sh` (handles 2 and 3), which
it closed after adding `a.sh`, and closes them a second time: the call has
no defined result, and neither has `kindle_create_tar_from_directory`.  Up to
the failure the walk ran as it does without it, and when the failure comes
before any handle of the call was closed (`stat` fails on the only entry) the
result is `-1` with nothing appended. -/
theorem failure_after_a_file_closes_twice :
    (kindle_sign_and_add_files sampleConsts sampleEnv sampleEvp 7 unopenedListing
        [115, 117, 98, 47] sampleTopStart).map (fun r => r.1) = some (-1)
      ∧ (kindle_sign_and_add_files sampleConsts sampleEnv sampleEvp 7 (nestedFailTree.take 3) []
          sampleTopStart).map (fun r => (r.1, r.2.log))
        = some (0, [Event.opendir 0, Event.fopen 1, Event.create 0, Event.fopen 2,
            Event.fopen 3, Event.create 1, Event.fclose 2, Event.fclose 3, Event.remove 1])
      ∧ on_error ⟨some 2, some 3, some 4, 1⟩
          ⟨emptyFile, ⟨[], none⟩,
           [Event.opendir 0, Event.fopen 1, Event.create 0, Event.fopen 2, Event.fopen 3,
            Event.create 1, Event.fclose 2, Event.fclose 3, Event.remove 1, Event.opendir 4,
            Event.remove 2], 5, 3⟩ = none
      ∧ kindle_sign_and_add_files sampleConsts sampleEnv sampleEvp 7 nestedFailTree []
          sampleTopStart = none
      ∧ kindle_create_tar_from_directory sampleConsts sampleEnv sampleEvp nestedFailWorld 7 = none
      ∧ kindle_create_tar_from_directory sampleConsts sampleEnv sampleEvp unreadableWorld 7
        = some (-1, [], [Event.opendir 0, Event.fopen 1, Event.create 0, Event.remove 1,
            Event.fclose 1, Event.tar_close, Event.remove 0]) := by
  and_intros <;> decide

end KindleTool
